import Mathlib

/-!
# prowtrans: the job transformation engine

A shallow embedding of `tools/prowtrans/cmd/prowtrans/main.go` and the
properties of its rule-application pipeline.

Conventions of the embedding

* A Go `string` is a byte sequence: `GoString = List UInt8`.  `len` is
  `List.length`, `s[:n]` is `List.take n`, `+` is `++`.
* A Go `map[string]string` is `GoMap = Option StrMap`: `none` is the nil map,
  `some m` a map with unique keys.  The entry list of a map is the order in
  which a `range` loop visits it in the run under consideration.
* A `sets.String` is a list of members (`StringSet`).
* A Go slice is a `List` (no code path under study tells a nil slice from an
  empty one apart in its result).
* A run that ends in a runtime panic is `Except.error` with the kind of fault.
* Functions of other packages (regular expressions, the container image
  reference codec, the `util` helpers of this repository) are fields of `Ext`.
-/

namespace Prowtrans

/-! ## Strings, maps, sets, faults -/

/-- A Go string: a sequence of bytes. -/
abbrev GoString := List UInt8

/-- The bytes (UTF-8) of a string literal. -/
def str (s : String) : GoString := s.toUTF8.data.toList

/-- A non-nil Go `map[string]string`: keys are unique. -/
abbrev StrMap := AList (fun _ : GoString => GoString)

/-- Equality of maps is decided on their entries. -/
instance StrMap.decEq : DecidableEq StrMap := fun a b =>
  decidable_of_iff (a.entries = b.entries) ⟨AList.ext, fun h => congrArg AList.entries h⟩

/-- A Go `map[string]string`; `none` is the nil map. -/
abbrev GoMap := Option StrMap

/-- The builtin `len(m)` of a map. -/
def GoMap.len : GoMap → Nat
  | none => 0
  | some m => m.entries.length

/-- The comma-ok lookup `v, ok := m[k]`; reading a nil map finds nothing. -/
def GoMap.get? : GoMap → GoString → Option GoString
  | none, _ => none
  | some m, k => m.lookup k

/-- The entries a `for k, v := range m` loop visits, in visiting order. -/
def GoMap.range : GoMap → List (GoString × GoString)
  | none => []
  | some m => m.entries.map (fun e => (e.1, e.2))

/-- The builtin `delete(m, k)`: a no-op on a nil map. -/
def GoMap.delete : GoMap → GoString → GoMap
  | none, _ => none
  | some m, k => some (m.erase k)

/-- A map literal built from key/value pairs (later pairs do not override). -/
def StrMap.ofPairs : List (GoString × GoString) → StrMap
  | [] => ∅
  | (k, v) :: rest => AList.insert k v (StrMap.ofPairs rest)

/-- A `sets.String`, as the list of its members. -/
abbrev StringSet := List GoString

/-- The method `Has`. -/
def StringSet.Has (s : StringSet) (x : GoString) : Bool := decide (x ∈ s)

/-- The builtin `len(s)`: the number of distinct members. -/
def StringSet.Len (s : StringSet) : Nat := s.dedup.length

/-- The method `List`: the members, sorted. -/
def StringSet.List (s : StringSet) : List GoString :=
  s.dedup.insertionSort (fun a b => a ≤ b)

/-- The runtime panics a run can end in. -/
inductive Fault where
  | badRegexp
  | nilPointer
  | nilMapWrite
  | sliceBounds
  | indexRange
  deriving DecidableEq, Repr

/-- The outcome of a run: a value, or a panic. -/
abbrev Run (α : Type) := Except Fault α

deriving instance DecidableEq for Except

/-- Go's short-circuit `a || b` over runs that may panic. -/
def Run.or (a : Run Bool) (b : Run Bool) : Run Bool :=
  match a with
  | .error e => .error e
  | .ok true => .ok true
  | .ok false => b

/-- Go's short-circuit `a && b` over runs that may panic. -/
def Run.and (a : Run Bool) (b : Run Bool) : Run Bool :=
  match a with
  | .error e => .error e
  | .ok false => .ok false
  | .ok true => b

/-- Go's `!a` over a run that may panic. -/
def Run.not (a : Run Bool) : Run Bool :=
  match a with
  | .error e => .error e
  | .ok b => .ok (!b)

/-! ## Constants of `main.go` -/

def filenameSeparator : GoString := str "."
def jobnameSeparator : GoString := str "_"
def gitHost : GoString := str "github.com"
def maxLabelLen : Int := 63
def defaultModifier : GoString := str "private"
def defaultCluster : GoString := str "default"
def yamlExt : GoString := str ".(yml|yaml)$"
def gerritReportLabel : GoString := str "prow.k8s.io/gerrit-report-label"

/-! ## The job document schema (the fields the rules touch) -/

/-- The type `prowjob.Refs`. -/
structure Refs where
  Org : GoString := []
  Repo : GoString := []
  BaseRef : GoString := []
  CloneURI : GoString := []
  deriving DecidableEq, Repr

/-- The type `v1.EnvVar`; `ValueFrom` stands for the optional value source. -/
structure EnvVar where
  Name : GoString := []
  Value : GoString := []
  ValueFrom : Option GoString := none
  deriving DecidableEq, Repr

/-- The type `v1.Volume`; `Source` stands for the volume source. -/
structure Volume where
  Name : GoString := []
  Source : GoString := []
  deriving DecidableEq, Repr

/-- The type `v1.VolumeMount`. -/
structure VolumeMount where
  Name : GoString := []
  MountPath : GoString := []
  ReadOnly : Bool := false
  deriving DecidableEq, Repr

/-- The type `v1.Container`. -/
structure Container where
  Name : GoString := []
  Image : GoString := []
  Env : List EnvVar := []
  VolumeMounts : List VolumeMount := []
  deriving DecidableEq, Repr

/-- The type `v1.PodSpec`. -/
structure PodSpec where
  Containers : List Container := []
  Volumes : List Volume := []
  NodeSelector : GoMap := none
  ServiceAccountName : GoString := []
  deriving DecidableEq

/-- The type `prowjob.GCSConfiguration`. -/
structure GCSConfiguration where
  Bucket : GoString := []
  PathStrategy : GoString := []
  deriving DecidableEq, Repr

/-- The type `prowjob.DecorationConfig`. -/
structure DecorationConfig where
  GCSConfiguration : Option GCSConfiguration := none
  SSHKeySecrets : List GoString := []
  deriving DecidableEq, Repr

/-- The type `prowjob.SlackReporterConfig`. -/
structure SlackReporterConfig where
  Channel : GoString := []
  ReportTemplate : GoString := []
  deriving DecidableEq, Repr

/-- The type `prowjob.ReporterConfig`. -/
structure ReporterConfig where
  Slack : Option SlackReporterConfig := none
  deriving DecidableEq, Repr

/-- The type `prowjob.RerunAuthConfig`. -/
structure RerunAuthConfig where
  AllowAnyone : Bool := false
  GitHubOrgs : List GoString := []
  GitHubUsers : List GoString := []
  deriving DecidableEq, Repr

/-- The type `config.UtilityConfig`. -/
structure UtilityConfig where
  CloneURI : GoString := []
  ExtraRefs : List Refs := []
  DecorationConfig : Option DecorationConfig := none
  deriving DecidableEq, Repr

/-- The type `config.JobBase`; `UtilityConfig` is its embedded struct. -/
structure JobBase where
  Name : GoString := []
  Labels : GoMap := none
  Annotations : GoMap := none
  Cluster : GoString := []
  Spec : Option PodSpec := none
  ReporterConfig : Option ReporterConfig := none
  RerunAuthConfig : Option RerunAuthConfig := none
  UtilityConfig : UtilityConfig := {}
  deriving DecidableEq

/-- The type `config.Brancher`. -/
structure Brancher where
  SkipBranches : List GoString := []
  Branches : List GoString := []
  deriving DecidableEq, Repr

/-- The type `config.Presubmit`. -/
structure Presubmit where
  JobBase : JobBase := {}
  Brancher : Brancher := {}
  Optional : Bool := false
  SkipReport : Bool := false
  deriving DecidableEq

/-- The type `config.Postsubmit`. -/
structure Postsubmit where
  JobBase : JobBase := {}
  Brancher : Brancher := {}
  SkipReport : Bool := false
  deriving DecidableEq

/-- The type `config.Periodic`. -/
structure Periodic where
  JobBase : JobBase := {}
  Cron : GoString := []
  deriving DecidableEq

/-- The type `config.Preset`. -/
structure Preset where
  Labels : GoMap := none
  Env : List EnvVar := []
  Volumes : List Volume := []
  VolumeMounts : List VolumeMount := []
  deriving DecidableEq

/-! ## Rule fragments and rule sets -/

/-- The type `configuration.Transform`: one fragment of rules. The zero value
of every field is its default. The field `Sort` is spelled `Sort_` here. -/
structure Transform where
  Annotations : GoMap := none
  Bucket : GoString := []
  Cluster : GoString := []
  Channel : GoString := []
  SSHKeySecret : GoString := []
  Modifier : GoString := []
  ServiceAccount : GoString := []
  Input : GoString := []
  Output : GoString := []
  Sort_ : GoString := []
  ExtraRefs : List Refs := []
  Branches : List GoString := []
  BranchesOut : List GoString := []
  RefBranchOut : GoString := []
  Presets : List GoString := []
  RerunOrgs : List GoString := []
  RerunUsers : List GoString := []
  EnvDenylist : List GoString := []
  VolumeDenylist : List GoString := []
  JobAllowlist : List GoString := []
  JobDenylist : List GoString := []
  RepoAllowlist : List GoString := []
  RepoDenylist : List GoString := []
  JobType : List GoString := []
  Selector : GoMap := none
  Labels : GoMap := none
  Env : GoMap := none
  OrgMap : GoMap := none
  RefOrgMap : GoMap := none
  HubMap : GoMap := none
  Tag : GoString := []
  DryRun : Bool := false
  Refs : Bool := false
  Resolve : Bool := false
  SSHClone : Bool := false
  OverrideSelector : Bool := false
  SupportGerritReporting : Bool := false
  AllowLongJobNames : Bool := false
  Verbose : Bool := false
  Clean : Bool := false
  deriving DecidableEq

/-- The type `options`: a rule set, with the sets derived from its lists. -/
structure options extends Transform where
  Configs : List GoString := []
  Global : GoString := []
  EnvDenylistSet : StringSet := []
  VolumeDenylistSet : StringSet := []
  JobAllowlistSet : StringSet := []
  JobDenylistSet : StringSet := []
  RepoAllowlistSet : StringSet := []
  RepoDenylistSet : StringSet := []
  JobTypeSet : StringSet := []
  deriving DecidableEq

/-- The options literal of `parseConfiguration`: the sets are built from the
lists of the layered transform. -/
def options.ofTransform (t : Transform) : options :=
  { toTransform := t
    EnvDenylistSet := t.EnvDenylist
    VolumeDenylistSet := t.VolumeDenylist
    JobAllowlistSet := t.JobAllowlist
    JobDenylistSet := t.JobDenylist
    RepoAllowlistSet := t.RepoAllowlist
    RepoDenylistSet := t.RepoDenylist
    JobTypeSet := t.JobType }

/-- A `map[string][]Job`: job lists keyed by `org/repo` (a nil map reads as
the empty map). -/
abbrev JobMap (α : Type) := AList (fun _ : GoString => List α)

/-- The type `config.JobConfig`: the content of one job document. -/
structure JobConfig where
  Presets : List Preset := []
  PresubmitsStatic : JobMap Presubmit := ∅
  PostsubmitsStatic : JobMap Postsubmit := ∅
  Periodics : List Periodic := []

/-! ## External collaborators -/

/-- The type `dockername.Tag`: a parsed image reference. -/
structure Tag where
  registry : GoString := []
  repository : GoString := []
  tag : GoString := []
  deriving DecidableEq, Repr

/-- The functions of other packages the engine calls. -/
structure Ext where
  /-- Whether `regexp.MustCompile pattern` returns (it panics otherwise). -/
  regexpValid : GoString → Bool
  /-- The call `regexp.MustCompile(pattern).MatchString(s)` of a valid pattern. -/
  regexpMatch : GoString → GoString → Bool
  /-- The call `dockername.NewTag(s)`: the tag returned, and whether the
  error returned with it is non-nil. -/
  NewTag : GoString → Tag × Bool
  /-- The call `tag.Context().Name()`. -/
  contextName : Tag → GoString
  /-- The call `tag.TagStr()`. -/
  tagStr : Tag → GoString
  /-- The call `tag.Name()`. -/
  tagName : Tag → GoString
  /-- The call `util.HasExtension(path, pattern)`. -/
  HasExtension : GoString → GoString → Bool
  /-- The call `util.RenameFile(pattern, file, replacement)`. -/
  RenameFile : GoString → GoString → GoString → GoString
  /-- The call `util.NormalizeOrg(org, separator)`. -/
  NormalizeOrg : GoString → GoString → GoString
  /-- The call `util.GetTopLevelOrg(org)`. -/
  GetTopLevelOrg : GoString → GoString
  /-- The call `util.NormalizeConfigName(name)`. -/
  NormalizeConfigName : GoString → GoString
  /-- The call `util.SplitOrgRepo(s)`. -/
  SplitOrgRepo : GoString → GoString × GoString
  /-- The call `jobConfig.SetPresubmits(jobs)` on an empty job config: the
  presubmits it holds afterwards, and whether the error returned is non-nil. -/
  SetPresubmits : JobMap Presubmit → JobMap Presubmit × Bool
  /-- The call `jobConfig.SetPostsubmits(jobs)`, likewise. -/
  SetPostsubmits : JobMap Postsubmit → JobMap Postsubmit × Bool

/-! ## Config layering -/

/-- The body of the loop of `applyDefaultTransforms`: one lower-precedence
fragment `src` applied to `dst`. -/
def applyDefaultTransform (dst src : Transform) : Transform :=
  { dst with
    Annotations := if dst.Annotations = none then src.Annotations else dst.Annotations
    Bucket := if dst.Bucket = [] then src.Bucket else dst.Bucket
    Cluster := if dst.Cluster = [] then src.Cluster else dst.Cluster
    Channel := if dst.Channel = [] then src.Channel else dst.Channel
    SSHKeySecret := if dst.SSHKeySecret = [] then src.SSHKeySecret else dst.SSHKeySecret
    Modifier := if dst.Modifier = [] then src.Modifier else dst.Modifier
    ServiceAccount := if dst.ServiceAccount = [] then src.ServiceAccount else dst.ServiceAccount
    Input := if dst.Input = [] then src.Input else dst.Input
    Output := if dst.Output = [] then src.Output else dst.Output
    Sort_ := if dst.Sort_ = [] then src.Sort_ else dst.Sort_
    ExtraRefs := if dst.ExtraRefs.length = 0 then src.ExtraRefs else dst.ExtraRefs
    Branches := if dst.Branches.length = 0 then src.Branches else dst.Branches
    BranchesOut := if dst.BranchesOut.length = 0 then src.BranchesOut else dst.BranchesOut
    RefBranchOut := if dst.RefBranchOut.length = 0 then src.RefBranchOut else dst.RefBranchOut
    Presets := if dst.Presets.length = 0 then src.Presets else dst.Presets
    RerunOrgs := if dst.RerunOrgs.length = 0 then src.RerunOrgs else dst.RerunOrgs
    RerunUsers := if dst.RerunUsers.length = 0 then src.RerunUsers else dst.RerunUsers
    EnvDenylist := if dst.EnvDenylist.length = 0 then src.EnvDenylist else dst.EnvDenylist
    VolumeDenylist := if dst.VolumeDenylist.length = 0 then src.VolumeDenylist else dst.VolumeDenylist
    JobAllowlist := if dst.JobAllowlist.length = 0 then src.JobAllowlist else dst.JobAllowlist
    JobDenylist := if dst.JobDenylist.length = 0 then src.JobDenylist else dst.JobDenylist
    RepoAllowlist := if dst.RepoAllowlist.length = 0 then src.RepoAllowlist else dst.RepoAllowlist
    RepoDenylist := if dst.RepoDenylist.length = 0 then src.RepoDenylist else dst.RepoDenylist
    JobType := if dst.JobType.length = 0 then src.JobType else dst.JobType
    Selector := if dst.Selector.len = 0 then src.Selector else dst.Selector
    Labels := if dst.Labels.len = 0 then src.Labels else dst.Labels
    Env := if dst.Env.len = 0 then src.Env else dst.Env
    OrgMap := if dst.OrgMap.len = 0 then src.OrgMap else dst.OrgMap
    RefOrgMap := if dst.RefOrgMap.len = 0 then src.RefOrgMap else dst.RefOrgMap
    HubMap := if dst.HubMap.len = 0 then src.HubMap else dst.HubMap
    Tag := if dst.Tag = [] then src.Tag else dst.Tag
    DryRun := if !dst.DryRun then src.DryRun else dst.DryRun
    Refs := if !dst.Refs then src.Refs else dst.Refs
    Resolve := if !dst.Resolve then src.Resolve else dst.Resolve
    SSHClone := if !dst.SSHClone then src.SSHClone else dst.SSHClone
    OverrideSelector := if !dst.OverrideSelector then src.OverrideSelector else dst.OverrideSelector
    AllowLongJobNames := if !dst.AllowLongJobNames then src.AllowLongJobNames else dst.AllowLongJobNames
    Verbose := if !dst.Verbose then src.Verbose else dst.Verbose
    Clean := if !dst.Clean then src.Clean else dst.Clean }

/-- The function `applyDefaultTransforms`: defaults `dst` from `srcs`, left to
right with decreasing precedence. The result is the final value of `*dst`. -/
def applyDefaultTransforms (dst : Transform) (srcs : List Transform) : Transform :=
  srcs.foldl applyDefaultTransform dst

/-! ## Org/repo translation gate and job filter -/

/-- The function `validateOrgRepo`. -/
def validateOrgRepo (o : options) (org repo : GoString) : Bool :=
  let hasOrg := (o.OrgMap.get? org).isSome
  if !hasOrg || o.RepoDenylistSet.Has repo
      || (decide (o.RepoAllowlistSet.Len > 0) && !o.RepoAllowlistSet.Has repo) then
    false
  else
    true

/-- The function `hasMatch`: the patterns are compiled and tried in order;
compiling an invalid pattern panics. -/
def hasMatch (E : Ext) (name : GoString) : List GoString → Run Bool
  | [] => .ok false
  | pattern :: rest =>
    if E.regexpValid pattern then
      if E.regexpMatch pattern name then .ok true else hasMatch E name rest
    else .error .badRegexp

/-- The loop of `isMatchBranch` over the configured branches. -/
def isMatchBranchLoop (E : Ext) (patterns : List GoString) : List GoString → Run Bool
  | [] => .ok false
  | branch :: rest =>
    match hasMatch E branch patterns with
    | .error e => .error e
    | .ok true => .ok true
    | .ok false => isMatchBranchLoop E patterns rest

/-- The function `isMatchBranch`. -/
def isMatchBranch (E : Ext) (o : options) (patterns : List GoString) : Run Bool :=
  if o.Branches.length = 0 then .ok true
  else isMatchBranchLoop E patterns o.Branches

/-- The function `validateJob`; the operands of `||` and `&&` are evaluated
left to right and only as far as needed. -/
def validateJob (E : Ext) (o : options) (name : GoString) (patterns : List GoString)
    (jType : GoString) : Run Bool :=
  Run.not
    (Run.or (hasMatch E name o.JobDenylistSet.List)
      (Run.or
        (Run.and (.ok (decide (o.JobAllowlistSet.Len > 0)))
          (Run.not (hasMatch E name o.JobAllowlistSet.List)))
        (Run.or (Run.not (isMatchBranch E o patterns))
          (.ok (!o.JobTypeSet.Has jType)))))

/-! ## Job rewriter: name and Gerrit report label -/

/-- The slice expression `s[:n]`: panics unless `0 ≤ n ≤ len(s)`. -/
def sliceTo (s : GoString) (n : Int) : Run GoString :=
  if 0 ≤ n ∧ n ≤ (s.length : Int) then .ok (s.take n.toNat) else .error .sliceBounds

/-- The suffix `updateJobName` appends. -/
def nameSuffix (o : options) : GoString :=
  if o.Modifier ≠ [] then jobnameSeparator ++ o.Modifier else []

/-- The function `updateJobName`. -/
def updateJobName (o : options) (job : JobBase) : Run JobBase :=
  let suffix := nameSuffix o
  if !o.AllowLongJobNames then
    let maxNameLen : Int := maxLabelLen - (suffix.length : Int)
    if (job.Name.length : Int) > maxNameLen then
      match sliceTo job.Name maxNameLen with
      | .error e => .error e
      | .ok name => .ok { job with Name := name ++ suffix }
    else .ok { job with Name := job.Name ++ suffix }
  else .ok { job with Name := job.Name ++ suffix }

/-- The assignment `m[k] = v`: panics on a nil map. -/
def GoMap.set : GoMap → GoString → GoString → Run GoMap
  | none, _, _ => .error .nilMapWrite
  | some m, k, v => .ok (some (m.insert k v))

/-- The function `updateGerritReportingLabels`; the result is the labels map
after the call. -/
def updateGerritReportingLabels (o : options) (skipReport optional : Bool)
    (labels : GoMap) : Run GoMap :=
  if o.SupportGerritReporting && !skipReport then
    if !optional then
      match labels.get? gerritReportLabel with
      | some _ => .ok labels
      | none => labels.set gerritReportLabel (str "Verified")
    else labels.set gerritReportLabel (str "Advisory")
  else .ok (labels.delete gerritReportLabel)

/-! ## Go standard library: `strings`, `unicode/utf8`, `fmt` -/

/-- The function `strings.HasPrefix`. -/
def stringsHasPrefix (s pre : GoString) : Bool := pre.isPrefixOf s

/-- The function `strings.TrimPrefix`. -/
def stringsTrimPrefix (s pre : GoString) : GoString :=
  if stringsHasPrefix s pre then s.drop pre.length else s

/-- The call `strings.FieldsFunc(s, func(c rune) bool { return c == '/' })`:
the maximal runs of bytes other than `/` (byte 47), none of them empty. -/
def fieldsSlash (s : GoString) : List GoString :=
  (s.splitOn 47).filter (fun f => f ≠ [])

/-- The size `utf8.DecodeRuneInString` reports for the first rune of a
non-empty string (1 for an invalid or truncated encoding). -/
def runeWidth : GoString → Nat
  | [] => 0
  | s0 :: rest =>
    let b := s0.toNat
    let cont (x : UInt8) : Bool := 0x80 ≤ x.toNat && x.toNat ≤ 0xBF
    if b < 0x80 then 1
    else if b < 0xC2 then 1
    else if b ≤ 0xDF then
      match rest with
      | s1 :: _ => if cont s1 then 2 else 1
      | _ => 1
    else if b ≤ 0xEF then
      let lo := if b = 0xE0 then 0xA0 else 0x80
      let hi := if b = 0xED then 0x9F else 0xBF
      match rest with
      | s1 :: s2 :: _ =>
        if s1.toNat < lo || hi < s1.toNat then 1 else if cont s2 then 3 else 1
      | _ => 1
    else if b ≤ 0xF4 then
      let lo := if b = 0xF0 then 0x90 else 0x80
      let hi := if b = 0xF4 then 0x8F else 0xBF
      match rest with
      | s1 :: s2 :: s3 :: _ =>
        if s1.toNat < lo || hi < s1.toNat then 1
        else if cont s2 then (if cont s3 then 4 else 1) else 1
      | _ => 1
    else 1

/-- The loop of `strings.Replace` for a non-empty `old`: `skip` bytes of a
match just replaced are still to be passed over. -/
def replaceGo (old new : GoString) : Nat → GoString → GoString
  | _, [] => []
  | skip + 1, _ :: rest => replaceGo old new skip rest
  | 0, c :: rest =>
    if old.isPrefixOf (c :: rest) then new ++ replaceGo old new (old.length - 1) rest
    else c :: replaceGo old new 0 rest

/-- The loop of `strings.Replace` for an empty `old`: `new` is written after
every rune; `skip` bytes of the current rune are still to be copied. -/
def replaceEmptyGo (new : GoString) : Nat → GoString → GoString
  | _, [] => []
  | skip, c :: rest =>
    let k := if skip = 0 then runeWidth (c :: rest) - 1 else skip - 1
    c :: (if k = 0 then new ++ replaceEmptyGo new 0 rest else replaceEmptyGo new k rest)

/-- The function `strings.ReplaceAll`. -/
def stringsReplaceAll (s old new : GoString) : GoString :=
  if old = new then s
  else if old = [] then new ++ replaceEmptyGo new 0 s
  else replaceGo old new 0 s

/-- The function `strings.Join`. -/
def stringsJoin (elems : List GoString) (sep : GoString) : GoString :=
  sep.intercalate elems

/-! ## Go standard library: `path/filepath` (slash-separated paths) -/

/-- The element loop of `filepath.Clean`: `out` is the stack of elements
written so far, innermost first. -/
def cleanElems (rooted : Bool) : List GoString → List GoString → List GoString
  | [], out => out
  | e :: rest, out =>
    if e = [] then cleanElems rooted rest out
    else if e = str "." then cleanElems rooted rest out
    else if e = str ".." then
      match out with
      | top :: below =>
        if top = str ".." then cleanElems rooted rest (e :: out)
        else cleanElems rooted rest below
      | [] => if rooted then cleanElems rooted rest [] else cleanElems rooted rest [e]
    else cleanElems rooted rest (e :: out)

/-- The function `filepath.Clean`. -/
def filepathClean (path : GoString) : GoString :=
  if path = [] then str "."
  else
    let rooted := path.head? = some 47
    let out := (cleanElems rooted (path.splitOn 47) []).reverse
    let body := stringsJoin out (str "/")
    if rooted then str "/" ++ body
    else if body = [] then str "." else body

/-- The function `filepath.Join`. -/
def filepathJoin (elem : List GoString) : GoString :=
  match elem.dropWhile (fun e => e = []) with
  | [] => []
  | rest => filepathClean (stringsJoin rest (str "/"))

/-- The function `filepath.Base`. -/
def filepathBase (path : GoString) : GoString :=
  if path = [] then str "."
  else
    let stripped := (path.reverse.dropWhile (fun c => c = 47)).reverse
    let last := (stripped.reverse.takeWhile (fun c => c ≠ 47)).reverse
    if last = [] then str "/" else last

/-! ## Job rewriter: the remaining steps -/

/-- The function `updateBrancher`. -/
def updateBrancher (o : options) (job : Brancher) : Brancher :=
  if o.BranchesOut.length = 0 then job
  else { job with Branches := o.BranchesOut }

/-- The function `updateGCSConfiguration`. -/
def updateGCSConfiguration (o : options) (job : DecorationConfig) : DecorationConfig :=
  if o.Bucket = [] then job
  else
    match job.GCSConfiguration with
    | none => { job with GCSConfiguration := some { Bucket := o.Bucket } }
    | some g => { job with GCSConfiguration := some { g with Bucket := o.Bucket } }

/-- The function `updateSSHKeySecrets`. -/
def updateSSHKeySecrets (o : options) (job : DecorationConfig) : DecorationConfig :=
  if o.SSHKeySecret = [] then job
  else { job with SSHKeySecrets := job.SSHKeySecrets ++ [o.SSHKeySecret] }

/-- The function `updateUtilityConfig`. -/
def updateUtilityConfig (o : options) (job : UtilityConfig) : UtilityConfig :=
  if o.Bucket = [] && o.SSHKeySecret = [] then job
  else
    let dc : DecorationConfig :=
      match job.DecorationConfig with
      | none => {}
      | some d => d
    { job with DecorationConfig := some (updateSSHKeySecrets o (updateGCSConfiguration o dc)) }

/-- The function `updateReporterConfig`. -/
def updateReporterConfig (o : options) (job : JobBase) : JobBase :=
  if o.Channel = [] then job
  else
    let rc : ReporterConfig :=
      match job.ReporterConfig with
      | none => {}
      | some r => r
    { job with ReporterConfig := some { rc with Slack := some { Channel := o.Channel } } }

/-- The function `updateRerunAuthConfig`. -/
def updateRerunAuthConfig (o : options) (job : JobBase) : JobBase :=
  if o.RerunOrgs.length = 0 && o.RerunUsers.length = 0 then job
  else
    { job with
      RerunAuthConfig := some { GitHubOrgs := o.RerunOrgs, GitHubUsers := o.RerunUsers } }

/-- The loop `for k, v := range src { dst[k] = v }` on a non-nil `dst`. -/
def overlay (dst : StrMap) (src : GoMap) : StrMap :=
  src.range.foldl (fun acc kv => acc.insert kv.1 kv.2) dst

/-- The value of a map that is made (`make(map[string]string)`) when nil. -/
def GoMap.orMake : GoMap → StrMap
  | none => ∅
  | some m => m

/-- The function `updateLabels`. -/
def updateLabels (o : options) (job : JobBase) : JobBase :=
  if o.Labels.len = 0 then job
  else { job with Labels := some (overlay job.Labels.orMake o.Labels) }

/-- The function `updateNodeSelector`; `job.Spec` is dereferenced when the
selector is overridden and when a selector is configured. -/
def updateNodeSelector (o : options) (job : JobBase) : Run JobBase := do
  let job ← (if o.OverrideSelector then
      match job.Spec with
      | none => Except.error Fault.nilPointer
      | some spec => Except.ok { job with Spec := some { spec with NodeSelector := some ∅ } }
    else Except.ok job)
  if o.Selector.len = 0 then
    Except.ok job
  else
    match job.Spec with
    | none => Except.error Fault.nilPointer
    | some spec =>
      Except.ok { job with
        Spec := some { spec with
          NodeSelector := some (overlay spec.NodeSelector.orMake o.Selector) } }

/-- Modelled from the spec: the helper `util.SortedKeys` (package `util` of this
repository), which returns the keys of the map in sorted order ("processed in
sorted key order for determinism"). -/
def SortedKeys (m : GoMap) : List GoString :=
  (m.range.map (fun kv => kv.1)).insertionSort (fun a b => a ≤ b)

/-- The index expression `m[k]` used as a value: the zero value when absent. -/
def GoMap.getD (m : GoMap) (k : GoString) : GoString :=
  (m.get? k).getD []

/-- The inner loop of `updateEnvs` on one container: the first variable named
`envK` takes the value, or a new variable is appended. -/
def setEnv (envK value : GoString) : List EnvVar → List EnvVar
  | [] => [{ Name := envK, Value := value }]
  | e :: rest =>
    if e.Name = envK then { e with Value := value } :: rest
    else e :: setEnv envK value rest

/-- The function `updateEnvs`. -/
def updateEnvs (o : options) (job : JobBase) : Run JobBase :=
  if o.Env.len = 0 then .ok job
  else
    match SortedKeys o.Env with
    | [] => .ok job
    | envKs =>
      match job.Spec with
      | none => .error .nilPointer
      | some spec =>
        .ok { job with
          Spec := some { spec with
            Containers := envKs.foldl
              (fun cs envK => cs.map (fun c => { c with Env := setEnv envK (o.Env.getD envK) c.Env }))
              spec.Containers } }

/-- The function `updateServiceAccount`. -/
def updateServiceAccount (o : options) (job : JobBase) : Run JobBase :=
  if o.ServiceAccount = [] then .ok job
  else
    match job.Spec with
    | none => .error .nilPointer
    | some spec =>
      if spec.ServiceAccountName = [] then .ok job
      else .ok { job with Spec := some { spec with ServiceAccountName := o.ServiceAccount } }

/-- The function `updateJobBase`. -/
def updateJobBase (o : options) (job : JobBase) (orgrepo : GoString) : Run JobBase := do
  let job := if o.Annotations.len ≠ 0 then { job with Annotations := o.Annotations } else job
  let job :=
    if o.SSHClone && orgrepo ≠ [] then
      { job with
        UtilityConfig := { job.UtilityConfig with
          CloneURI := str "git@" ++ gitHost ++ str ":" ++ orgrepo ++ str ".git" } }
    else job
  let job :=
    if o.Cluster ≠ [] && o.Cluster ≠ defaultCluster then { job with Cluster := o.Cluster }
    else job
  let job ← updateJobName o job
  let job := updateReporterConfig o job
  let job := updateRerunAuthConfig o job
  let job := updateLabels o job
  let job ← updateNodeSelector o job
  let job ← updateEnvs o job
  updateServiceAccount o job

/-- The body of the loop of `updateExtraRefs` on one ref. -/
def updateExtraRef (o : options) (ref : Refs) : Refs :=
  let org := ref.Org
  let repo := ref.Repo
  if o.Refs || validateOrgRepo o org repo then
    let step1 : GoString × Refs :=
      match o.RefOrgMap.get? org with
      | some newOrg =>
        (newOrg, { ref with CloneURI := str "https://" ++ newOrg ++ str "/" ++ repo })
      | none =>
        match o.OrgMap.get? org with
        | some newOrg => (newOrg, ref)
        | none => (org, ref)
    let org := step1.1
    let ref := { step1.2 with Org := org }
    let ref :=
      if o.SSHClone then
        { ref with
          CloneURI := str "git@" ++ gitHost ++ str ":" ++ org ++ str "/" ++ repo ++ str ".git" }
      else ref
    if o.RefBranchOut ≠ [] then { ref with BaseRef := o.RefBranchOut } else ref
  else ref

/-- The function `updateExtraRefs`. -/
def updateExtraRefs (o : options) (job : UtilityConfig) : UtilityConfig :=
  let refs := job.ExtraRefs.map (updateExtraRef o)
  if o.ExtraRefs.length > 0 then { job with ExtraRefs := refs ++ o.ExtraRefs }
  else { job with ExtraRefs := refs }

/-! ## Preset resolver -/

/-- The label gate of `mergePreset`: every label the preset declares is a
label of the job with the same value. -/
def presetMatches (labels : GoMap) (preset : Preset) : Bool :=
  preset.Labels.range.all (fun lv =>
    match labels.get? lv.1 with
    | some v2 => decide (lv.2 = v2)
    | none => false)

/-- One preset variable merged into the variables of one container. -/
def mergeEnv (env : EnvVar) : List EnvVar → List EnvVar
  | [] => [env]
  | e :: rest =>
    if e.Name = env.Name then { e with Value := env.Value } :: rest
    else e :: mergeEnv env rest

/-- One preset volume merged into the volumes of the spec. -/
def mergeVolume (vol : Volume) : List Volume → List Volume
  | [] => [vol]
  | v :: rest => if v.Name = vol.Name then vol :: rest else v :: mergeVolume vol rest

/-- One preset volume mount merged into the mounts of one container. -/
def mergeVolumeMount (volm : VolumeMount) : List VolumeMount → List VolumeMount
  | [] => [volm]
  | v :: rest => if v.Name = volm.Name then volm :: rest else v :: mergeVolumeMount volm rest

/-- The function `mergePreset` on a job whose spec is present. -/
def mergePreset (labels : GoMap) (spec : PodSpec) (preset : Preset) : PodSpec :=
  if !presetMatches labels preset then spec
  else
    let cs := preset.Env.foldl
      (fun cs env => cs.map (fun c => { c with Env := mergeEnv env c.Env })) spec.Containers
    let vols := preset.Volumes.foldl (fun vs vol => mergeVolume vol vs) spec.Volumes
    let cs := preset.VolumeMounts.foldl
      (fun cs volm => cs.map (fun c => { c with VolumeMounts := mergeVolumeMount volm c.VolumeMounts }))
      cs
    { spec with Containers := cs, Volumes := vols }

/-- The function `resolvePresets`. -/
def resolvePresets (o : options) (labels : GoMap) (job : JobBase) (presets : List Preset) :
    JobBase :=
  if !o.Resolve then job
  else
    match job.Spec with
    | none => job
    | some spec => { job with Spec := some (presets.foldl (mergePreset labels) spec) }

/-! ## Pruning -/

/-- The function `pruneEnvs`. -/
def pruneEnvs (denylist : StringSet) (spec : PodSpec) : PodSpec :=
  { spec with
    Containers := spec.Containers.map
      (fun c => { c with Env := c.Env.filter (fun env => !denylist.Has env.Name) }) }

/-- The function `pruneVolumes`. -/
def pruneVolumes (denylist : StringSet) (spec : PodSpec) : PodSpec :=
  { spec with
    Volumes := spec.Volumes.filter (fun vol => !denylist.Has vol.Name)
    Containers := spec.Containers.map
      (fun c => { c with
        VolumeMounts := c.VolumeMounts.filter (fun volm => !denylist.Has volm.Name) }) }

/-- The function `pruneJobBase`. -/
def pruneJobBase (o : options) (job : JobBase) : JobBase :=
  match job.Spec with
  | none => job
  | some spec =>
    let spec := if o.VolumeDenylistSet.Len > 0 then pruneVolumes o.VolumeDenylistSet spec else spec
    let spec := if o.EnvDenylistSet.Len > 0 then pruneEnvs o.EnvDenylistSet spec else spec
    { job with Spec := some spec }

/-! ## Image hub and tag rewrite -/

/-- The hub replacements of `updateHubs`, applied in the order the range loop
visits the hub map. -/
def applyHubMap (hubs : List (GoString × GoString)) (baseref : GoString) : GoString :=
  hubs.foldl (fun b io => stringsReplaceAll b io.1 io.2) baseref

/-- The body of the loop of `updateHubs`: the new image of a container. The
error of either `NewTag` call is discarded. -/
def updateHubImage (E : Ext) (o : options) (image : GoString) : GoString :=
  let tag := (E.NewTag image).1
  let baseref := applyHubMap o.HubMap.range (E.contextName tag)
  let newTag := (E.NewTag (baseref ++ str ":" ++ E.tagStr tag)).1
  E.tagName newTag

/-- The function `updateHubs`; `job.Spec` is dereferenced. -/
def updateHubs (E : Ext) (o : options) (job : JobBase) : Run JobBase :=
  match job.Spec with
  | none => .error .nilPointer
  | some spec =>
    .ok { job with
      Spec := some { spec with
        Containers := spec.Containers.map
          (fun c => { c with Image := updateHubImage E o c.Image }) } }

/-- The function `updateTags`. -/
def updateTags (E : Ext) (o : options) (job : JobBase) : Run JobBase :=
  if o.Tag = [] then .ok job
  else
    match job.Spec with
    | none => .error .nilPointer
    | some spec =>
      .ok { job with
        Spec := some { spec with
          Containers := spec.Containers.map
            (fun c => { c with
              Image := E.contextName (E.NewTag c.Image).1 ++ str ":" ++ o.Tag }) } }

/-! ## Sorting -/

/-- The first submatch of `^(asc|desc)(?:ending)?$` on the sort token, if the
token matches. -/
def sortMatch (sort : GoString) : Option GoString :=
  if sort = str "asc" ∨ sort = str "ascending" then some (str "asc")
  else if sort = str "desc" ∨ sort = str "descending" then some (str "desc")
  else none

/-- The call `sort.Slice(c, ...)` with the ascending comparator on names. Of
the orders `sort.Slice` may produce, the one of an insertion sort. -/
def sortAsc {α : Type} (name : α → GoString) (c : List α) : List α :=
  c.insertionSort (fun a b => name a ≤ name b)

/-- The call `sort.Slice(c, ...)` with the descending comparator on names. -/
def sortDesc {α : Type} (name : α → GoString) (c : List α) : List α :=
  c.insertionSort (fun a b => name b ≤ name a)

/-- The sort `sortJobs` applies to one job list. -/
def sortList {α : Type} (o : options) (name : α → GoString) (c : List α) : List α :=
  if o.Sort_ = [] then c
  else
    match sortMatch o.Sort_ with
    | none => c
    | some order =>
      if order = str "asc" then sortAsc name c
      else if order = str "desc" then sortDesc name c
      else c

/-- A function applied to every job list of a job map. -/
def JobMap.mapLists {α : Type} (f : List α → List α) (m : JobMap α) : JobMap α :=
  ⟨m.entries.map (fun e => ⟨e.1, f e.2⟩), by
    have h := m.nodupKeys
    simpa [List.NodupKeys, List.keys, List.map_map, Function.comp_def] using h⟩

/-- The function `sortJobs`: the three collections after the call. -/
def sortJobs (o : options) (pre : JobMap Presubmit) (post : JobMap Postsubmit)
    (per : List Periodic) : JobMap Presubmit × JobMap Postsubmit × List Periodic :=
  (pre.mapLists (sortList o (fun j => j.JobBase.Name)),
   post.mapLists (sortList o (fun j => j.JobBase.Name)),
   sortList o (fun j => j.JobBase.Name) per)

/-! ## Path resolver -/

/-- The file name rewrite shared by the `org/repo/file` and `org/file` cases of
`getOutPath`. -/
def renameForOrg (E : Ext) (org file newOrg : GoString) : GoString :=
  E.RenameFile (str "^" ++ E.NormalizeOrg org filenameSeparator ++ str "\\b") file
    (E.NormalizeOrg newOrg filenameSeparator)

/-- The function `getOutPath`; the empty string means that the file is skipped.
The index expression `branches[0]` panics on an empty list. -/
def getOutPath (E : Ext) (o : options) (p inp : GoString)
    (branches branchesOut : List GoString) : Run GoString :=
  let segments := fieldsSlash (stringsTrimPrefix p inp)
  if E.HasExtension o.Output yamlExt then .ok o.Output
  else
    match segments.reverse with
    | file :: repo :: org :: _ =>
      match o.OrgMap.get? org with
      | some newOrg =>
        let filename := renameForOrg E org file newOrg
        match branchesOut with
        | [] => .ok (filepathJoin [o.Output, E.GetTopLevelOrg newOrg, repo, filename])
        | out0 :: _ =>
          match branches with
          | [] => .error .indexRange
          | b0 :: _ =>
            .ok (filepathJoin [o.Output, E.GetTopLevelOrg newOrg, repo,
              E.NormalizeConfigName (stringsReplaceAll filename b0 out0)])
      | none => .ok []
    | [file, org] =>
      match o.OrgMap.get? org with
      | some newOrg =>
        .ok (filepathJoin [o.Output, E.GetTopLevelOrg newOrg, renameForOrg E org file newOrg])
      | none => .ok []
    | [file] =>
      if !stringsHasPrefix file o.Modifier then
        .ok (filepathJoin [o.Output, o.Modifier ++ filenameSeparator ++ file])
      else .ok []
    | [] =>
      let file := filepathBase inp
      if !stringsHasPrefix file o.Modifier then
        .ok (filepathJoin [o.Output, o.Modifier ++ filenameSeparator ++ file])
      else .ok []

/-! ## Output merger -/

/-- The destination files: the job document a path parses to, `none` when
`config.ReadJobConfig` fails on it. -/
abbrev Files := GoString → Option JobConfig

/-- The loop that combines new jobs into the existing ones, key by key. -/
def combineJobs {α : Type} (combined : JobMap α) (new : JobMap α) : JobMap α :=
  new.entries.foldl
    (fun acc e =>
      match acc.lookup e.1 with
      | some old => acc.insert e.1 (old ++ e.2)
      | none => acc.insert e.1 e.2)
    combined

/-- The job document `writeOutFile` builds for a destination whose existing
content is `existing`. -/
def combinedJobConfig (E : Ext) (o : options) (existing : Option JobConfig)
    (pre : JobMap Presubmit) (post : JobMap Postsubmit) (per : List Periodic) : JobConfig :=
  let combinedPre : JobMap Presubmit :=
    match existing with
    | some e => e.PresubmitsStatic
    | none => ∅
  let combinedPost : JobMap Postsubmit :=
    match existing with
    | some e => e.PostsubmitsStatic
    | none => ∅
  let combinedPer : List Periodic :=
    match existing with
    | some e => e.Periodics
    | none => []
  let combinedPre := combineJobs combinedPre pre
  let combinedPost := combineJobs combinedPost post
  let combinedPer := combinedPer ++ per
  let sorted := sortJobs o combinedPre combinedPost combinedPer
  { PresubmitsStatic := (E.SetPresubmits sorted.1).1
    PostsubmitsStatic := (E.SetPostsubmits sorted.2.1).1
    Periodics := sorted.2.2 }

/-- The function `writeOutFile`: the destination files after the call.
Marshalling, creating the directory and writing the file are taken to succeed. -/
def writeOutFile (E : Ext) (o : options) (files : Files) (p : GoString)
    (pre : JobMap Presubmit) (post : JobMap Postsubmit) (per : List Periodic) : Files :=
  if pre.entries.length = 0 && post.entries.length = 0 && per.length = 0 then files
  else Function.update files p (some (combinedJobConfig E o (files p) pre post per))

/-! ## The pipeline of `generateJobs` -/

/-- The function `allRefs`. -/
def allRefs (array : List Refs) (predicate : Refs → Nat → Bool) : Bool :=
  (array.enum.all (fun ir => predicate ir.2 ir.1))

/-- The function `convertOrgRepoStr`. -/
def convertOrgRepoStr (E : Ext) (o : options) (s : GoString) : GoString :=
  let orgRepo := E.SplitOrgRepo s
  let valid := validateOrgRepo o orgRepo.1 orgRepo.2
  if !valid then []
  else stringsJoin [o.OrgMap.getD orgRepo.1, orgRepo.2] (str "/")

/-- The steps `generateJobs` applies to a presubmit that passed `validateJob`,
in the order of the source. -/
def rewritePresubmit (E : Ext) (o : options) (presets : List Preset) (orgrepo : GoString)
    (job : Presubmit) : Run Presubmit := do
  let jb := { job.JobBase with UtilityConfig := updateExtraRefs o job.JobBase.UtilityConfig }
  let jb ← updateJobBase o jb orgrepo
  let br := updateBrancher o job.Brancher
  let jb := { jb with UtilityConfig := updateUtilityConfig o jb.UtilityConfig }
  let labels ← updateGerritReportingLabels o job.SkipReport job.Optional jb.Labels
  let jb := { jb with Labels := labels }
  let jb := resolvePresets o jb.Labels jb presets
  let jb := pruneJobBase o jb
  let jb ← updateHubs E o jb
  let jb ← updateTags E o jb
  Except.ok { job with JobBase := jb, Brancher := br }

/-- The steps `generateJobs` applies to a postsubmit that passed `validateJob`. -/
def rewritePostsubmit (E : Ext) (o : options) (presets : List Preset) (orgrepo : GoString)
    (job : Postsubmit) : Run Postsubmit := do
  let jb := { job.JobBase with UtilityConfig := updateExtraRefs o job.JobBase.UtilityConfig }
  let jb ← updateJobBase o jb orgrepo
  let br := updateBrancher o job.Brancher
  let jb := { jb with UtilityConfig := updateUtilityConfig o jb.UtilityConfig }
  let jb := resolvePresets o jb.Labels jb presets
  let jb := pruneJobBase o jb
  let jb ← updateHubs E o jb
  let jb ← updateTags E o jb
  Except.ok { job with JobBase := jb, Brancher := br }

/-- The steps `generateJobs` applies to a periodic that passed its checks. -/
def rewritePeriodic (E : Ext) (o : options) (presets : List Preset)
    (job : Periodic) : Run Periodic := do
  let jb := { job.JobBase with UtilityConfig := updateExtraRefs o job.JobBase.UtilityConfig }
  let jb ← updateJobBase o jb []
  let jb := { jb with UtilityConfig := updateUtilityConfig o jb.UtilityConfig }
  let jb := resolvePresets o jb.Labels jb presets
  let jb := pruneJobBase o jb
  let jb ← updateHubs E o jb
  let jb ← updateTags E o jb
  Except.ok { job with JobBase := jb }

/-- The statement `m[k] = append(m[k], job)`. -/
def JobMap.push {α : Type} (m : JobMap α) (k : GoString) (job : α) : JobMap α :=
  m.insert k ((m.lookup k).getD [] ++ [job])

/-- The inner loop of `generateJobs` over the presubmits of one key. -/
def generatePresubmits (E : Ext) (o : options) (presets : List Preset) (orgrepo : GoString) :
    List Presubmit → JobMap Presubmit → Run (JobMap Presubmit)
  | [], acc => .ok acc
  | job :: rest, acc =>
    match validateJob E o job.JobBase.Name job.Brancher.Branches (str "presubmit") with
    | .error e => .error e
    | .ok false => generatePresubmits E o presets orgrepo rest acc
    | .ok true =>
      match rewritePresubmit E o presets orgrepo job with
      | .error e => .error e
      | .ok job => generatePresubmits E o presets orgrepo rest (acc.push orgrepo job)

/-- The inner loop of `generateJobs` over the postsubmits of one key. -/
def generatePostsubmits (E : Ext) (o : options) (presets : List Preset) (orgrepo : GoString) :
    List Postsubmit → JobMap Postsubmit → Run (JobMap Postsubmit)
  | [], acc => .ok acc
  | job :: rest, acc =>
    match validateJob E o job.JobBase.Name job.Brancher.Branches (str "postsubmit") with
    | .error e => .error e
    | .ok false => generatePostsubmits E o presets orgrepo rest acc
    | .ok true =>
      match rewritePostsubmit E o presets orgrepo job with
      | .error e => .error e
      | .ok job => generatePostsubmits E o presets orgrepo rest (acc.push orgrepo job)

/-- The branch patterns `generateJobs` hands to `validateJob` for a periodic:
the base refs of the extra refs that pass `validateOrgRepo`. -/
def periodicBranches (o : options) (job : Periodic) : List GoString :=
  (job.JobBase.UtilityConfig.ExtraRefs.filter (fun ref => validateOrgRepo o ref.Org ref.Repo)).map
    (fun ref => ref.BaseRef)

/-- The checks of `generateJobs` on a periodic: whether the job is kept. -/
def keepPeriodic (E : Ext) (o : options) (job : Periodic) : Run Bool :=
  if job.JobBase.UtilityConfig.ExtraRefs.length = 0 then .ok false
  else if allRefs job.JobBase.UtilityConfig.ExtraRefs
      (fun val _ => !validateOrgRepo o val.Org val.Repo) then .ok false
  else validateJob E o job.JobBase.Name (periodicBranches o job) (str "periodic")

/-- The loop of `generateJobs` over the periodics. -/
def generatePeriodics (E : Ext) (o : options) (presets : List Preset) :
    List Periodic → List Periodic → Run (List Periodic)
  | [], acc => .ok acc
  | job :: rest, acc =>
    match keepPeriodic E o job with
    | .error e => .error e
    | .ok false => generatePeriodics E o presets rest acc
    | .ok true =>
      match rewritePeriodic E o presets job with
      | .error e => .error e
      | .ok job => generatePeriodics E o presets rest (acc ++ [job])

/-- The outer loop of `generateJobs` over the keys of the presubmits. -/
def generateAllPresubmits (E : Ext) (o : options) (presets : List Preset) :
    List (Σ _ : GoString, List Presubmit) → JobMap Presubmit → Run (JobMap Presubmit)
  | [], acc => .ok acc
  | e :: rest, acc =>
    let orgrepo := convertOrgRepoStr E o e.1
    if orgrepo = [] then generateAllPresubmits E o presets rest acc
    else
      match generatePresubmits E o presets orgrepo e.2 acc with
      | .error err => .error err
      | .ok acc => generateAllPresubmits E o presets rest acc

/-- The outer loop of `generateJobs` over the keys of the postsubmits. -/
def generateAllPostsubmits (E : Ext) (o : options) (presets : List Preset) :
    List (Σ _ : GoString, List Postsubmit) → JobMap Postsubmit → Run (JobMap Postsubmit)
  | [], acc => .ok acc
  | e :: rest, acc =>
    let orgrepo := convertOrgRepoStr E o e.1
    if orgrepo = [] then generateAllPostsubmits E o presets rest acc
    else
      match generatePostsubmits E o presets orgrepo e.2 acc with
      | .error err => .error err
      | .ok acc => generateAllPostsubmits E o presets rest acc

/-- The body of the walk of `generateJobs` for one input document `absPath`
(a path with the YAML extension): the files afterwards. `presets` is the
result of `combinePresets`. -/
def generateJobsFile (E : Ext) (o : options) (presets : List Preset)
    (files : Files) (absPath : GoString) : Run Files := do
  let outPath ← getOutPath E o absPath o.Input o.Branches o.BranchesOut
  if outPath = [] then
    Except.ok files
  else
    let files := if o.Clean then Function.update files outPath none else files
    match files absPath with
    | none => Except.ok files
    | some jobs =>
      let all := presets ++ jobs.Presets
      let presubmit ← generateAllPresubmits E o all jobs.PresubmitsStatic.entries ∅
      let postsubmit ← generateAllPostsubmits E o all jobs.PostsubmitsStatic.entries ∅
      let periodic ← generatePeriodics E o all jobs.Periodics []
      if !o.DryRun then
        Except.ok (writeOutFile E o files outPath presubmit postsubmit periodic)
      else Except.ok files

/-! ## A concrete instance of the external collaborators

Closed examples are evaluated on `exampleExt`. Each of its functions is a small
stand-in that agrees with the Go function it replaces on the inputs of the
examples: literal patterns for regular expressions, fully qualified
`host/path:tag` image references, slash-separated org names. -/

/-- Whether `p` occurs in `s` as a contiguous run of bytes. -/
def containsBytes (p : GoString) : GoString → Bool
  | [] => p.isPrefixOf []
  | c :: rest => p.isPrefixOf (c :: rest) || containsBytes p rest

/-- A byte that stands for itself in a regular expression: a letter, a digit,
`-`, `_`, `/` or a blank. -/
def literalByte (c : UInt8) : Bool :=
  let n := c.toNat
  (48 ≤ n && n ≤ 57) || (65 ≤ n && n ≤ 90) || (97 ≤ n && n ≤ 122)
    || n = 45 || n = 95 || n = 47 || n = 32

/-- A byte an image repository or tag may hold: a lowercase letter, a digit,
`.`, `-`, `_` or `/`. -/
def imageByte (c : UInt8) : Bool :=
  let n := c.toNat
  (48 ≤ n && n ≤ 57) || (97 ≤ n && n ≤ 122) || n = 46 || n = 45 || n = 95 || n = 47

/-- The image reference parser of `exampleExt`: `repository` or
`repository:tag`, the tag defaulting to `latest`; anything else is rejected
with the zero tag. -/
def exampleNewTag (s : GoString) : Tag × Bool :=
  let tagRev := s.reverse.takeWhile (fun c => c ≠ 58)
  let hasTag := decide (tagRev.length < s.length) && !tagRev.contains 47
  let base := if hasTag then s.take (s.length - tagRev.length - 1) else s
  let tag := if hasTag then tagRev.reverse else str "latest"
  if base ≠ [] && base.all imageByte && tag ≠ [] && tag.all imageByte then
    ({ repository := base, tag := tag }, false)
  else ({}, true)

/-- The external functions on which closed examples are evaluated. -/
def exampleExt : Ext where
  regexpValid := fun p => p.all literalByte
  regexpMatch := fun p s => containsBytes p s
  NewTag := exampleNewTag
  contextName := fun t =>
    if t.registry = [] then t.repository else t.registry ++ str "/" ++ t.repository
  tagStr := fun t => t.tag
  tagName := fun t =>
    (if t.registry = [] then t.repository else t.registry ++ str "/" ++ t.repository)
      ++ str ":" ++ t.tag
  HasExtension := fun path pat =>
    decide (pat = yamlExt) &&
      ((str "yml").isSuffixOf path && decide ((str "yml").length < path.length)
        || (str "yaml").isSuffixOf path && decide ((str "yaml").length < path.length))
  RenameFile := fun _ file _ => file
  NormalizeOrg := fun org sep => stringsReplaceAll org (str "/") sep
  GetTopLevelOrg := fun org => org.takeWhile (fun c => c ≠ 47)
  NormalizeConfigName := fun name => name
  SplitOrgRepo := fun s =>
    let repoRev := s.reverse.takeWhile (fun c => c ≠ 47)
    (s.take (s.length - repoRev.length - 1), repoRev.reverse)
  SetPresubmits := fun m => (m, false)
  SetPostsubmits := fun m => (m, false)

/-! ## Notions used to state the properties -/

/-- A key of a map: the comma-ok lookup finds a value. -/
def GoMap.HasKey (m : GoMap) (k : GoString) : Prop := ∃ v, m.get? k = some v

/-- The four clauses of the job filter: the name matches no deny pattern; the
allowlist is empty or some allow pattern matches the name; no target branch
is configured or some configured branch is matched by some branch pattern of
the job; the job type is in the type set. -/
def FilterClauses (E : Ext) (o : options) (name : GoString) (patterns : List GoString)
    (jType : GoString) : Prop :=
  (∀ p ∈ o.JobDenylistSet, E.regexpMatch p name = false)
  ∧ (o.JobAllowlistSet = [] ∨ ∃ p ∈ o.JobAllowlistSet, E.regexpMatch p name = true)
  ∧ (o.Branches = [] ∨ ∃ b ∈ o.Branches, ∃ p ∈ patterns, E.regexpMatch p b = true)
  ∧ jType ∈ o.JobTypeSet

/-- The labels `updateLabels` leaves on a job whose labels were `labels`. -/
def labelsAfterOverlay (o : options) (labels : GoMap) : GoMap :=
  if o.Labels.len = 0 then labels else some (overlay labels.orMake o.Labels)

/-- The file name the flat-file rule of `getOutPath` works on: the only path
segment, or the base name of the input root when there is none. -/
def flatFile (p inp : GoString) : GoString :=
  match fieldsSlash (stringsTrimPrefix p inp) with
  | [file] => file
  | _ => filepathBase inp

/-- The number of jobs in a job map. -/
def JobMap.jobCount {α : Type} (m : JobMap α) : Nat :=
  (m.entries.map (fun e => e.2.length)).sum

/-- Every key of the job map holds at least one job, as in every map that
`generateJobs` builds by `m[k] = append(m[k], job)`. -/
def JobMap.Accumulated {α : Type} (m : JobMap α) : Prop :=
  ∀ e ∈ m.entries, e.2 ≠ []

/-! ## Inputs of the closed examples -/

/-- A rule set: org `istio` mapped to `istio-private`, the default modifier and
job types, Gerrit reporting support off. -/
def baseExample : options :=
  { OrgMap := some (StrMap.ofPairs [(str "istio", str "istio-private")])
    Modifier := defaultModifier
    Output := str "/out"
    JobTypeSet := [str "presubmit", str "postsubmit", str "periodic"] }

/-- The rule set `baseExample` with a configured Gerrit report label. -/
def labelExample : options :=
  { baseExample with
    Labels := some (StrMap.ofPairs
      [(gerritReportLabel, str "Custom"), (str "team", str "infra")]) }

/-- A pod spec with one container. -/
def specExample : PodSpec :=
  { Containers := [{ Name := str "test", Image := str "gcr.io/istio-testing/build-tools:v1" }] }

/-- A job base named `test-job` that carries a Gerrit report label. -/
def jobBaseExample : JobBase :=
  { Name := str "test-job"
    Labels := some (StrMap.ofPairs [(gerritReportLabel, str "Verified")])
    Spec := some specExample }

/-- The rule set of the examples of the job filter. -/
def filterExample : options :=
  { JobDenylistSet := [str "skip"], JobTypeSet := [str "presubmit"], Branches := [str "master"] }

/-! ## Notions used to state the properties of layering, sorting, merging and overlays -/

/-- The value a field ends with when it starts as `x` and the lower-precedence
fragments hold `ys`, in order: each fragment fills the field while it is unset. -/
def layerField {α : Type} (unset : α → Prop) [DecidablePred unset] (x : α) (ys : List α) : α :=
  ys.foldl (fun x y => if unset x then y else x) x

/-- Every field that is set in `dst` (a non-empty string, a non-empty list or
map, a boolean true) has the same value in `res`. -/
def SetFieldsKept (dst res : Transform) : Prop :=
  (dst.Annotations.len ≠ 0 → res.Annotations = dst.Annotations)
  ∧ (dst.Bucket ≠ [] → res.Bucket = dst.Bucket)
  ∧ (dst.Cluster ≠ [] → res.Cluster = dst.Cluster)
  ∧ (dst.Channel ≠ [] → res.Channel = dst.Channel)
  ∧ (dst.SSHKeySecret ≠ [] → res.SSHKeySecret = dst.SSHKeySecret)
  ∧ (dst.Modifier ≠ [] → res.Modifier = dst.Modifier)
  ∧ (dst.ServiceAccount ≠ [] → res.ServiceAccount = dst.ServiceAccount)
  ∧ (dst.Input ≠ [] → res.Input = dst.Input)
  ∧ (dst.Output ≠ [] → res.Output = dst.Output)
  ∧ (dst.Sort_ ≠ [] → res.Sort_ = dst.Sort_)
  ∧ (dst.ExtraRefs ≠ [] → res.ExtraRefs = dst.ExtraRefs)
  ∧ (dst.Branches ≠ [] → res.Branches = dst.Branches)
  ∧ (dst.BranchesOut ≠ [] → res.BranchesOut = dst.BranchesOut)
  ∧ (dst.RefBranchOut ≠ [] → res.RefBranchOut = dst.RefBranchOut)
  ∧ (dst.Presets ≠ [] → res.Presets = dst.Presets)
  ∧ (dst.RerunOrgs ≠ [] → res.RerunOrgs = dst.RerunOrgs)
  ∧ (dst.RerunUsers ≠ [] → res.RerunUsers = dst.RerunUsers)
  ∧ (dst.EnvDenylist ≠ [] → res.EnvDenylist = dst.EnvDenylist)
  ∧ (dst.VolumeDenylist ≠ [] → res.VolumeDenylist = dst.VolumeDenylist)
  ∧ (dst.JobAllowlist ≠ [] → res.JobAllowlist = dst.JobAllowlist)
  ∧ (dst.JobDenylist ≠ [] → res.JobDenylist = dst.JobDenylist)
  ∧ (dst.RepoAllowlist ≠ [] → res.RepoAllowlist = dst.RepoAllowlist)
  ∧ (dst.RepoDenylist ≠ [] → res.RepoDenylist = dst.RepoDenylist)
  ∧ (dst.JobType ≠ [] → res.JobType = dst.JobType)
  ∧ (dst.Selector.len ≠ 0 → res.Selector = dst.Selector)
  ∧ (dst.Labels.len ≠ 0 → res.Labels = dst.Labels)
  ∧ (dst.Env.len ≠ 0 → res.Env = dst.Env)
  ∧ (dst.OrgMap.len ≠ 0 → res.OrgMap = dst.OrgMap)
  ∧ (dst.RefOrgMap.len ≠ 0 → res.RefOrgMap = dst.RefOrgMap)
  ∧ (dst.HubMap.len ≠ 0 → res.HubMap = dst.HubMap)
  ∧ (dst.Tag ≠ [] → res.Tag = dst.Tag)
  ∧ (dst.DryRun = true → res.DryRun = dst.DryRun)
  ∧ (dst.Refs = true → res.Refs = dst.Refs)
  ∧ (dst.Resolve = true → res.Resolve = dst.Resolve)
  ∧ (dst.SSHClone = true → res.SSHClone = dst.SSHClone)
  ∧ (dst.OverrideSelector = true → res.OverrideSelector = dst.OverrideSelector)
  ∧ (dst.AllowLongJobNames = true → res.AllowLongJobNames = dst.AllowLongJobNames)
  ∧ (dst.Verbose = true → res.Verbose = dst.Verbose)
  ∧ (dst.Clean = true → res.Clean = dst.Clean)
  ∧ (dst.SupportGerritReporting = true → res.SupportGerritReporting = dst.SupportGerritReporting)

/-- Every list of the job map `m` has a counterpart under the same key in
`m1`, related to it by `P`, and `m1` has no other key. -/
def JobMap.EachList {α : Type} (P : List α → List α → Prop) (m m1 : JobMap α) : Prop :=
  ∀ k, match m.lookup k with
    | none => m1.lookup k = none
    | some l => ∃ l1, m1.lookup k = some l1 ∧ P l l1

/-- The list `l1` is the list `l` put in non-decreasing order of name. -/
def SortedAscOf {α : Type} (name : α → GoString) (l l1 : List α) : Prop :=
  l1.Perm l ∧ l1.Sorted (fun a b => name a ≤ name b)

/-- The list `l1` is the list `l` put in non-increasing order of name. -/
def SortedDescOf {α : Type} (name : α → GoString) (l l1 : List α) : Prop :=
  l1.Perm l ∧ l1.Sorted (fun a b => name b ≤ name a)

/-- The merge of the lists two sides hold under one key: the old list followed
by the new one; a key present on one side only keeps that side's list. -/
def mergeLists {α : Type} : Option (List α) → Option (List α) → Option (List α)
  | some old, some new => some (old ++ new)
  | some old, none => some old
  | none, some new => some new
  | none, none => none

/-- The three collections `writeOutFile` has combined and sorted, as it hands
them to the job config, for a destination whose existing content is `existing`. -/
def combinedJobs (o : options) (existing : Option JobConfig)
    (pre : JobMap Presubmit) (post : JobMap Postsubmit) (per : List Periodic) :
    JobMap Presubmit × JobMap Postsubmit × List Periodic :=
  sortJobs o
    (combineJobs (match existing with | some e => e.PresubmitsStatic | none => ∅) pre)
    (combineJobs (match existing with | some e => e.PostsubmitsStatic | none => ∅) post)
    ((match existing with | some e => e.Periodics | none => []) ++ per)

/-- The variables of a container after the overlay of the keys `keys`, walking
the variables with the names `seen` so far: a variable whose name is a key and
was not seen before (the first variable of that name) takes the value of the
key, every other variable is unchanged. -/
def markFirst (keys : List GoString) (val : GoString → GoString) :
    List GoString → List EnvVar → List EnvVar
  | _, [] => []
  | seen, e :: rest =>
    (if e.Name ∈ keys ∧ e.Name ∉ seen then { e with Value := val e.Name } else e)
      :: markFirst keys val (e.Name :: seen) rest

/-- The environment overlay in the words of the specification: for every
configured key, the first variable of that name takes the configured value in
place; the keys that name no variable are appended as new variables, in the
order of `keys`; nothing else changes. -/
def overlayEnvSpec (keys : List GoString) (val : GoString → GoString) (vars : List EnvVar) :
    List EnvVar :=
  markFirst keys val [] vars
    ++ (keys.filter (fun k => decide (k ∉ vars.map (fun e => e.Name)))).map
        (fun k => { Name := k, Value := val k })

/-! ## Further inputs of the closed examples -/

/-- Three periodics named `b`, `a` and `c`. -/
def periodicsExample : List Periodic :=
  [{ JobBase := { Name := str "b" } }, { JobBase := { Name := str "a" } },
   { JobBase := { Name := str "c" } }]

/-- A rule set with two configured environment variables. -/
def envExample : options :=
  { baseExample with
    Env := some (StrMap.ofPairs [(str "ZONE", str "eu"), (str "GOPROXY", str "direct")]) }

/-- A job whose container sets `GOPROXY` twice and `HOME` once. -/
def envJobExample : JobBase :=
  { Name := str "test-job"
    Spec := some
      { Containers :=
          [{ Name := str "test"
             Env := [{ Name := str "HOME", Value := str "/root" },
                     { Name := str "GOPROXY", Value := str "off", ValueFrom := some (str "ref") },
                     { Name := str "GOPROXY", Value := str "again" }] }] } }

/-- A rule set that overrides the node selector with one entry. -/
def selectorExample : options :=
  { baseExample with
    OverrideSelector := true
    Selector := some (StrMap.ofPairs [(str "pool", str "private")]) }

/-- A job whose spec has a node selector with two entries. -/
def selectorJobExample : JobBase :=
  { Name := str "test-job"
    Spec := some
      { NodeSelector := some (StrMap.ofPairs
          [(str "pool", str "public"), (str "arch", str "amd64")]) } }

/-- A fragment whose seven maps are present but empty. -/
def emptyMapsExample : Transform :=
  { Annotations := some ∅, Labels := some ∅, Selector := some ∅, Env := some ∅
    OrgMap := some ∅, RefOrgMap := some ∅, HubMap := some ∅ }

/-- A fragment whose seven maps hold one entry each. -/
def filledMapsExample : Transform :=
  { Annotations := some (StrMap.ofPairs [(str "owner", str "infra")])
    Labels := some (StrMap.ofPairs [(str "team", str "infra")])
    Selector := some (StrMap.ofPairs [(str "pool", str "build")])
    Env := some (StrMap.ofPairs [(str "GOPROXY", str "direct")])
    OrgMap := some (StrMap.ofPairs [(str "istio", str "istio-private")])
    RefOrgMap := some (StrMap.ofPairs [(str "istio", str "istio-mirror")])
    HubMap := some (StrMap.ofPairs [(str "gcr.io", str "private.hub")]) }

/-- A destination document with one presubmit under `istio-private/istio` and
one periodic. -/
def existingDocExample : JobConfig :=
  { PresubmitsStatic :=
      AList.insert (str "istio-private/istio") [{ JobBase := { Name := str "old" } }] ∅
    Periodics := [{ JobBase := { Name := str "nightly" } }] }

/-- New presubmits: one job under `istio-private/istio`. -/
def newPresubmitsExample : JobMap Presubmit :=
  AList.insert (str "istio-private/istio") [{ JobBase := { Name := str "new" } }] ∅

/-! ## Notions and inputs for refs, presets, pruning, faults and periodics -/

/-- The org an extra ref is rewritten to, in the words of the specification:
the value of the ref-org map when the org is one of its keys, else the value
of the org map when the org is one of its keys, else the org itself. -/
def newRefOrg (o : options) (org : GoString) : GoString :=
  match o.RefOrgMap.get? org with
  | some newOrg => newOrg
  | none =>
    match o.OrgMap.get? org with
    | some newOrg => newOrg
    | none => org

/-- The rewrite of one extra ref in the words of the specification. -/
def extraRefSpec (o : options) (ref : Refs) : Refs :=
  if o.Refs = false ∧ validateOrgRepo o ref.Org ref.Repo = false then ref
  else
    { Org := newRefOrg o ref.Org
      Repo := ref.Repo
      CloneURI :=
        if o.SSHClone then
          str "git@github.com:" ++ newRefOrg o ref.Org ++ str "/" ++ ref.Repo ++ str ".git"
        else if (o.RefOrgMap.get? ref.Org).isSome then
          str "https://" ++ newRefOrg o ref.Org ++ str "/" ++ ref.Repo
        else ref.CloneURI
      BaseRef := if o.RefBranchOut ≠ [] then o.RefBranchOut else ref.BaseRef }

/-- A rule set in refs mode with a ref-org map, a configured extra ref and an
output branch for refs. -/
def refsExample : options :=
  { baseExample with
    Refs := true
    RefOrgMap := some (StrMap.ofPairs [(str "envoyproxy", str "mirror.example.com/envoy")])
    ExtraRefs := [{ Org := str "istio-private", Repo := str "tools", BaseRef := str "main" }]
    RefBranchOut := str "release" }

/-- A utility config with three extra refs: one whose org is a key of the org
map, one whose org is a key of neither map, one whose org is a key of the
ref-org map only. -/
def refsJobExample : UtilityConfig :=
  { ExtraRefs :=
      [{ Org := str "istio", Repo := str "api", BaseRef := str "master",
         CloneURI := str "https://github.com/istio/api" },
       { Org := str "kubernetes", Repo := str "test-infra", BaseRef := str "master" },
       { Org := str "envoyproxy", Repo := str "envoy", BaseRef := str "main" }] }

/-- The three merge loops of `mergePreset`, which run once the label gate is
passed: the preset's variables and volume mounts merged into every container,
its volumes into the volumes of the spec. -/
def mergeInto (spec : PodSpec) (preset : Preset) : PodSpec :=
  { spec with
    Containers := preset.VolumeMounts.foldl
      (fun cs volm => cs.map (fun c => { c with VolumeMounts := mergeVolumeMount volm c.VolumeMounts }))
      (preset.Env.foldl
        (fun cs env => cs.map (fun c => { c with Env := mergeEnv env c.Env })) spec.Containers)
    Volumes := preset.Volumes.foldl (fun vs vol => mergeVolume vol vs) spec.Volumes }

/-- The job's labels satisfy the preset: every label the preset declares is a
label of the job with an equal value. -/
def LabelsSatisfy (labels : GoMap) (preset : Preset) : Prop :=
  ∀ k v, preset.Labels.get? k = some v → labels.get? k = some v

/-- A preset gated by the label `preset-dind: true` that sets one variable,
one volume and one volume mount. -/
def presetExample : Preset :=
  { Labels := some (StrMap.ofPairs [(str "preset-dind", str "true")])
    Env := [{ Name := str "DOCKER_IN_DOCKER", Value := str "true" }]
    Volumes := [{ Name := str "docker-root", Source := str "emptyDir" }]
    VolumeMounts := [{ Name := str "docker-root", MountPath := str "/var/lib/docker" }] }

/-- A rule set with the Resolve flag set. -/
def resolveExample : options :=
  { baseExample with Resolve := true }

/-- A rule set that denylists the variable `SECRET` and the volume `creds`. -/
def pruneExample : options :=
  { baseExample with
    EnvDenylistSet := [str "SECRET"]
    VolumeDenylistSet := [str "creds"] }

/-- A job whose container holds a denylisted variable between two others and
mounts a denylisted volume before another one. -/
def pruneJobExample : JobBase :=
  { Name := str "test-job"
    Spec := some
      { Containers :=
          [{ Name := str "test"
             Env := [{ Name := str "HOME", Value := str "/root" },
                     { Name := str "SECRET", Value := str "x" },
                     { Name := str "GOPROXY", Value := str "off" }]
             VolumeMounts := [{ Name := str "creds", MountPath := str "/etc/creds" },
                              { Name := str "cache", MountPath := str "/cache" }] }]
        Volumes := [{ Name := str "creds", Source := str "secret" },
                    { Name := str "cache", Source := str "emptyDir" }] } }

/-- A job base named `test-job` without a container spec. -/
def noSpecExample : JobBase :=
  { Name := str "test-job" }

/-- The rule set `baseExample` with Gerrit reporting support enabled. -/
def gerritExample : options :=
  { baseExample with SupportGerritReporting := true }

/-- A job base named `test-job` with a container spec and no label map. -/
def noLabelsExample : JobBase :=
  { Name := str "test-job", Spec := some specExample }

/-- A rule set whose modifier has 63 bytes. -/
def longModifierExample : options :=
  { baseExample with Modifier := List.replicate 63 120 }

/-- The rule set `baseExample` with an output branch and no target branch. -/
def branchesOutExample : options :=
  { baseExample with Input := str "/in", BranchesOut := [str "release-1.0"] }

/-- A periodic named `nightly` with two extra refs: `istio/istio` on
`master`, which passes `validateOrgRepo` under `baseExample`, and
`kubernetes/test-infra` on `main`, which does not. -/
def periodicExample : Periodic :=
  { JobBase :=
      { Name := str "nightly"
        Spec := some specExample
        UtilityConfig :=
          { ExtraRefs :=
              [{ Org := str "kubernetes", Repo := str "test-infra", BaseRef := str "main" },
               { Org := str "istio", Repo := str "istio", BaseRef := str "master" }] } } }

/-- The rule set `baseExample` restricted to the target branch `master`. -/
def masterExample : options :=
  { baseExample with Branches := [str "master"] }

/-- A hub map with the entries `gcr.io -> quay.io` and
`quay.io -> private.example.com`, visited in that order. -/
def hubsExample : StrMap :=
  StrMap.ofPairs [(str "gcr.io", str "quay.io"), (str "quay.io", str "private.example.com")]

/-- The hub map `hubsExample` visited in the opposite order. -/
def hubsReversedExample : StrMap :=
  StrMap.ofPairs [(str "quay.io", str "private.example.com"), (str "gcr.io", str "quay.io")]

/-! ## Properties: sets and pattern matching -/

theorem StringSet.Len_pos_iff (s : StringSet) : s.Len > 0 ↔ s ≠ [] := by
  unfold StringSet.Len
  rw [gt_iff_lt, List.length_pos, ne_eq, ne_eq, List.dedup_eq_nil]

theorem StringSet.Has_iff (s : StringSet) (x : GoString) : s.Has x = true ↔ x ∈ s := by
  simp [StringSet.Has]

theorem StringSet.mem_List (s : StringSet) (x : GoString) : x ∈ s.List ↔ x ∈ s := by
  unfold StringSet.List
  rw [(List.perm_insertionSort _ _).mem_iff, List.mem_dedup]

theorem hasMatch_of_valid (E : Ext) (name : GoString) (ps : List GoString)
    (hv : ∀ p ∈ ps, E.regexpValid p = true) :
    hasMatch E name ps = .ok (ps.any (fun p => E.regexpMatch p name)) := by
  induction ps with
  | nil => rfl
  | cons p rest ih =>
    have hp : E.regexpValid p = true := hv p (List.mem_cons_self _ _)
    have hrest : ∀ q ∈ rest, E.regexpValid q = true :=
      fun q hq => hv q (List.mem_cons_of_mem _ hq)
    simp only [hasMatch, hp, if_true, List.any_cons]
    cases hm : E.regexpMatch p name with
    | true => simp
    | false => simp [ih hrest]

theorem isMatchBranchLoop_of_valid (E : Ext) (ps bs : List GoString)
    (hv : ∀ p ∈ ps, E.regexpValid p = true) :
    isMatchBranchLoop E ps bs
      = .ok (bs.any (fun b => ps.any (fun p => E.regexpMatch p b))) := by
  induction bs with
  | nil => rfl
  | cons b rest ih =>
    simp only [isMatchBranchLoop, hasMatch_of_valid E b ps hv, List.any_cons]
    cases hm : ps.any (fun p => E.regexpMatch p b) with
    | true => simp
    | false => simp [ih]

/-- C3 (translator gate). `validateOrgRepo` returns true if and only if the org
is a key of the org map, the repo is not in the repo denylist, and the repo
allowlist is empty or contains the repo; in particular it returns false
whenever the org is absent from the org map, whatever the lists and the repo
are. -/
theorem validateOrgRepo_iff (o : options) (org repo : GoString) :
    (validateOrgRepo o org repo = true ↔
      (o.OrgMap.HasKey org ∧ repo ∉ o.RepoDenylistSet
        ∧ (o.RepoAllowlistSet = [] ∨ repo ∈ o.RepoAllowlistSet)))
    ∧ (¬ o.OrgMap.HasKey org → validateOrgRepo o org repo = false) := by
  have hkey : o.OrgMap.HasKey org ↔ (o.OrgMap.get? org).isSome = true := by
    unfold GoMap.HasKey
    rw [Option.isSome_iff_exists]
  have hlen : decide (o.RepoAllowlistSet.Len > 0) = true ↔ o.RepoAllowlistSet ≠ [] := by
    rw [decide_eq_true_iff]; exact StringSet.Len_pos_iff _
  have main : validateOrgRepo o org repo = true ↔
      (o.OrgMap.HasKey org ∧ repo ∉ o.RepoDenylistSet
        ∧ (o.RepoAllowlistSet = [] ∨ repo ∈ o.RepoAllowlistSet)) := by
    rw [hkey]
    unfold validateOrgRepo
    by_cases h1 : (o.OrgMap.get? org).isSome = true
    · by_cases h2 : repo ∈ o.RepoDenylistSet
      · simp [h1, h2, StringSet.Has]
      · by_cases h3 : o.RepoAllowlistSet = []
        · simp [h1, h2, h3, StringSet.Has, StringSet.Len]
        · have h3' : decide (o.RepoAllowlistSet.Len > 0) = true := hlen.mpr h3
          by_cases h4 : repo ∈ o.RepoAllowlistSet
          · simp [h1, h2, h3, h4, StringSet.Has]
          · simp [h1, h2, h3, h3', h4, StringSet.Has]
    · simp [h1]
  refine ⟨main, fun hno => ?_⟩
  cases hv : validateOrgRepo o org repo with
  | false => rfl
  | true => exact absurd (main.mp hv).1 hno

theorem validateJob_eq_of_valid (E : Ext) (o : options) (name : GoString)
    (patterns : List GoString) (jType : GoString)
    (hd : ∀ p ∈ o.JobDenylistSet, E.regexpValid p = true)
    (ha : ∀ p ∈ o.JobAllowlistSet, E.regexpValid p = true)
    (hp : ∀ p ∈ patterns, E.regexpValid p = true) :
    validateJob E o name patterns jType
      = .ok (!(o.JobDenylistSet.List.any (fun p => E.regexpMatch p name)
          || (decide (o.JobAllowlistSet.Len > 0)
              && !o.JobAllowlistSet.List.any (fun p => E.regexpMatch p name))
          || !(decide (o.Branches.length = 0)
              || o.Branches.any (fun b => patterns.any (fun p => E.regexpMatch p b)))
          || !o.JobTypeSet.Has jType)) := by
  have hd' : ∀ p ∈ o.JobDenylistSet.List, E.regexpValid p = true :=
    fun p h => hd p ((StringSet.mem_List _ _).mp h)
  have ha' : ∀ p ∈ o.JobAllowlistSet.List, E.regexpValid p = true :=
    fun p h => ha p ((StringSet.mem_List _ _).mp h)
  unfold validateJob isMatchBranch
  rw [hasMatch_of_valid E name _ hd', hasMatch_of_valid E name _ ha']
  by_cases hb : o.Branches.length = 0
  · simp only [hb, if_true]
    cases o.JobDenylistSet.List.any (fun p => E.regexpMatch p name) <;>
    cases decide (o.JobAllowlistSet.Len > 0) <;>
    cases o.JobAllowlistSet.List.any (fun p => E.regexpMatch p name) <;>
    cases o.JobTypeSet.Has jType <;> rfl
  · simp only [hb, if_false, isMatchBranchLoop_of_valid E patterns o.Branches hp]
    cases o.JobDenylistSet.List.any (fun p => E.regexpMatch p name) <;>
    cases decide (o.JobAllowlistSet.Len > 0) <;>
    cases o.JobAllowlistSet.List.any (fun p => E.regexpMatch p name) <;>
    cases o.Branches.any (fun b => patterns.any (fun p => E.regexpMatch p b)) <;>
    cases o.JobTypeSet.Has jType <;> rfl

/-- C2 (filter conjunction). For a rule set and a job whose patterns all
compile (deny patterns, allow patterns and the branch patterns of the job),
`validateJob` returns true if and only if the four clauses of `FilterClauses`
hold at once, and it returns false as soon as one of them fails. -/
theorem validateJob_iff (E : Ext) (o : options) (name : GoString)
    (patterns : List GoString) (jType : GoString)
    (hd : ∀ p ∈ o.JobDenylistSet, E.regexpValid p = true)
    (ha : ∀ p ∈ o.JobAllowlistSet, E.regexpValid p = true)
    (hp : ∀ p ∈ patterns, E.regexpValid p = true) :
    (validateJob E o name patterns jType = .ok true ↔ FilterClauses E o name patterns jType)
    ∧ (¬ FilterClauses E o name patterns jType →
        validateJob E o name patterns jType = .ok false) := by
  have hden : o.JobDenylistSet.List.any (fun p => E.regexpMatch p name) = false ↔
      ∀ p ∈ o.JobDenylistSet, E.regexpMatch p name = false := by
    rw [List.any_eq_false]
    constructor
    · intro h p hp
      have := h p ((StringSet.mem_List _ _).mpr hp)
      simpa using this
    · intro h p hp
      have := h p ((StringSet.mem_List _ _).mp hp)
      simp [this]
  have hall : o.JobAllowlistSet.List.any (fun p => E.regexpMatch p name) = true ↔
      ∃ p ∈ o.JobAllowlistSet, E.regexpMatch p name = true := by
    rw [List.any_eq_true]
    constructor
    · rintro ⟨p, hp, hm⟩; exact ⟨p, (StringSet.mem_List _ _).mp hp, hm⟩
    · rintro ⟨p, hp, hm⟩; exact ⟨p, (StringSet.mem_List _ _).mpr hp, hm⟩
  have hlen : decide (o.JobAllowlistSet.Len > 0) = true ↔ o.JobAllowlistSet ≠ [] := by
    rw [decide_eq_true_iff]; exact StringSet.Len_pos_iff _
  have hbr : (decide (o.Branches.length = 0)
        || o.Branches.any (fun b => patterns.any (fun p => E.regexpMatch p b))) = true ↔
      (o.Branches = [] ∨ ∃ b ∈ o.Branches, ∃ p ∈ patterns, E.regexpMatch p b = true) := by
    simp [List.length_eq_zero]
  have htype : o.JobTypeSet.Has jType = true ↔ jType ∈ o.JobTypeSet := StringSet.Has_iff _ _
  have key : (!(o.JobDenylistSet.List.any (fun p => E.regexpMatch p name)
          || (decide (o.JobAllowlistSet.Len > 0)
              && !o.JobAllowlistSet.List.any (fun p => E.regexpMatch p name))
          || !(decide (o.Branches.length = 0)
              || o.Branches.any (fun b => patterns.any (fun p => E.regexpMatch p b)))
          || !o.JobTypeSet.Has jType)) = true ↔ FilterClauses E o name patterns jType := by
    unfold FilterClauses
    rw [← hden, ← hbr, ← htype, ← hall]
    have hl : decide (o.JobAllowlistSet.Len > 0) = false ↔ o.JobAllowlistSet = [] := by
      rw [← Bool.not_eq_true, hlen, not_not]
    revert hl
    generalize o.JobDenylistSet.List.any (fun p => E.regexpMatch p name) = d
    generalize decide (o.JobAllowlistSet.Len > 0) = l
    generalize o.JobAllowlistSet.List.any (fun p => E.regexpMatch p name) = a
    generalize (decide (o.Branches.length = 0)
        || o.Branches.any (fun b => patterns.any (fun p => E.regexpMatch p b))) = b
    generalize o.JobTypeSet.Has jType = t
    intro hl
    cases d <;> cases l <;> cases a <;> cases b <;> cases t <;> simp_all
  rw [validateJob_eq_of_valid E o name patterns jType hd ha hp]
  constructor
  · rw [← key]
    constructor
    · intro h; exact Except.ok.inj h
    · intro h; rw [h]
  · intro h
    rw [← key] at h
    rw [Bool.not_eq_true] at h
    rw [h]

theorem validateJob_iff_witness :
    (∀ p ∈ filterExample.JobDenylistSet, exampleExt.regexpValid p = true)
    ∧ (validateJob exampleExt filterExample (str "test-job") [str "master"] (str "presubmit")
          = .ok true
        ↔ FilterClauses exampleExt filterExample (str "test-job") [str "master"]
            (str "presubmit"))
    ∧ validateJob exampleExt filterExample (str "test-job") [str "master"] (str "presubmit")
          = .ok true :=
  ⟨by decide,
   (validateJob_iff exampleExt filterExample (str "test-job") [str "master"] (str "presubmit")
      (by decide) (by decide) (by decide)).1,
   by decide⟩

/-! ## Properties: config layering -/

theorem applyDefaultTransforms_SupportGerritReporting (dst : Transform)
    (srcs : List Transform) :
    (applyDefaultTransforms dst srcs).SupportGerritReporting = dst.SupportGerritReporting := by
  unfold applyDefaultTransforms
  induction srcs generalizing dst with
  | nil => rfl
  | cons src rest ih => rw [List.foldl_cons, ih]; rfl

/-- C1 (layering fills unset fields), evaluated on the field
support-gerrit-reporting: with the flag unset in the highest-precedence
fragment and set in the only lower fragment, the layered flag is still unset,
while a sibling flag (`Resolve`) unset and set in the same way is filled; and
an `Annotations` map that is present but empty is not filled either. -/
theorem applyDefaultTransforms_gerrit_not_layered :
    (applyDefaultTransforms {} [{ SupportGerritReporting := true, Resolve := true }]).SupportGerritReporting
        = false
    ∧ (applyDefaultTransforms {} [{ SupportGerritReporting := true, Resolve := true }]).Resolve
        = true
    ∧ (applyDefaultTransforms { Annotations := some ∅ }
          [{ Annotations := some (StrMap.ofPairs [(str "owner", str "infra")]) }]).Annotations
        = some ∅ := by
  decide

/-! ## Properties: job name -/

theorem updateJobName_truncates (o : options) (job : JobBase)
    (h : (nameSuffix o).length ≤ 63) (hlong : o.AllowLongJobNames = false) :
    updateJobName o job
      = .ok { job with
          Name := job.Name.take (min job.Name.length (63 - (nameSuffix o).length))
            ++ nameSuffix o } := by
  unfold updateJobName sliceTo maxLabelLen
  simp only [hlong, Bool.not_false, if_true]
  by_cases hgt : (job.Name.length : Int) > 63 - ((nameSuffix o).length : Int)
  · have h1 : (0 : Int) ≤ 63 - ((nameSuffix o).length : Int) := by omega
    have h2 : (63 : Int) - ((nameSuffix o).length : Int) ≤ (job.Name.length : Int) := by omega
    have h3 : ((63 : Int) - ((nameSuffix o).length : Int)).toNat
        = min job.Name.length (63 - (nameSuffix o).length) := by omega
    simp only [hgt, if_true, h1, h2, and_self, h3]
  · have h3 : min job.Name.length (63 - (nameSuffix o).length) = job.Name.length := by omega
    simp only [hgt, if_false, h3, List.take_length]

theorem updateJobName_long (o : options) (job : JobBase)
    (hlong : o.AllowLongJobNames = true) :
    updateJobName o job = .ok { job with Name := job.Name ++ nameSuffix o } := by
  unfold updateJobName
  simp [hlong]

/-- C4 (job name rewrite). With the suffix `_` + modifier (empty for an empty
modifier) at most 63 bytes long: when long names are not allowed
`updateJobName` sets the name to the first `min (len name) (63 - len suffix)`
bytes of the name followed by the suffix, a name of at most 63 bytes that ends
with the suffix; when long names are allowed it sets the name to the whole
name followed by the suffix. -/
theorem updateJobName_spec (o : options) (job : JobBase)
    (h : (nameSuffix o).length ≤ 63) :
    (o.AllowLongJobNames = false →
      updateJobName o job
          = .ok { job with
              Name := job.Name.take (min job.Name.length (63 - (nameSuffix o).length))
                ++ nameSuffix o }
      ∧ (job.Name.take (min job.Name.length (63 - (nameSuffix o).length))
            ++ nameSuffix o).length ≤ 63
      ∧ nameSuffix o <:+ (job.Name.take (min job.Name.length (63 - (nameSuffix o).length))
            ++ nameSuffix o))
    ∧ (o.AllowLongJobNames = true →
      updateJobName o job = .ok { job with Name := job.Name ++ nameSuffix o })
    ∧ nameSuffix o = (if o.Modifier ≠ [] then str "_" ++ o.Modifier else []) := by
  refine ⟨fun hlong => ⟨updateJobName_truncates o job h hlong, ?_, List.suffix_append _ _⟩,
    updateJobName_long o job, rfl⟩
  rw [List.length_append, List.length_take]
  omega

theorem updateJobName_spec_witness :
    (nameSuffix { Modifier := str "private" }).length ≤ 63
    ∧ updateJobName { Modifier := str "private" } { Name := str "test-job" }
        = .ok { Name := str "test-job_private" }
    ∧ updateJobName { Modifier := str "private" } { Name := List.replicate 63 97 }
        = .ok { Name := List.replicate 55 97 ++ str "_private" } :=
  ⟨by decide,
   ((updateJobName_spec { Modifier := str "private" } { Name := str "test-job" }
      (by decide)).1 rfl).1.trans (by decide),
   ((updateJobName_spec { Modifier := str "private" } { Name := List.replicate 63 97 }
      (by decide)).1 rfl).1.trans (by decide)⟩

/-! ## Properties: Gerrit report label -/

theorem GoMap.get?_delete_self (m : GoMap) (k : GoString) : (m.delete k).get? k = none := by
  cases m with
  | none => rfl
  | some m => simp [GoMap.delete, GoMap.get?]

theorem GoMap.get?_delete_ne (m : GoMap) (k k' : GoString) (h : k' ≠ k) :
    (m.delete k).get? k' = m.get? k' := by
  cases m with
  | none => rfl
  | some m => simp [GoMap.delete, GoMap.get?, AList.lookup_erase_ne h]

/-- C5, counterexample: with support-gerrit-reporting enabled and the
skip-report flag set, an optional job that carried the label `Custom` ends
with no Gerrit report label at all, not with `Advisory`. -/
theorem updateGerritReportingLabels_skipReport_counterexample :
    (updateGerritReportingLabels { SupportGerritReporting := true } true true
        (some (StrMap.ofPairs [(gerritReportLabel, str "Custom")]))).map
      (fun labels => labels.get? gerritReportLabel) = .ok none := by
  decide

/-- C5, amended (Gerrit label when reporting is enabled). On a job whose label
map is present, with support-gerrit-reporting enabled: if skip-report is unset,
an optional job ends with the label `Advisory`, a non-optional job without the
label ends with `Verified`, and a non-optional job that has the label keeps
its labels unchanged; if skip-report is set the label is removed. Every other
label keeps its value. -/
theorem updateGerritReportingLabels_enabled (o : options) (m : StrMap)
    (h : o.SupportGerritReporting = true) :
    (∃ m1 : StrMap, updateGerritReportingLabels o false true (some m) = .ok (some m1)
        ∧ m1.lookup gerritReportLabel = some (str "Advisory")
        ∧ ∀ k, k ≠ gerritReportLabel → m1.lookup k = m.lookup k)
    ∧ (m.lookup gerritReportLabel = none →
        ∃ m1 : StrMap, updateGerritReportingLabels o false false (some m) = .ok (some m1)
          ∧ m1.lookup gerritReportLabel = some (str "Verified")
          ∧ ∀ k, k ≠ gerritReportLabel → m1.lookup k = m.lookup k)
    ∧ (∀ v, m.lookup gerritReportLabel = some v →
        updateGerritReportingLabels o false false (some m) = .ok (some m))
    ∧ (∀ optional, ∃ m1 : StrMap,
        updateGerritReportingLabels o true optional (some m) = .ok (some m1)
          ∧ m1.lookup gerritReportLabel = none
          ∧ ∀ k, k ≠ gerritReportLabel → m1.lookup k = m.lookup k) := by
  refine ⟨?_, ?_, ?_, ?_⟩
  · refine ⟨m.insert gerritReportLabel (str "Advisory"), ?_, ?_, ?_⟩
    · simp [updateGerritReportingLabels, h, GoMap.set]
    · exact AList.lookup_insert m
    · intro k hk; exact AList.lookup_insert_ne hk
  · intro hnone
    refine ⟨m.insert gerritReportLabel (str "Verified"), ?_, ?_, ?_⟩
    · simp [updateGerritReportingLabels, h, GoMap.set, GoMap.get?, hnone]
    · exact AList.lookup_insert m
    · intro k hk; exact AList.lookup_insert_ne hk
  · intro v hv
    simp [updateGerritReportingLabels, h, GoMap.get?, hv]
  · intro optional
    refine ⟨m.erase gerritReportLabel, ?_, ?_, ?_⟩
    · simp [updateGerritReportingLabels, h, GoMap.delete]
    · simp
    · intro k hk; exact AList.lookup_erase_ne hk

theorem updateGerritReportingLabels_enabled_witness :
    ({ SupportGerritReporting := true } : options).SupportGerritReporting = true
    ∧ ∃ m1 : StrMap,
        updateGerritReportingLabels { SupportGerritReporting := true } false true
            (some (StrMap.ofPairs [(gerritReportLabel, str "Custom")])) = .ok (some m1)
        ∧ m1.lookup gerritReportLabel = some (str "Advisory")
        ∧ ∀ k, k ≠ gerritReportLabel →
            m1.lookup k = (StrMap.ofPairs [(gerritReportLabel, str "Custom")]).lookup k :=
  ⟨rfl, (updateGerritReportingLabels_enabled { SupportGerritReporting := true }
      (StrMap.ofPairs [(gerritReportLabel, str "Custom")]) rfl).1⟩

/-! ## Properties: what the steps of the pipeline do to labels and spec -/

theorem updateJobName_frame (o : options) (job job1 : JobBase)
    (h : updateJobName o job = .ok job1) :
    job1.Labels = job.Labels ∧ job1.Spec = job.Spec := by
  unfold updateJobName at h
  dsimp only at h
  split at h
  · split at h
    · split at h
      · exact absurd h (by simp)
      · cases h; exact ⟨rfl, rfl⟩
    · cases h; exact ⟨rfl, rfl⟩
  · cases h; exact ⟨rfl, rfl⟩

theorem updateJobName_ok (o : options) (job : JobBase)
    (h : o.AllowLongJobNames = true ∨ (nameSuffix o).length ≤ 63) :
    ∃ job1, updateJobName o job = .ok job1 := by
  cases hl : o.AllowLongJobNames with
  | true =>
    exact ⟨_, updateJobName_long o job hl⟩
  | false =>
    rcases h with h | h
    · rw [hl] at h; exact absurd h (by simp)
    · exact ⟨_, updateJobName_truncates o job h hl⟩

theorem updateNodeSelector_frame (o : options) (job job1 : JobBase)
    (h : updateNodeSelector o job = .ok job1) :
    job1.Labels = job.Labels ∧ (job1.Spec.isSome = job.Spec.isSome) := by
  unfold updateNodeSelector at h
  simp only [bind, Except.bind] at h
  cases hs : job.Spec with
  | none =>
    by_cases ho : o.OverrideSelector = true
    · simp [ho, hs] at h
    · by_cases hl : o.Selector.len = 0
      · simp [ho, hl] at h
        cases h; simp [hs]
      · simp [ho, hl, hs] at h
  | some spec =>
    by_cases ho : o.OverrideSelector = true
    · by_cases hl : o.Selector.len = 0
      · simp [ho, hl, hs] at h
        cases h; simp
      · simp [ho, hl, hs] at h
        cases h; simp
    · by_cases hl : o.Selector.len = 0
      · simp [ho, hl] at h
        cases h; simp [hs]
      · simp [ho, hl, hs] at h
        cases h; simp

theorem updateNodeSelector_ok (o : options) (job : JobBase) (hs : job.Spec.isSome = true) :
    ∃ job1, updateNodeSelector o job = .ok job1 := by
  obtain ⟨spec, hspec⟩ := Option.isSome_iff_exists.mp hs
  unfold updateNodeSelector
  simp only [bind, Except.bind]
  by_cases ho : o.OverrideSelector = true <;> by_cases hl : o.Selector.len = 0 <;>
    simp [ho, hl, hspec]

theorem updateEnvs_frame (o : options) (job job1 : JobBase)
    (h : updateEnvs o job = .ok job1) :
    job1.Labels = job.Labels ∧ (job1.Spec.isSome = job.Spec.isSome) := by
  unfold updateEnvs at h
  split at h
  · cases h; exact ⟨rfl, rfl⟩
  · split at h
    · cases h; exact ⟨rfl, rfl⟩
    · split at h
      · exact absurd h (by simp)
      · rename_i spec hspec
        cases h; simp [hspec]

theorem updateEnvs_ok (o : options) (job : JobBase) (hs : job.Spec.isSome = true) :
    ∃ job1, updateEnvs o job = .ok job1 := by
  obtain ⟨spec, hspec⟩ := Option.isSome_iff_exists.mp hs
  unfold updateEnvs
  split
  · exact ⟨_, rfl⟩
  · split
    · exact ⟨_, rfl⟩
    · simp [hspec]

theorem updateServiceAccount_frame (o : options) (job job1 : JobBase)
    (h : updateServiceAccount o job = .ok job1) :
    job1.Labels = job.Labels ∧ (job1.Spec.isSome = job.Spec.isSome) := by
  unfold updateServiceAccount at h
  split at h
  · cases h; exact ⟨rfl, rfl⟩
  · split at h
    · exact absurd h (by simp)
    · rename_i spec hspec
      split at h
      · cases h; exact ⟨rfl, rfl⟩
      · cases h; simp [hspec]

theorem updateServiceAccount_ok (o : options) (job : JobBase) (hs : job.Spec.isSome = true) :
    ∃ job1, updateServiceAccount o job = .ok job1 := by
  obtain ⟨spec, hspec⟩ := Option.isSome_iff_exists.mp hs
  unfold updateServiceAccount
  split
  · exact ⟨_, rfl⟩
  · simp only [hspec]
    split <;> exact ⟨_, rfl⟩

theorem updateReporterConfig_frame (o : options) (job : JobBase) :
    (updateReporterConfig o job).Labels = job.Labels
    ∧ (updateReporterConfig o job).Spec = job.Spec := by
  unfold updateReporterConfig; split <;> exact ⟨rfl, rfl⟩

theorem updateRerunAuthConfig_frame (o : options) (job : JobBase) :
    (updateRerunAuthConfig o job).Labels = job.Labels
    ∧ (updateRerunAuthConfig o job).Spec = job.Spec := by
  unfold updateRerunAuthConfig; split <;> exact ⟨rfl, rfl⟩

theorem updateLabels_Spec (o : options) (job : JobBase) :
    (updateLabels o job).Spec = job.Spec := by
  unfold updateLabels; split <;> rfl

theorem updateLabels_Labels (o : options) (job : JobBase) :
    (updateLabels o job).Labels = labelsAfterOverlay o job.Labels := by
  unfold updateLabels labelsAfterOverlay; split <;> rfl

/-! ## Properties: overlaying a configured map -/

theorem foldl_insert_lookup (l : List (Σ _ : GoString, GoString)) (hl : l.NodupKeys)
    (m : StrMap) (k : GoString) :
    (l.foldl (fun acc e => AList.insert e.1 e.2 acc) m).lookup k
      = (List.dlookup k l).orElse (fun _ => m.lookup k) := by
  induction l generalizing m with
  | nil => simp
  | cons e rest ih =>
    obtain ⟨hnot, hrest⟩ := List.nodupKeys_cons.mp hl
    rw [List.foldl_cons, ih hrest]
    by_cases hk : k = e.1
    · subst hk
      have hnone : List.dlookup e.1 rest = none := List.dlookup_eq_none.mpr hnot
      rw [hnone]
      obtain ⟨ek, ev⟩ := e
      simp [List.dlookup_cons_eq]
    · rw [List.dlookup_cons_ne _ _ hk, AList.lookup_insert_ne hk]

/-- The overlay of a configured map: a configured key takes the configured
value, any other key keeps its value. -/
theorem overlay_lookup (dst : StrMap) (src : GoMap) (k : GoString) :
    (overlay dst src).lookup k = (src.get? k).orElse (fun _ => dst.lookup k) := by
  cases src with
  | none => simp [overlay, GoMap.range, GoMap.get?]
  | some c =>
    unfold overlay GoMap.range GoMap.get?
    rw [List.foldl_map]
    exact foldl_insert_lookup c.entries c.nodupKeys dst k

theorem GoMap.len_ne_zero_of_get? (m : GoMap) (k v : GoString) (h : m.get? k = some v) :
    m.len ≠ 0 := by
  cases m with
  | none => simp [GoMap.get?] at h
  | some c =>
    intro h0
    have hnil : c.entries = [] := List.length_eq_zero.mp h0
    have : c.lookup k = none := by
      unfold AList.lookup; rw [hnil]; rfl
    simp [GoMap.get?, this] at h

theorem labelsAfterOverlay_get? (o : options) (labels : GoMap) (k : GoString) :
    (labelsAfterOverlay o labels).get? k
      = (o.Labels.get? k).orElse (fun _ => labels.get? k) := by
  unfold labelsAfterOverlay
  split
  · rename_i h0
    have : o.Labels.get? k = none := by
      cases hg : o.Labels.get? k with
      | none => rfl
      | some v => exact absurd h0 (GoMap.len_ne_zero_of_get? _ k v hg)
    simp [this]
  · rw [GoMap.get?, overlay_lookup]
    cases labels <;> rfl

/-! ## Properties: labels and spec through the pipeline -/

theorem updateJobBase_frame (o : options) (job job1 : JobBase) (orgrepo : GoString)
    (h : updateJobBase o job orgrepo = .ok job1) :
    job1.Labels = labelsAfterOverlay o job.Labels
    ∧ job1.Spec.isSome = job.Spec.isSome := by
  unfold updateJobBase at h
  simp only [bind, Except.bind] at h
  split at h
  · exact absurd h (by simp)
  · rename_i j1 h1
    obtain ⟨hl1, hs1⟩ := updateJobName_frame _ _ _ h1
    split at h
    · exact absurd h (by simp)
    · rename_i j2 h2
      obtain ⟨hl2, hs2⟩ := updateNodeSelector_frame _ _ _ h2
      split at h
      · exact absurd h (by simp)
      · rename_i j3 h3
        obtain ⟨hl3, hs3⟩ := updateEnvs_frame _ _ _ h3
        obtain ⟨hl4, hs4⟩ := updateServiceAccount_frame _ _ _ h
        rw [hl4, hl3, hl2, updateLabels_Labels, (updateRerunAuthConfig_frame _ _).1,
          (updateReporterConfig_frame _ _).1, hl1]
        rw [hs4, hs3, hs2, updateLabels_Spec, (updateRerunAuthConfig_frame _ _).2,
          (updateReporterConfig_frame _ _).2, hs1]
        constructor
        · split <;> split <;> split <;> rfl
        · split <;> split <;> split <;> rfl

theorem updateJobBase_ok (o : options) (job : JobBase) (orgrepo : GoString)
    (hs : job.Spec.isSome = true)
    (hn : o.AllowLongJobNames = true ∨ (nameSuffix o).length ≤ 63) :
    ∃ job1, updateJobBase o job orgrepo = .ok job1 := by
  unfold updateJobBase
  simp only [bind, Except.bind]
  generalize hj0 : (if (o.Cluster ≠ [] && o.Cluster ≠ defaultCluster) = true then _ else _ : JobBase) = j0
  have hs0 : j0.Spec.isSome = true := by
    rw [← hj0]; split <;> split <;> split <;> exact hs
  obtain ⟨j1, h1⟩ := updateJobName_ok o j0 hn
  have hs1 : j1.Spec.isSome = true := by rw [(updateJobName_frame _ _ _ h1).2]; exact hs0
  rw [h1]
  dsimp only
  have hs1' : (updateLabels o (updateRerunAuthConfig o (updateReporterConfig o j1))).Spec.isSome
      = true := by
    rw [updateLabels_Spec, (updateRerunAuthConfig_frame _ _).2,
      (updateReporterConfig_frame _ _).2]; exact hs1
  obtain ⟨j2, h2⟩ := updateNodeSelector_ok o _ hs1'
  have hs2 : j2.Spec.isSome = true := by rw [(updateNodeSelector_frame _ _ _ h2).2]; exact hs1'
  rw [h2]
  dsimp only
  obtain ⟨j3, h3⟩ := updateEnvs_ok o j2 hs2
  have hs3 : j3.Spec.isSome = true := by rw [(updateEnvs_frame _ _ _ h3).2]; exact hs2
  rw [h3]
  dsimp only
  exact updateServiceAccount_ok o j3 hs3

theorem resolvePresets_frame (o : options) (labels : GoMap) (job : JobBase)
    (presets : List Preset) :
    (resolvePresets o labels job presets).Labels = job.Labels
    ∧ (resolvePresets o labels job presets).Spec.isSome = job.Spec.isSome := by
  unfold resolvePresets
  split
  · exact ⟨rfl, rfl⟩
  · split
    · exact ⟨rfl, rfl⟩
    · rename_i spec hspec
      simp [hspec]

theorem pruneJobBase_frame (o : options) (job : JobBase) :
    (pruneJobBase o job).Labels = job.Labels
    ∧ (pruneJobBase o job).Spec.isSome = job.Spec.isSome := by
  unfold pruneJobBase
  split
  · exact ⟨rfl, rfl⟩
  · rename_i spec hspec
    simp [hspec]

theorem updateHubs_frame (E : Ext) (o : options) (job job1 : JobBase)
    (h : updateHubs E o job = .ok job1) :
    job1.Labels = job.Labels ∧ job1.Spec.isSome = true ∧ job.Spec.isSome = true := by
  unfold updateHubs at h
  split at h
  · exact absurd h (by simp)
  · rename_i spec hspec
    cases h; simp [hspec]

theorem updateHubs_ok (E : Ext) (o : options) (job : JobBase) (hs : job.Spec.isSome = true) :
    ∃ job1, updateHubs E o job = .ok job1 := by
  obtain ⟨spec, hspec⟩ := Option.isSome_iff_exists.mp hs
  unfold updateHubs
  simp [hspec]

theorem updateTags_frame (E : Ext) (o : options) (job job1 : JobBase)
    (h : updateTags E o job = .ok job1) :
    job1.Labels = job.Labels := by
  unfold updateTags at h
  split at h
  · cases h; rfl
  · split at h
    · exact absurd h (by simp)
    · cases h; rfl

theorem updateTags_ok (E : Ext) (o : options) (job : JobBase) (hs : job.Spec.isSome = true) :
    ∃ job1, updateTags E o job = .ok job1 := by
  obtain ⟨spec, hspec⟩ := Option.isSome_iff_exists.mp hs
  unfold updateTags
  split
  · exact ⟨_, rfl⟩
  · simp [hspec]

/-- The labels of a rewritten presubmit: the Gerrit step applied to the
labels left by the overlay of the configured labels. -/
theorem rewritePresubmit_labels (E : Ext) (o : options) (presets : List Preset)
    (orgrepo : GoString) (job job1 : Presubmit)
    (h : rewritePresubmit E o presets orgrepo job = .ok job1) :
    updateGerritReportingLabels o job.SkipReport job.Optional
        (labelsAfterOverlay o job.JobBase.Labels) = .ok job1.JobBase.Labels
    ∧ job.JobBase.Spec.isSome = true := by
  unfold rewritePresubmit at h
  simp only [bind, Except.bind] at h
  split at h
  · exact absurd h (by simp)
  · rename_i j1 h1
    obtain ⟨hl1, hs1⟩ := updateJobBase_frame _ _ _ _ h1
    split at h
    · exact absurd h (by simp)
    · rename_i labels hg
      split at h
      · exact absurd h (by simp)
      · rename_i j2 h2
        obtain ⟨hl2, _, hs2⟩ := updateHubs_frame _ _ _ _ h2
        split at h
        · exact absurd h (by simp)
        · rename_i j3 h3
          have hl3 := updateTags_frame _ _ _ _ h3
          cases h
          dsimp only
          rw [(pruneJobBase_frame _ _).2, (resolvePresets_frame _ _ _ _).2] at hs2
          dsimp only at hs2
          rw [(pruneJobBase_frame _ _).1, (resolvePresets_frame _ _ _ _).1] at hl2
          dsimp only at hl2
          dsimp only at hl1 hs1
          rw [hl1] at hg
          refine ⟨?_, ?_⟩
          · rw [hl3, hl2]; exact hg
          · rw [← hs1]; exact hs2

theorem rewritePresubmit_ok (E : Ext) (o : options) (presets : List Preset)
    (orgrepo : GoString) (job : Presubmit)
    (hs : job.JobBase.Spec.isSome = true)
    (hn : o.AllowLongJobNames = true ∨ (nameSuffix o).length ≤ 63)
    (hg : ∃ labels, updateGerritReportingLabels o job.SkipReport job.Optional
        (labelsAfterOverlay o job.JobBase.Labels) = .ok labels) :
    ∃ job1, rewritePresubmit E o presets orgrepo job = .ok job1 := by
  unfold rewritePresubmit
  simp only [bind, Except.bind]
  obtain ⟨j1, h1⟩ := updateJobBase_ok o
    { job.JobBase with UtilityConfig := updateExtraRefs o job.JobBase.UtilityConfig } orgrepo hs hn
  obtain ⟨hl1, hs1⟩ := updateJobBase_frame _ _ _ _ h1
  rw [h1]
  dsimp only
  obtain ⟨labels, hlab⟩ := hg
  dsimp only at hl1 hs1
  rw [hl1, hlab]
  dsimp only
  generalize hj : pruneJobBase o _ = jp
  have hsp : jp.Spec.isSome = true := by
    rw [← hj, (pruneJobBase_frame _ _).2, (resolvePresets_frame _ _ _ _).2]
    dsimp only
    rw [hs1]; exact hs
  obtain ⟨j2, h2⟩ := updateHubs_ok E o jp hsp
  rw [h2]
  dsimp only
  obtain ⟨j3, h3⟩ := updateTags_ok E o j2 (updateHubs_frame _ _ _ _ h2).2.1
  rw [h3]
  exact ⟨_, rfl⟩

/-- The labels of a rewritten postsubmit: the input labels overlaid with the
configured labels; no Gerrit step is applied. -/
theorem rewritePostsubmit_labels (E : Ext) (o : options) (presets : List Preset)
    (orgrepo : GoString) (job job1 : Postsubmit)
    (h : rewritePostsubmit E o presets orgrepo job = .ok job1) :
    job1.JobBase.Labels = labelsAfterOverlay o job.JobBase.Labels := by
  unfold rewritePostsubmit at h
  simp only [bind, Except.bind] at h
  split at h
  · exact absurd h (by simp)
  · rename_i j1 h1
    obtain ⟨hl1, hs1⟩ := updateJobBase_frame _ _ _ _ h1
    split at h
    · exact absurd h (by simp)
    · rename_i j2 h2
      obtain ⟨hl2, _, hs2⟩ := updateHubs_frame _ _ _ _ h2
      split at h
      · exact absurd h (by simp)
      · rename_i j3 h3
        have hl3 := updateTags_frame _ _ _ _ h3
        cases h
        dsimp only
        rw [(pruneJobBase_frame _ _).1, (resolvePresets_frame _ _ _ _).1] at hl2
        dsimp only at hl2 hl1
        rw [hl3, hl2, hl1]

/-! ## Properties: the Gerrit report label through the pipeline -/

/-- C6, counterexample: with support-gerrit-reporting disabled, a postsubmit
that passes the filter and carries the Gerrit report label `Verified` is
emitted with that label still in place. -/
theorem rewritePostsubmit_keeps_gerrit_label :
    baseExample.SupportGerritReporting = false
    ∧ validateJob exampleExt baseExample (str "test-job") [] (str "postsubmit") = .ok true
    ∧ (rewritePostsubmit exampleExt baseExample [] (str "istio-private/istio")
          { JobBase := jobBaseExample }).map
        (fun job => job.JobBase.Labels.get? gerritReportLabel) = .ok (some (str "Verified")) := by
  decide

/-- C6, amended (Gerrit label removal on presubmits). With
support-gerrit-reporting disabled, every presubmit the rewrite pipeline of
`generateJobs` emits carries no Gerrit report label, whatever label the input
job had; and the pipeline does emit the job when its spec is present and the
job name can be formed (long names allowed, or a suffix of at most 63 bytes). -/
theorem rewritePresubmit_gerrit_disabled (E : Ext) (o : options) (presets : List Preset)
    (orgrepo : GoString) (job : Presubmit) (h : o.SupportGerritReporting = false) :
    (∀ job1, rewritePresubmit E o presets orgrepo job = .ok job1 →
        job1.JobBase.Labels.get? gerritReportLabel = none)
    ∧ (job.JobBase.Spec.isSome = true →
        (o.AllowLongJobNames = true ∨ (nameSuffix o).length ≤ 63) →
        ∃ job1, rewritePresubmit E o presets orgrepo job = .ok job1) := by
  have hg : updateGerritReportingLabels o job.SkipReport job.Optional
      (labelsAfterOverlay o job.JobBase.Labels)
        = .ok ((labelsAfterOverlay o job.JobBase.Labels).delete gerritReportLabel) := by
    simp [updateGerritReportingLabels, h]
  constructor
  · intro job1 hrun
    have hl := (rewritePresubmit_labels E o presets orgrepo job job1 hrun).1
    rw [hg] at hl
    rw [← Except.ok.inj hl]
    exact GoMap.get?_delete_self _ _
  · intro hs hn
    exact rewritePresubmit_ok E o presets orgrepo job hs hn ⟨_, hg⟩

theorem rewritePresubmit_gerrit_disabled_witness :
    baseExample.SupportGerritReporting = false
    ∧ ∃ job1, rewritePresubmit exampleExt baseExample [] (str "istio-private/istio")
          { JobBase := jobBaseExample } = .ok job1
        ∧ job1.JobBase.Labels.get? gerritReportLabel = none :=
  ⟨rfl, by
    have h := rewritePresubmit_gerrit_disabled exampleExt baseExample []
      (str "istio-private/istio") { JobBase := jobBaseExample } rfl
    obtain ⟨job1, hrun⟩ := h.2 rfl (Or.inr (by decide))
    exact ⟨job1, hrun, h.1 job1 hrun⟩⟩

/-! ## Properties: the configured labels through the pipeline -/

/-- C7, counterexample: a configured label with the Gerrit report label key
(value `Custom`) is not what the emitted presubmit carries: with reporting
support disabled the label is absent, and with support enabled an optional job
carries `Advisory`. -/
theorem rewritePresubmit_configured_gerrit_label_lost :
    labelExample.Labels.get? gerritReportLabel = some (str "Custom")
    ∧ validateJob exampleExt labelExample (str "test-job") [] (str "presubmit") = .ok true
    ∧ (rewritePresubmit exampleExt labelExample [] (str "istio-private/istio")
          { JobBase := jobBaseExample }).map
        (fun job => job.JobBase.Labels.get? gerritReportLabel) = .ok none
    ∧ (rewritePresubmit exampleExt { labelExample with SupportGerritReporting := true } []
          (str "istio-private/istio") { JobBase := jobBaseExample, Optional := true }).map
        (fun job => job.JobBase.Labels.get? gerritReportLabel)
          = .ok (some (str "Advisory")) := by
  decide

/-- C7, amended (the Gerrit step runs after the label overlay). For every
presubmit the pipeline emits and every configured label key other than the
Gerrit report label key, the emitted labels map the key to the configured
value. A configured Gerrit report label is then subject to the Gerrit step: it
is kept for a non-optional job when reporting is supported and skip-report is
unset, replaced by `Advisory` for an optional job, and removed otherwise. -/
theorem rewritePresubmit_configured_labels (E : Ext) (o : options) (presets : List Preset)
    (orgrepo : GoString) (job job1 : Presubmit)
    (h : rewritePresubmit E o presets orgrepo job = .ok job1) :
    (∀ k v, o.Labels.get? k = some v → k ≠ gerritReportLabel →
        job1.JobBase.Labels.get? k = some v)
    ∧ (∀ v, o.Labels.get? gerritReportLabel = some v →
        job1.JobBase.Labels.get? gerritReportLabel
          = if o.SupportGerritReporting && !job.SkipReport then
              (if job.Optional then some (str "Advisory") else some v)
            else none) := by
  have hl := (rewritePresubmit_labels E o presets orgrepo job job1 h).1
  have hover : ∀ k v, o.Labels.get? k = some v →
      (labelsAfterOverlay o job.JobBase.Labels).get? k = some v := by
    intro k v hk
    rw [labelsAfterOverlay_get?, hk]; rfl
  revert hl hover
  generalize job1.JobBase.Labels = res
  generalize labelsAfterOverlay o job.JobBase.Labels = lab
  intro hl hover
  constructor
  · intro k v hk hne
    have hov := hover k v hk
    unfold updateGerritReportingLabels at hl
    split at hl
    · split at hl
      · split at hl
        · cases hl; exact hov
        · cases lab with
          | none => simp [GoMap.get?] at hov
          | some m =>
            simp only [GoMap.set] at hl
            cases hl
            simp only [GoMap.get?] at hov ⊢
            rw [AList.lookup_insert_ne hne]; exact hov
      · cases lab with
        | none => simp [GoMap.get?] at hov
        | some m =>
          simp only [GoMap.set] at hl
          cases hl
          simp only [GoMap.get?] at hov ⊢
          rw [AList.lookup_insert_ne hne]; exact hov
    · cases hl
      rw [GoMap.get?_delete_ne _ _ _ hne]; exact hov
  · intro v hk
    have hov := hover _ v hk
    unfold updateGerritReportingLabels at hl
    split at hl
    · rename_i hcond
      rw [if_pos hcond]
      split at hl
      · rename_i hopt
        have hopt1 : job.Optional = false := by simpa using hopt
        rw [hopt1]
        rw [hov] at hl
        cases hl
        simpa using hov
      · rename_i hopt
        have hopt1 : job.Optional = true := by simpa using hopt
        rw [hopt1]
        cases lab with
        | none => simp [GoMap.get?] at hov
        | some m =>
          simp only [GoMap.set] at hl
          cases hl
          simp [GoMap.get?]
    · rename_i hcond
      rw [if_neg hcond]
      cases hl
      exact GoMap.get?_delete_self _ _

theorem rewritePresubmit_configured_labels_witness :
    ∃ job1, rewritePresubmit exampleExt labelExample [] (str "istio-private/istio")
          { JobBase := jobBaseExample } = .ok job1
        ∧ labelExample.Labels.get? (str "team") = some (str "infra")
        ∧ job1.JobBase.Labels.get? (str "team") = some (str "infra") := by
  obtain ⟨job1, hrun⟩ := rewritePresubmit_ok exampleExt labelExample []
      (str "istio-private/istio") { JobBase := jobBaseExample } rfl (Or.inr (by decide))
      ⟨_, rfl⟩
  exact ⟨job1, hrun, by decide,
    (rewritePresubmit_configured_labels exampleExt labelExample [] (str "istio-private/istio")
      { JobBase := jobBaseExample } job1 hrun).1 (str "team") (str "infra") (by decide)
      (by decide)⟩

/-! ## Properties: image hub rewrite -/

/-- C8, counterexample: an image string the parser rejects is not left alone by
`updateHubs`; with an empty hub map the container ends with an image rebuilt
from the zero reference. -/
theorem updateHubs_unparsable_image_overwritten :
    (exampleExt.NewTag (str "not an image")).2 = true
    ∧ (updateHubs exampleExt baseExample
          { Spec := some { Containers := [{ Image := str "not an image" }] } }).map
        (fun job => job.Spec.map (fun spec => spec.Containers.map (fun c => c.Image)))
        = .ok (some [str ":"]) := by
  decide

/-- C8, amended (a rejected image is rebuilt, not skipped). On a job with a
spec `updateHubs` completes and keeps the number of containers; a container
whose image the parser rejects ends with the name of the reference re-parsed
from the hub-substituted registry/repo and the tag of the value the parser
returned with the error. That image depends on the returned value and the hub
map only: any image for which the parser returns the same value ends the same. -/
theorem updateHubs_rejected_image (E : Ext) (o : options) (job : JobBase) (spec : PodSpec)
    (hs : job.Spec = some spec) :
    ∃ spec1, updateHubs E o job = .ok { job with Spec := some spec1 }
      ∧ spec1.Containers.length = spec.Containers.length
      ∧ ∀ (i : Nat) (c : Container), spec.Containers[i]? = some c →
          (E.NewTag c.Image).2 = true →
          ∃ c1 : Container, spec1.Containers[i]? = some c1
            ∧ c1.Image = E.tagName (E.NewTag
                (applyHubMap o.HubMap.range (E.contextName (E.NewTag c.Image).1)
                  ++ str ":" ++ E.tagStr (E.NewTag c.Image).1)).1
            ∧ ∀ image : GoString, (E.NewTag image).1 = (E.NewTag c.Image).1 →
                updateHubImage E o image = c1.Image := by
  refine ⟨{ spec with
      Containers := spec.Containers.map
        (fun c => { c with Image := updateHubImage E o c.Image }) }, ?_, ?_, ?_⟩
  · unfold updateHubs; rw [hs]
  · simp
  · intro i c hc _
    refine ⟨{ c with Image := updateHubImage E o c.Image }, ?_, rfl, ?_⟩
    · simp [List.getElem?_map, hc]
    · intro image himg
      unfold updateHubImage
      dsimp only
      rw [himg]

theorem updateHubs_rejected_image_witness :
    ∃ spec1, updateHubs exampleExt baseExample
        { Spec := some { Containers := [{ Image := str "not an image" }] } }
          = .ok { Spec := some spec1 }
      ∧ spec1.Containers.length = 1 := by
  obtain ⟨spec1, h1, h2, _⟩ := updateHubs_rejected_image exampleExt baseExample
    { Spec := some { Containers := [{ Image := str "not an image" }] } }
    { Containers := [{ Image := str "not an image" }] } rfl
  exact ⟨spec1, h1, h2⟩

/-! ## Properties: path resolver -/

theorem filepathClean_ne_nil (path : GoString) : filepathClean path ≠ [] := by
  unfold filepathClean
  split
  · decide
  · dsimp only
    split
    · intro h
      have h47 : str "/" = [47] := by decide
      rw [h47] at h
      simp at h
    · split
      · decide
      · assumption

theorem filepathJoin_ne_nil (a b : GoString) (hb : b ≠ []) : filepathJoin [a, b] ≠ [] := by
  unfold filepathJoin
  split
  · rename_i hnil
    exfalso
    by_cases ha : a = []
    · subst ha
      simp [List.dropWhile, hb] at hnil
    · simp [List.dropWhile, ha] at hnil
  · exact filepathClean_ne_nil _

/-- C9, counterexample: with a directory as output and the modifier `private`,
the flat input file `private.jobs.yaml` yields the empty path (the file is
skipped), not the output root joined with the unchanged file name. -/
theorem getOutPath_flat_prefixed_skipped :
    exampleExt.HasExtension baseExample.Output yamlExt = false
    ∧ fieldsSlash (stringsTrimPrefix (str "/in/private.jobs.yaml") (str "/in"))
        = [str "private.jobs.yaml"]
    ∧ stringsHasPrefix (str "private.jobs.yaml") baseExample.Modifier = true
    ∧ getOutPath exampleExt baseExample (str "/in/private.jobs.yaml") (str "/in") [] []
        = .ok [] := by
  decide

/-- C9, amended (flat-file path rule). With a directory as output and an input
path of 0 or 1 segments relative to the input root: when the file name does
not start with the modifier, `getOutPath` returns the non-empty path made of
the output root joined with modifier + `.` + file name; when it does, it
returns the empty path. -/
theorem getOutPath_flat (E : Ext) (o : options) (p inp : GoString)
    (branches branchesOut : List GoString)
    (hdir : E.HasExtension o.Output yamlExt = false)
    (hseg : (fieldsSlash (stringsTrimPrefix p inp)).length ≤ 1) :
    (stringsHasPrefix (flatFile p inp) o.Modifier = false →
      getOutPath E o p inp branches branchesOut
        = .ok (filepathJoin [o.Output, o.Modifier ++ str "." ++ flatFile p inp])
      ∧ filepathJoin [o.Output, o.Modifier ++ str "." ++ flatFile p inp] ≠ [])
    ∧ (stringsHasPrefix (flatFile p inp) o.Modifier = true →
      getOutPath E o p inp branches branchesOut = .ok []) := by
  have hne : o.Modifier ++ str "." ++ flatFile p inp ≠ [] := by
    intro h
    have h46 : str "." = [46] := by decide
    rw [h46] at h
    simp at h
  unfold getOutPath flatFile
  simp only [hdir, Bool.false_eq_true, if_false]
  unfold flatFile at hne
  revert hseg hne
  generalize fieldsSlash (stringsTrimPrefix p inp) = segs
  intro hseg hne
  match segs, hseg with
  | [], _ =>
    simp only [List.reverse_nil]
    constructor
    · intro h
      exact ⟨by simp [h, filenameSeparator], filepathJoin_ne_nil _ _ hne⟩
    · intro h; simp [h]
  | [file], _ =>
    simp only [List.reverse_cons, List.reverse_nil, List.nil_append]
    constructor
    · intro h
      exact ⟨by simp [h, filenameSeparator], filepathJoin_ne_nil _ _ hne⟩
    · intro h; simp [h]
  | _ :: _ :: _, h => simp at h

theorem getOutPath_flat_witness :
    exampleExt.HasExtension baseExample.Output yamlExt = false
    ∧ (fieldsSlash (stringsTrimPrefix (str "/in/jobs.yaml") (str "/in"))).length ≤ 1
    ∧ stringsHasPrefix (flatFile (str "/in/jobs.yaml") (str "/in")) baseExample.Modifier = false
    ∧ getOutPath exampleExt baseExample (str "/in/jobs.yaml") (str "/in") [] []
        = .ok (str "/out/private.jobs.yaml") :=
  ⟨by decide, by decide, by decide,
   ((getOutPath_flat exampleExt baseExample (str "/in/jobs.yaml") (str "/in") [] []
      (by decide) (by decide)).1 (by decide)).1.trans (by decide)⟩

/-! ## Properties: output merger -/

theorem JobMap.entries_eq_nil_of_zero {α : Type} (m : JobMap α) (hacc : m.Accumulated)
    (hzero : m.jobCount = 0) : m.entries = [] := by
  cases hm : m.entries with
  | nil => rfl
  | cons e rest =>
    exfalso
    have hmem : e ∈ m.entries := by rw [hm]; exact List.mem_cons_self _ _
    have hne := hacc e hmem
    unfold JobMap.jobCount at hzero
    rw [hm] at hzero
    simp only [List.map_cons, List.sum_cons] at hzero
    have : e.2.length = 0 := by omega
    exact hne (List.length_eq_zero.mp this)

/-- C10 (merge is non-destructive). For every destination, rule set and sort
token, `writeOutFile` called with a bundle that contains zero jobs (a bundle
as `generateJobs` accumulates it, every key holding at least one job) leaves
every destination file as it was: same keys, same jobs, same periodics, same
order. -/
theorem writeOutFile_zero_jobs (E : Ext) (o : options) (files : Files) (p : GoString)
    (pre : JobMap Presubmit) (post : JobMap Postsubmit) (per : List Periodic)
    (hpre : pre.Accumulated) (hpost : post.Accumulated)
    (hzero : pre.jobCount + post.jobCount + per.length = 0) :
    writeOutFile E o files p pre post per = files := by
  have h1 : pre.entries = [] := pre.entries_eq_nil_of_zero hpre (by omega)
  have h2 : post.entries = [] := post.entries_eq_nil_of_zero hpost (by omega)
  have h3 : per.length = 0 := by omega
  unfold writeOutFile
  simp [h1, h2, h3]

theorem writeOutFile_zero_jobs_witness :
    (∅ : JobMap Presubmit).Accumulated
    ∧ (∅ : JobMap Presubmit).jobCount + (∅ : JobMap Postsubmit).jobCount
        + ([] : List Periodic).length = 0
    ∧ ∀ files : Files,
        writeOutFile exampleExt { baseExample with Sort_ := str "asc" } files
          (str "/out/private.jobs.yaml") ∅ ∅ [] = files :=
  ⟨fun _ h => absurd h (List.not_mem_nil _), rfl,
   fun files => writeOutFile_zero_jobs exampleExt { baseExample with Sort_ := str "asc" } files
      (str "/out/private.jobs.yaml") ∅ ∅ [] (fun _ h => absurd h (List.not_mem_nil _))
      (fun _ h => absurd h (List.not_mem_nil _)) rfl⟩

/-! ## Properties: the job maps `generateJobs` builds -/

theorem JobMap.push_accumulated {α : Type} (m : JobMap α) (k : GoString) (job : α)
    (h : m.Accumulated) : (m.push k job).Accumulated := by
  intro e he
  unfold JobMap.push at he
  rw [AList.insert_entries] at he
  rcases List.mem_cons.mp he with heq | hmem
  · subst heq
    simp
  · exact h e ((List.kerase_sublist k m.entries).subset hmem)

theorem generatePresubmits_accumulated (E : Ext) (o : options) (presets : List Preset)
    (orgrepo : GoString) (jobs : List Presubmit) (acc res : JobMap Presubmit)
    (hacc : acc.Accumulated)
    (h : generatePresubmits E o presets orgrepo jobs acc = .ok res) : res.Accumulated := by
  induction jobs generalizing acc with
  | nil => simp only [generatePresubmits] at h; cases h; exact hacc
  | cons job rest ih =>
    simp only [generatePresubmits] at h
    split at h
    · exact absurd h (by simp)
    · exact ih acc hacc h
    · split at h
      · exact absurd h (by simp)
      · exact ih _ (JobMap.push_accumulated _ _ _ hacc) h

theorem generateAllPresubmits_accumulated (E : Ext) (o : options) (presets : List Preset)
    (entries : List (Σ _ : GoString, List Presubmit)) (acc res : JobMap Presubmit)
    (hacc : acc.Accumulated)
    (h : generateAllPresubmits E o presets entries acc = .ok res) : res.Accumulated := by
  induction entries generalizing acc with
  | nil => simp only [generateAllPresubmits] at h; cases h; exact hacc
  | cons e rest ih =>
    simp only [generateAllPresubmits] at h
    split at h
    · exact ih acc hacc h
    · split at h
      · exact absurd h (by simp)
      · rename_i acc1 h1
        exact ih acc1 (generatePresubmits_accumulated E o presets _ e.2 acc acc1 hacc h1) h

theorem generatePostsubmits_accumulated (E : Ext) (o : options) (presets : List Preset)
    (orgrepo : GoString) (jobs : List Postsubmit) (acc res : JobMap Postsubmit)
    (hacc : acc.Accumulated)
    (h : generatePostsubmits E o presets orgrepo jobs acc = .ok res) : res.Accumulated := by
  induction jobs generalizing acc with
  | nil => simp only [generatePostsubmits] at h; cases h; exact hacc
  | cons job rest ih =>
    simp only [generatePostsubmits] at h
    split at h
    · exact absurd h (by simp)
    · exact ih acc hacc h
    · split at h
      · exact absurd h (by simp)
      · exact ih _ (JobMap.push_accumulated _ _ _ hacc) h

theorem generateAllPostsubmits_accumulated (E : Ext) (o : options) (presets : List Preset)
    (entries : List (Σ _ : GoString, List Postsubmit)) (acc res : JobMap Postsubmit)
    (hacc : acc.Accumulated)
    (h : generateAllPostsubmits E o presets entries acc = .ok res) : res.Accumulated := by
  induction entries generalizing acc with
  | nil => simp only [generateAllPostsubmits] at h; cases h; exact hacc
  | cons e rest ih =>
    simp only [generateAllPostsubmits] at h
    split at h
    · exact ih acc hacc h
    · split at h
      · exact absurd h (by simp)
      · rename_i acc1 h1
        exact ih acc1 (generatePostsubmits_accumulated E o presets _ e.2 acc acc1 hacc h1) h

/-! ## Properties: config layering, field by field -/

theorem layerField_nil {α : Type} (unset : α → Prop) [DecidablePred unset] (x : α) :
    layerField unset x [] = x := rfl

theorem layerField_of_set {α : Type} (unset : α → Prop) [DecidablePred unset] (x : α)
    (ys : List α) (h : ¬ unset x) : layerField unset x ys = x := by
  induction ys with
  | nil => rfl
  | cons y rest ih =>
    unfold layerField at ih ⊢
    rw [List.foldl_cons, if_neg h]
    exact ih

theorem layerField_first {α : Type} (unset : α → Prop) [DecidablePred unset] (x : α)
    (pre : List α) (y : α) (post : List α) (hx : unset x) (hpre : ∀ z ∈ pre, unset z)
    (hy : ¬ unset y) : layerField unset x (pre ++ y :: post) = y := by
  induction pre generalizing x with
  | nil =>
    show layerField unset (if unset x then y else x) post = y
    rw [if_pos hx]
    exact layerField_of_set unset y post hy
  | cons z rest ih =>
    show layerField unset (if unset x then z else x) (rest ++ y :: post) = y
    rw [if_pos hx]
    exact ih z (hpre z (List.mem_cons_self _ _))
      (fun w hw => hpre w (List.mem_cons_of_mem _ hw))

/-- Every field that `applyDefaultTransforms` layers, as the layering of its
own values in the fragments. -/
theorem applyDefaultTransforms_fields (dst : Transform) (srcs : List Transform) :
    (applyDefaultTransforms dst srcs).Annotations
        = layerField (fun x => x = none) dst.Annotations (srcs.map (fun s => s.Annotations))
    ∧ (applyDefaultTransforms dst srcs).Bucket
        = layerField (fun x => x = []) dst.Bucket (srcs.map (fun s => s.Bucket))
    ∧ (applyDefaultTransforms dst srcs).Cluster
        = layerField (fun x => x = []) dst.Cluster (srcs.map (fun s => s.Cluster))
    ∧ (applyDefaultTransforms dst srcs).Channel
        = layerField (fun x => x = []) dst.Channel (srcs.map (fun s => s.Channel))
    ∧ (applyDefaultTransforms dst srcs).SSHKeySecret
        = layerField (fun x => x = []) dst.SSHKeySecret (srcs.map (fun s => s.SSHKeySecret))
    ∧ (applyDefaultTransforms dst srcs).Modifier
        = layerField (fun x => x = []) dst.Modifier (srcs.map (fun s => s.Modifier))
    ∧ (applyDefaultTransforms dst srcs).ServiceAccount
        = layerField (fun x => x = []) dst.ServiceAccount (srcs.map (fun s => s.ServiceAccount))
    ∧ (applyDefaultTransforms dst srcs).Input
        = layerField (fun x => x = []) dst.Input (srcs.map (fun s => s.Input))
    ∧ (applyDefaultTransforms dst srcs).Output
        = layerField (fun x => x = []) dst.Output (srcs.map (fun s => s.Output))
    ∧ (applyDefaultTransforms dst srcs).Sort_
        = layerField (fun x => x = []) dst.Sort_ (srcs.map (fun s => s.Sort_))
    ∧ (applyDefaultTransforms dst srcs).ExtraRefs
        = layerField (fun x => x.length = 0) dst.ExtraRefs (srcs.map (fun s => s.ExtraRefs))
    ∧ (applyDefaultTransforms dst srcs).Branches
        = layerField (fun x => x.length = 0) dst.Branches (srcs.map (fun s => s.Branches))
    ∧ (applyDefaultTransforms dst srcs).BranchesOut
        = layerField (fun x => x.length = 0) dst.BranchesOut (srcs.map (fun s => s.BranchesOut))
    ∧ (applyDefaultTransforms dst srcs).RefBranchOut
        = layerField (fun x => x.length = 0) dst.RefBranchOut (srcs.map (fun s => s.RefBranchOut))
    ∧ (applyDefaultTransforms dst srcs).Presets
        = layerField (fun x => x.length = 0) dst.Presets (srcs.map (fun s => s.Presets))
    ∧ (applyDefaultTransforms dst srcs).RerunOrgs
        = layerField (fun x => x.length = 0) dst.RerunOrgs (srcs.map (fun s => s.RerunOrgs))
    ∧ (applyDefaultTransforms dst srcs).RerunUsers
        = layerField (fun x => x.length = 0) dst.RerunUsers (srcs.map (fun s => s.RerunUsers))
    ∧ (applyDefaultTransforms dst srcs).EnvDenylist
        = layerField (fun x => x.length = 0) dst.EnvDenylist (srcs.map (fun s => s.EnvDenylist))
    ∧ (applyDefaultTransforms dst srcs).VolumeDenylist
        = layerField (fun x => x.length = 0) dst.VolumeDenylist (srcs.map (fun s => s.VolumeDenylist))
    ∧ (applyDefaultTransforms dst srcs).JobAllowlist
        = layerField (fun x => x.length = 0) dst.JobAllowlist (srcs.map (fun s => s.JobAllowlist))
    ∧ (applyDefaultTransforms dst srcs).JobDenylist
        = layerField (fun x => x.length = 0) dst.JobDenylist (srcs.map (fun s => s.JobDenylist))
    ∧ (applyDefaultTransforms dst srcs).RepoAllowlist
        = layerField (fun x => x.length = 0) dst.RepoAllowlist (srcs.map (fun s => s.RepoAllowlist))
    ∧ (applyDefaultTransforms dst srcs).RepoDenylist
        = layerField (fun x => x.length = 0) dst.RepoDenylist (srcs.map (fun s => s.RepoDenylist))
    ∧ (applyDefaultTransforms dst srcs).JobType
        = layerField (fun x => x.length = 0) dst.JobType (srcs.map (fun s => s.JobType))
    ∧ (applyDefaultTransforms dst srcs).Selector
        = layerField (fun x => x.len = 0) dst.Selector (srcs.map (fun s => s.Selector))
    ∧ (applyDefaultTransforms dst srcs).Labels
        = layerField (fun x => x.len = 0) dst.Labels (srcs.map (fun s => s.Labels))
    ∧ (applyDefaultTransforms dst srcs).Env
        = layerField (fun x => x.len = 0) dst.Env (srcs.map (fun s => s.Env))
    ∧ (applyDefaultTransforms dst srcs).OrgMap
        = layerField (fun x => x.len = 0) dst.OrgMap (srcs.map (fun s => s.OrgMap))
    ∧ (applyDefaultTransforms dst srcs).RefOrgMap
        = layerField (fun x => x.len = 0) dst.RefOrgMap (srcs.map (fun s => s.RefOrgMap))
    ∧ (applyDefaultTransforms dst srcs).HubMap
        = layerField (fun x => x.len = 0) dst.HubMap (srcs.map (fun s => s.HubMap))
    ∧ (applyDefaultTransforms dst srcs).Tag
        = layerField (fun x => x = []) dst.Tag (srcs.map (fun s => s.Tag))
    ∧ (applyDefaultTransforms dst srcs).DryRun
        = layerField (fun x => (!x) = true) dst.DryRun (srcs.map (fun s => s.DryRun))
    ∧ (applyDefaultTransforms dst srcs).Refs
        = layerField (fun x => (!x) = true) dst.Refs (srcs.map (fun s => s.Refs))
    ∧ (applyDefaultTransforms dst srcs).Resolve
        = layerField (fun x => (!x) = true) dst.Resolve (srcs.map (fun s => s.Resolve))
    ∧ (applyDefaultTransforms dst srcs).SSHClone
        = layerField (fun x => (!x) = true) dst.SSHClone (srcs.map (fun s => s.SSHClone))
    ∧ (applyDefaultTransforms dst srcs).OverrideSelector
        = layerField (fun x => (!x) = true) dst.OverrideSelector (srcs.map (fun s => s.OverrideSelector))
    ∧ (applyDefaultTransforms dst srcs).AllowLongJobNames
        = layerField (fun x => (!x) = true) dst.AllowLongJobNames (srcs.map (fun s => s.AllowLongJobNames))
    ∧ (applyDefaultTransforms dst srcs).Verbose
        = layerField (fun x => (!x) = true) dst.Verbose (srcs.map (fun s => s.Verbose))
    ∧ (applyDefaultTransforms dst srcs).Clean
        = layerField (fun x => (!x) = true) dst.Clean (srcs.map (fun s => s.Clean)) := by
  induction srcs generalizing dst with
  | nil => exact ⟨rfl, rfl, rfl, rfl, rfl, rfl, rfl, rfl, rfl, rfl, rfl, rfl, rfl, rfl, rfl, rfl, rfl, rfl, rfl, rfl, rfl, rfl, rfl, rfl, rfl, rfl, rfl, rfl, rfl, rfl, rfl, rfl, rfl, rfl, rfl, rfl, rfl, rfl, rfl⟩
  | cons s rest ih => exact ih (applyDefaultTransform dst s)

/-- C14 (higher precedence wins in layering). For every fragment `dst` and every
list of lower-precedence fragments, every field of `dst` that is set before
the call (a non-empty string, a non-empty list or map, a boolean true) has the
same value after `applyDefaultTransforms`, whatever the fragments contain. -/
theorem applyDefaultTransforms_keeps_set_fields (dst : Transform) (srcs : List Transform) :
    SetFieldsKept dst (applyDefaultTransforms dst srcs) := by
  obtain ⟨hAnnotations, hBucket, hCluster, hChannel, hSSHKeySecret, hModifier, hServiceAccount, hInput, hOutput, hSort_, hExtraRefs, hBranches, hBranchesOut, hRefBranchOut, hPresets, hRerunOrgs, hRerunUsers, hEnvDenylist, hVolumeDenylist, hJobAllowlist, hJobDenylist, hRepoAllowlist, hRepoDenylist, hJobType, hSelector, hLabels, hEnv, hOrgMap, hRefOrgMap, hHubMap, hTag, hDryRun, hRefs, hResolve, hSSHClone, hOverrideSelector, hAllowLongJobNames, hVerbose, hClean⟩ :=
    applyDefaultTransforms_fields dst srcs
  refine ⟨?_, ?_, ?_, ?_, ?_, ?_, ?_, ?_, ?_, ?_, ?_, ?_, ?_, ?_, ?_, ?_, ?_, ?_, ?_, ?_, ?_, ?_, ?_, ?_, ?_, ?_, ?_, ?_, ?_, ?_, ?_, ?_, ?_, ?_, ?_, ?_, ?_, ?_, ?_, ?_⟩
  · intro h; rw [hAnnotations]; exact layerField_of_set _ _ _ (fun hn => h (by rw [hn]; rfl))
  · intro h; rw [hBucket]; exact layerField_of_set _ _ _ (h)
  · intro h; rw [hCluster]; exact layerField_of_set _ _ _ (h)
  · intro h; rw [hChannel]; exact layerField_of_set _ _ _ (h)
  · intro h; rw [hSSHKeySecret]; exact layerField_of_set _ _ _ (h)
  · intro h; rw [hModifier]; exact layerField_of_set _ _ _ (h)
  · intro h; rw [hServiceAccount]; exact layerField_of_set _ _ _ (h)
  · intro h; rw [hInput]; exact layerField_of_set _ _ _ (h)
  · intro h; rw [hOutput]; exact layerField_of_set _ _ _ (h)
  · intro h; rw [hSort_]; exact layerField_of_set _ _ _ (h)
  · intro h; rw [hExtraRefs]; exact layerField_of_set _ _ _ (fun hl => h (List.length_eq_zero.mp hl))
  · intro h; rw [hBranches]; exact layerField_of_set _ _ _ (fun hl => h (List.length_eq_zero.mp hl))
  · intro h; rw [hBranchesOut]; exact layerField_of_set _ _ _ (fun hl => h (List.length_eq_zero.mp hl))
  · intro h; rw [hRefBranchOut]; exact layerField_of_set _ _ _ (fun hl => h (List.length_eq_zero.mp hl))
  · intro h; rw [hPresets]; exact layerField_of_set _ _ _ (fun hl => h (List.length_eq_zero.mp hl))
  · intro h; rw [hRerunOrgs]; exact layerField_of_set _ _ _ (fun hl => h (List.length_eq_zero.mp hl))
  · intro h; rw [hRerunUsers]; exact layerField_of_set _ _ _ (fun hl => h (List.length_eq_zero.mp hl))
  · intro h; rw [hEnvDenylist]; exact layerField_of_set _ _ _ (fun hl => h (List.length_eq_zero.mp hl))
  · intro h; rw [hVolumeDenylist]; exact layerField_of_set _ _ _ (fun hl => h (List.length_eq_zero.mp hl))
  · intro h; rw [hJobAllowlist]; exact layerField_of_set _ _ _ (fun hl => h (List.length_eq_zero.mp hl))
  · intro h; rw [hJobDenylist]; exact layerField_of_set _ _ _ (fun hl => h (List.length_eq_zero.mp hl))
  · intro h; rw [hRepoAllowlist]; exact layerField_of_set _ _ _ (fun hl => h (List.length_eq_zero.mp hl))
  · intro h; rw [hRepoDenylist]; exact layerField_of_set _ _ _ (fun hl => h (List.length_eq_zero.mp hl))
  · intro h; rw [hJobType]; exact layerField_of_set _ _ _ (fun hl => h (List.length_eq_zero.mp hl))
  · intro h; rw [hSelector]; exact layerField_of_set _ _ _ (h)
  · intro h; rw [hLabels]; exact layerField_of_set _ _ _ (h)
  · intro h; rw [hEnv]; exact layerField_of_set _ _ _ (h)
  · intro h; rw [hOrgMap]; exact layerField_of_set _ _ _ (h)
  · intro h; rw [hRefOrgMap]; exact layerField_of_set _ _ _ (h)
  · intro h; rw [hHubMap]; exact layerField_of_set _ _ _ (h)
  · intro h; rw [hTag]; exact layerField_of_set _ _ _ (h)
  · intro h; rw [hDryRun]; exact layerField_of_set _ _ _ (by simp [h])
  · intro h; rw [hRefs]; exact layerField_of_set _ _ _ (by simp [h])
  · intro h; rw [hResolve]; exact layerField_of_set _ _ _ (by simp [h])
  · intro h; rw [hSSHClone]; exact layerField_of_set _ _ _ (by simp [h])
  · intro h; rw [hOverrideSelector]; exact layerField_of_set _ _ _ (by simp [h])
  · intro h; rw [hAllowLongJobNames]; exact layerField_of_set _ _ _ (by simp [h])
  · intro h; rw [hVerbose]; exact layerField_of_set _ _ _ (by simp [h])
  · intro h; rw [hClean]; exact layerField_of_set _ _ _ (by simp [h])
  · intro _; exact applyDefaultTransforms_SupportGerritReporting dst srcs

/-- C15 (idempotence of layering). Layering a fragment with no lower-precedence
fragment leaves it unchanged, and layering it over itself yields a rule set
equal to it in every field. -/
theorem applyDefaultTransforms_idempotent (A : Transform) :
    applyDefaultTransforms A [] = A ∧ applyDefaultTransforms A [A] = A := by
  refine ⟨rfl, ?_⟩
  cases A
  simp [applyDefaultTransforms, applyDefaultTransform]

/-- An empty map in the highest-precedence fragment is filled from the first
lower fragment that holds a non-empty map, for the six maps tested with `len`. -/
theorem applyDefaultTransforms_fills_empty_maps (dst : Transform) (pre : List Transform)
    (src : Transform) (post : List Transform) :
    (dst.Selector.len = 0 → (∀ s ∈ pre, s.Selector.len = 0) → src.Selector.len ≠ 0 →
        (applyDefaultTransforms dst (pre ++ src :: post)).Selector = src.Selector)
    ∧ (dst.Labels.len = 0 → (∀ s ∈ pre, s.Labels.len = 0) → src.Labels.len ≠ 0 →
        (applyDefaultTransforms dst (pre ++ src :: post)).Labels = src.Labels)
    ∧ (dst.Env.len = 0 → (∀ s ∈ pre, s.Env.len = 0) → src.Env.len ≠ 0 →
        (applyDefaultTransforms dst (pre ++ src :: post)).Env = src.Env)
    ∧ (dst.OrgMap.len = 0 → (∀ s ∈ pre, s.OrgMap.len = 0) → src.OrgMap.len ≠ 0 →
        (applyDefaultTransforms dst (pre ++ src :: post)).OrgMap = src.OrgMap)
    ∧ (dst.RefOrgMap.len = 0 → (∀ s ∈ pre, s.RefOrgMap.len = 0) → src.RefOrgMap.len ≠ 0 →
        (applyDefaultTransforms dst (pre ++ src :: post)).RefOrgMap = src.RefOrgMap)
    ∧ (dst.HubMap.len = 0 → (∀ s ∈ pre, s.HubMap.len = 0) → src.HubMap.len ≠ 0 →
        (applyDefaultTransforms dst (pre ++ src :: post)).HubMap = src.HubMap) := by
  obtain ⟨_, _, _, _, _, _, _, _, _, _, _, _, _, _, _, _, _, _, _, _, _, _, _, _, hSelector, hLabels, hEnv, hOrgMap, hRefOrgMap, hHubMap, _, _, _, _, _, _, _, _, _⟩ :=
    applyDefaultTransforms_fields dst (pre ++ src :: post)
  refine ⟨?_, ?_, ?_, ?_, ?_, ?_⟩
  · intro h0 hpre hsrc
    rw [hSelector, List.map_append, List.map_cons]
    exact layerField_first _ _ _ _ _ h0
      (fun z hz => by
        obtain ⟨s, hs, rfl⟩ := List.mem_map.mp hz
        exact hpre s hs) hsrc
  · intro h0 hpre hsrc
    rw [hLabels, List.map_append, List.map_cons]
    exact layerField_first _ _ _ _ _ h0
      (fun z hz => by
        obtain ⟨s, hs, rfl⟩ := List.mem_map.mp hz
        exact hpre s hs) hsrc
  · intro h0 hpre hsrc
    rw [hEnv, List.map_append, List.map_cons]
    exact layerField_first _ _ _ _ _ h0
      (fun z hz => by
        obtain ⟨s, hs, rfl⟩ := List.mem_map.mp hz
        exact hpre s hs) hsrc
  · intro h0 hpre hsrc
    rw [hOrgMap, List.map_append, List.map_cons]
    exact layerField_first _ _ _ _ _ h0
      (fun z hz => by
        obtain ⟨s, hs, rfl⟩ := List.mem_map.mp hz
        exact hpre s hs) hsrc
  · intro h0 hpre hsrc
    rw [hRefOrgMap, List.map_append, List.map_cons]
    exact layerField_first _ _ _ _ _ h0
      (fun z hz => by
        obtain ⟨s, hs, rfl⟩ := List.mem_map.mp hz
        exact hpre s hs) hsrc
  · intro h0 hpre hsrc
    rw [hHubMap, List.map_append, List.map_cons]
    exact layerField_first _ _ _ _ _ h0
      (fun z hz => by
        obtain ⟨s, hs, rfl⟩ := List.mem_map.mp hz
        exact hpre s hs) hsrc

/-- C13 (empty map counts as unset in layering), evaluated on fragments whose
seven maps are present but empty in the highest-precedence fragment and
non-empty in the lower one: the six maps tested with `len` take the lower
fragment's map, the `Annotations` map, tested against nil, stays empty. -/
theorem applyDefaultTransforms_empty_annotations_not_filled :
    (applyDefaultTransforms emptyMapsExample [filledMapsExample]).Annotations = some ∅
    ∧ emptyMapsExample.Annotations.len = 0
    ∧ filledMapsExample.Annotations.len ≠ 0
    ∧ (applyDefaultTransforms emptyMapsExample [filledMapsExample]).Labels
        = filledMapsExample.Labels
    ∧ (applyDefaultTransforms emptyMapsExample [filledMapsExample]).Selector
        = filledMapsExample.Selector
    ∧ (applyDefaultTransforms emptyMapsExample [filledMapsExample]).Env
        = filledMapsExample.Env
    ∧ (applyDefaultTransforms emptyMapsExample [filledMapsExample]).OrgMap
        = filledMapsExample.OrgMap
    ∧ (applyDefaultTransforms emptyMapsExample [filledMapsExample]).RefOrgMap
        = filledMapsExample.RefOrgMap
    ∧ (applyDefaultTransforms emptyMapsExample [filledMapsExample]).HubMap
        = filledMapsExample.HubMap := by
  decide

/-! ## Properties: invalid patterns -/

theorem hasMatch_append_no_match (E : Ext) (name : GoString) (pre rest : List GoString)
    (hpre : ∀ r ∈ pre, E.regexpValid r = true ∧ E.regexpMatch r name = false) :
    hasMatch E name (pre ++ rest) = hasMatch E name rest := by
  induction pre with
  | nil => rfl
  | cons r pre ih =>
    obtain ⟨hv, hm⟩ := hpre r (List.mem_cons_self _ _)
    rw [List.cons_append]
    simp only [hasMatch, hv, hm, if_true, Bool.false_eq_true, if_false]
    exact ih (fun q hq => hpre q (List.mem_cons_of_mem _ hq))

theorem hasMatch_of_match (E : Ext) (name : GoString) (pre : List GoString) (rest : List GoString)
    (hv : ∀ r ∈ pre, E.regexpValid r = true)
    (hm : ∃ r ∈ pre, E.regexpMatch r name = true) :
    hasMatch E name (pre ++ rest) = .ok true := by
  induction pre with
  | nil => obtain ⟨r, hr, _⟩ := hm; exact absurd hr (List.not_mem_nil _)
  | cons r pre ih =>
    have hvr := hv r (List.mem_cons_self _ _)
    rw [List.cons_append]
    simp only [hasMatch, hvr, if_true]
    cases hmr : E.regexpMatch r name with
    | true => simp
    | false =>
      simp only [Bool.false_eq_true, if_false]
      apply ih (fun q hq => hv q (List.mem_cons_of_mem _ hq))
      obtain ⟨q, hq, hqm⟩ := hm
      rcases List.mem_cons.mp hq with heq | hmem
      · subst heq; rw [hmr] at hqm; exact absurd hqm (by simp)
      · exact ⟨q, hmem, hqm⟩

theorem exists_first_invalid (E : Ext) (ps : List GoString) (p : GoString) (hp : p ∈ ps)
    (hinv : E.regexpValid p = false) :
    ∃ pre q post, ps = pre ++ q :: post ∧ E.regexpValid q = false
      ∧ ∀ r ∈ pre, E.regexpValid r = true := by
  induction ps with
  | nil => exact absurd hp (List.not_mem_nil _)
  | cons a rest ih =>
    cases ha : E.regexpValid a with
    | false => exact ⟨[], a, rest, rfl, ha, fun r hr => absurd hr (List.not_mem_nil _)⟩
    | true =>
      have hmem : p ∈ rest := by
        rcases List.mem_cons.mp hp with heq | hmem
        · subst heq; rw [ha] at hinv; exact absurd hinv (by simp)
        · exact hmem
      obtain ⟨pre, q, post, heq, hq, hpre⟩ := ih hmem
      refine ⟨a :: pre, q, post, by rw [heq]; rfl, hq, ?_⟩
      intro r hr
      rcases List.mem_cons.mp hr with h | h
      · subst h; exact ha
      · exact hpre r h

/-- C16, counterexample: a pattern list that holds an invalid pattern after a
pattern that matches the name makes `hasMatch` return true; the invalid
pattern is never compiled. -/
theorem hasMatch_invalid_after_match_returns_true :
    exampleExt.regexpValid (str "(") = false
    ∧ hasMatch exampleExt (str "test-job") [str "test", str "("] = .ok true := by
  decide

/-- C16, amended (an invalid pattern is fatal unless a match comes first). For
every name and every pattern list that holds an invalid pattern, `hasMatch`
never returns false: with `q` the first invalid pattern of the list, it fails
with the fatal error when no pattern standing before `q` matches the name, and
it returns true, without compiling `q`, when one does. -/
theorem hasMatch_invalid (E : Ext) (name : GoString) (ps : List GoString) (p : GoString)
    (hp : p ∈ ps) (hinv : E.regexpValid p = false) :
    hasMatch E name ps ≠ .ok false
    ∧ ∃ pre q post, ps = pre ++ q :: post ∧ E.regexpValid q = false
        ∧ (∀ r ∈ pre, E.regexpValid r = true)
        ∧ ((∀ r ∈ pre, E.regexpMatch r name = false) →
            hasMatch E name ps = .error .badRegexp)
        ∧ ((∃ r ∈ pre, E.regexpMatch r name = true) → hasMatch E name ps = .ok true) := by
  obtain ⟨pre, q, post, heq, hq, hpre⟩ := exists_first_invalid E ps p hp hinv
  have herr : (∀ r ∈ pre, E.regexpMatch r name = false) →
      hasMatch E name ps = .error .badRegexp := by
    intro hno
    rw [heq, hasMatch_append_no_match E name pre _ (fun r hr => ⟨hpre r hr, hno r hr⟩)]
    simp [hasMatch, hq]
  have hok : (∃ r ∈ pre, E.regexpMatch r name = true) → hasMatch E name ps = .ok true := by
    intro hm
    rw [heq]
    exact hasMatch_of_match E name pre _ hpre hm
  refine ⟨?_, pre, q, post, heq, hq, hpre, herr, hok⟩
  by_cases hm : ∃ r ∈ pre, E.regexpMatch r name = true
  · rw [hok hm]; simp
  · rw [herr (fun r hr => by
      cases h : E.regexpMatch r name with
      | false => rfl
      | true => exact absurd ⟨r, hr, h⟩ hm)]
    simp

theorem hasMatch_invalid_witness :
    str "(" ∈ [str "build", str "("]
    ∧ exampleExt.regexpValid (str "(") = false
    ∧ hasMatch exampleExt (str "test-job") [str "build", str "("] ≠ .ok false
    ∧ hasMatch exampleExt (str "test-job") [str "build", str "("] = .error .badRegexp :=
  ⟨by decide, by decide,
   (hasMatch_invalid exampleExt (str "test-job") [str "build", str "("] (str "(")
      (by decide) (by decide)).1,
   by decide⟩

/-! ## Properties: translated identity -/

/-- C17 (translated identity). With `(org, repo)` the split of the key string,
`convertOrgRepoStr` returns the mapped org, a slash and the repo when
`validateOrgRepo` holds, and the empty string when it does not; the result is
the empty string if and only if the translation failed. -/
theorem convertOrgRepoStr_spec (E : Ext) (o : options) (s : GoString) :
    (validateOrgRepo o (E.SplitOrgRepo s).1 (E.SplitOrgRepo s).2 = true →
      ∃ newOrg, o.OrgMap.get? (E.SplitOrgRepo s).1 = some newOrg
        ∧ convertOrgRepoStr E o s = newOrg ++ str "/" ++ (E.SplitOrgRepo s).2)
    ∧ (validateOrgRepo o (E.SplitOrgRepo s).1 (E.SplitOrgRepo s).2 = false →
      convertOrgRepoStr E o s = [])
    ∧ (convertOrgRepoStr E o s = [] ↔
      validateOrgRepo o (E.SplitOrgRepo s).1 (E.SplitOrgRepo s).2 = false) := by
  have h47 : str "/" = [47] := by decide
  have hjoin : ∀ a b : GoString, stringsJoin [a, b] (str "/") = a ++ str "/" ++ b := by
    intro a b
    simp [stringsJoin, List.intercalate, List.intersperse]
  have hvalid : validateOrgRepo o (E.SplitOrgRepo s).1 (E.SplitOrgRepo s).2 = true →
      convertOrgRepoStr E o s
        = o.OrgMap.getD (E.SplitOrgRepo s).1 ++ str "/" ++ (E.SplitOrgRepo s).2 := by
    intro hv
    unfold convertOrgRepoStr
    simp only [hv, Bool.not_true, Bool.false_eq_true, if_false]
    exact hjoin _ _
  have hinvalid : validateOrgRepo o (E.SplitOrgRepo s).1 (E.SplitOrgRepo s).2 = false →
      convertOrgRepoStr E o s = [] := by
    intro hv
    unfold convertOrgRepoStr
    simp [hv]
  refine ⟨?_, hinvalid, ?_⟩
  · intro hv
    have hsome : (o.OrgMap.get? (E.SplitOrgRepo s).1).isSome = true := by
      unfold validateOrgRepo at hv
      cases hk : (o.OrgMap.get? (E.SplitOrgRepo s).1).isSome with
      | true => rfl
      | false => simp [hk] at hv
    obtain ⟨newOrg, hnew⟩ := Option.isSome_iff_exists.mp hsome
    refine ⟨newOrg, hnew, ?_⟩
    rw [hvalid hv, GoMap.getD, hnew]
    rfl
  · constructor
    · intro hempty
      cases hv : validateOrgRepo o (E.SplitOrgRepo s).1 (E.SplitOrgRepo s).2 with
      | false => rfl
      | true =>
        rw [hvalid hv, h47] at hempty
        simp at hempty
    · exact hinvalid

/-! ## Properties: Gerrit report label when reporting is disabled -/

/-- C18 (Gerrit label when reporting is disabled). For every labels map (a nil
map included), every value of the optional flag and of the skip-report flag,
`updateGerritReportingLabels` with support-gerrit-reporting disabled completes,
leaves the Gerrit report label key absent and leaves every other key with its
prior value. -/
theorem updateGerritReportingLabels_disabled (o : options) (skipReport optional : Bool)
    (labels : GoMap) (h : o.SupportGerritReporting = false) :
    ∃ labels1, updateGerritReportingLabels o skipReport optional labels = .ok labels1
      ∧ labels1.get? gerritReportLabel = none
      ∧ ∀ k, k ≠ gerritReportLabel → labels1.get? k = labels.get? k := by
  refine ⟨labels.delete gerritReportLabel, ?_, GoMap.get?_delete_self _ _,
    fun k hk => GoMap.get?_delete_ne _ _ _ hk⟩
  simp [updateGerritReportingLabels, h]

theorem updateGerritReportingLabels_disabled_witness :
    baseExample.SupportGerritReporting = false
    ∧ ∃ labels1, updateGerritReportingLabels baseExample false true jobBaseExample.Labels
          = .ok labels1
        ∧ labels1.get? gerritReportLabel = none
        ∧ ∀ k, k ≠ gerritReportLabel → labels1.get? k = jobBaseExample.Labels.get? k :=
  ⟨rfl, updateGerritReportingLabels_disabled baseExample false true jobBaseExample.Labels rfl⟩

/-! ## Properties: the byte-wise order of strings -/

theorem byte_eq_of_not_lt (a b : UInt8) (h1 : ¬ a < b) (h2 : ¬ b < a) : a = b := by
  rw [UInt8.lt_def, BitVec.lt_def] at h1 h2
  apply UInt8.eq_of_toBitVec_eq
  apply BitVec.eq_of_toNat_eq
  omega

theorem GoString.lt_asymm (a b : GoString) (h : List.lt a b) : ¬ List.lt b a := by
  induction h with
  | nil b bs => intro h2; cases h2
  | head as bs hab =>
    intro h2
    cases h2 with
    | head _ _ hba => exact UInt8.lt_asymm hab hba
    | tail _ hnab _ => exact hnab hab
  | tail hab hba _ ih =>
    intro h2
    cases h2 with
    | head _ _ h => exact hba h
    | tail _ _ h => exact ih h

theorem GoString.lt_or_lt_of_lt (c a : GoString) (h : List.lt c a) (b : GoString) :
    List.lt c b ∨ List.lt b a := by
  induction h generalizing b with
  | nil x xs =>
    cases b with
    | nil => exact Or.inr (List.lt.nil _ _)
    | cons y ys => exact Or.inl (List.lt.nil _ _)
  | @head c0 cs a0 as hca =>
    cases b with
    | nil => exact Or.inr (List.lt.nil _ _)
    | cons b0 bs =>
      by_cases h1 : c0 < b0
      · exact Or.inl (List.lt.head _ _ h1)
      · by_cases h2 : b0 < c0
        · exact Or.inr (List.lt.head _ _ (UInt8.lt_trans h2 hca))
        · have heq := byte_eq_of_not_lt _ _ h1 h2
          subst heq
          exact Or.inr (List.lt.head _ _ hca)
  | @tail c0 cs a0 as hca hac _ ih =>
    have heq := byte_eq_of_not_lt _ _ hca hac
    subst heq
    cases b with
    | nil => exact Or.inr (List.lt.nil _ _)
    | cons b0 bs =>
      by_cases h1 : c0 < b0
      · exact Or.inl (List.lt.head _ _ h1)
      · by_cases h2 : b0 < c0
        · exact Or.inr (List.lt.head _ _ h2)
        · rcases ih bs with h | h
          · exact Or.inl (List.lt.tail h1 h2 h)
          · exact Or.inr (List.lt.tail h2 h1 h)

theorem GoString.le_iff (a b : GoString) : a ≤ b ↔ ¬ List.lt b a := Iff.rfl

theorem GoString.le_total (a b : GoString) : a ≤ b ∨ b ≤ a := by
  by_cases h : List.lt b a
  · exact Or.inr ((GoString.le_iff _ _).mpr (GoString.lt_asymm _ _ h))
  · exact Or.inl ((GoString.le_iff _ _).mpr h)

theorem GoString.le_trans (a b c : GoString) (h1 : a ≤ b) (h2 : b ≤ c) : a ≤ c := by
  rw [GoString.le_iff] at h1 h2 ⊢
  intro h
  rcases GoString.lt_or_lt_of_lt c a h b with h3 | h3
  · exact h2 h3
  · exact h1 h3

theorem sortAsc_sorted {α : Type} (name : α → GoString) (c : List α) :
    (sortAsc name c).Sorted (fun a b => name a ≤ name b) := by
  haveI : IsTotal α (fun a b => name a ≤ name b) := ⟨fun a b => GoString.le_total _ _⟩
  haveI : IsTrans α (fun a b => name a ≤ name b) := ⟨fun a b c => GoString.le_trans _ _ _⟩
  exact List.sorted_insertionSort _ c

theorem sortDesc_sorted {α : Type} (name : α → GoString) (c : List α) :
    (sortDesc name c).Sorted (fun a b => name b ≤ name a) := by
  haveI : IsTotal α (fun a b => name b ≤ name a) := ⟨fun a b => GoString.le_total _ _⟩
  haveI : IsTrans α (fun a b => name b ≤ name a) :=
    ⟨fun a b c h1 h2 => GoString.le_trans _ _ _ h2 h1⟩
  exact List.sorted_insertionSort _ c

theorem sortAsc_perm {α : Type} (name : α → GoString) (c : List α) :
    (sortAsc name c).Perm c := List.perm_insertionSort _ c

theorem sortDesc_perm {α : Type} (name : α → GoString) (c : List α) :
    (sortDesc name c).Perm c := List.perm_insertionSort _ c

/-! ## Properties: sorting -/

theorem dlookup_map_lists {α : Type} (f : List α → List α) (k : GoString)
    (l : List (Σ _ : GoString, List α)) :
    List.dlookup k (l.map (fun e => (⟨e.1, f e.2⟩ : Σ _ : GoString, List α)))
      = (List.dlookup k l).map f := by
  induction l with
  | nil => rfl
  | cons e rest ih =>
    obtain ⟨ek, ev⟩ := e
    by_cases h : k = ek
    · subst h
      simp [List.dlookup_cons_eq]
    · rw [List.map_cons, List.dlookup_cons_ne _ _ h, List.dlookup_cons_ne _ _ h, ih]

theorem JobMap.lookup_mapLists {α : Type} (f : List α → List α) (m : JobMap α)
    (k : GoString) : (m.mapLists f).lookup k = (m.lookup k).map f :=
  dlookup_map_lists f k m.entries

theorem JobMap.mapLists_id {α : Type} (f : List α → List α) (m : JobMap α)
    (hf : ∀ c, f c = c) : m.mapLists f = m := by
  apply AList.ext
  show m.entries.map (fun e => (⟨e.1, f e.2⟩ : Σ _ : GoString, List α)) = m.entries
  have : (fun e : (Σ _ : GoString, List α) => (⟨e.1, f e.2⟩ : Σ _ : GoString, List α)) = id := by
    funext e
    obtain ⟨ek, ev⟩ := e
    simp [hf]
  rw [this, List.map_id]

theorem JobMap.eachList_mapLists {α : Type} (P : List α → List α → Prop)
    (f : List α → List α) (m : JobMap α) (hf : ∀ l, P l (f l)) :
    JobMap.EachList P m (m.mapLists f) := by
  intro k
  rw [JobMap.lookup_mapLists]
  cases h : m.lookup k with
  | none => rfl
  | some l => exact ⟨f l, rfl, hf l⟩

theorem sortList_asc {α : Type} (o : options) (name : α → GoString)
    (h : o.Sort_ = str "asc" ∨ o.Sort_ = str "ascending") (c : List α) :
    sortList o name c = sortAsc name c := by
  rcases h with h | h <;> rw [sortList, h] <;> rfl

theorem sortList_desc {α : Type} (o : options) (name : α → GoString)
    (h : o.Sort_ = str "desc" ∨ o.Sort_ = str "descending") (c : List α) :
    sortList o name c = sortDesc name c := by
  rcases h with h | h <;> rw [sortList, h] <;> rfl

theorem sortList_none {α : Type} (o : options) (name : α → GoString)
    (h : sortMatch o.Sort_ = none) (c : List α) : sortList o name c = c := by
  unfold sortList
  split
  · rfl
  · rw [h]

/-- C12 (sorting). With a sort token `asc` or `ascending`, `sortJobs` leaves
every per-repo list and the periodic list in non-decreasing order of job
name, with `desc` or `descending` in non-increasing order, each a permutation
of the list it comes from and under the same keys; with a token the pattern
does not match (the empty string, `up`, `ascend`, `ASC`, `asc ` among them)
every list is left exactly as it was. -/
theorem sortJobs_spec (o : options) (pre : JobMap Presubmit) (post : JobMap Postsubmit)
    (per : List Periodic) :
    ((o.Sort_ = str "asc" ∨ o.Sort_ = str "ascending") →
      JobMap.EachList (SortedAscOf (fun j => j.JobBase.Name)) pre (sortJobs o pre post per).1
      ∧ JobMap.EachList (SortedAscOf (fun j => j.JobBase.Name)) post
          (sortJobs o pre post per).2.1
      ∧ SortedAscOf (fun j => j.JobBase.Name) per (sortJobs o pre post per).2.2)
    ∧ ((o.Sort_ = str "desc" ∨ o.Sort_ = str "descending") →
      JobMap.EachList (SortedDescOf (fun j => j.JobBase.Name)) pre (sortJobs o pre post per).1
      ∧ JobMap.EachList (SortedDescOf (fun j => j.JobBase.Name)) post
          (sortJobs o pre post per).2.1
      ∧ SortedDescOf (fun j => j.JobBase.Name) per (sortJobs o pre post per).2.2)
    ∧ (sortMatch o.Sort_ = none → sortJobs o pre post per = (pre, post, per))
    ∧ (∀ token ∈ [str "", str "up", str "ascend", str "ASC", str "asc "],
        sortMatch token = none) := by
  refine ⟨?_, ?_, ?_, by decide⟩
  · intro h
    unfold sortJobs
    refine ⟨?_, ?_, ?_⟩
    · apply JobMap.eachList_mapLists
      intro l; rw [sortList_asc o _ h]
      exact ⟨sortAsc_perm _ l, sortAsc_sorted _ l⟩
    · apply JobMap.eachList_mapLists
      intro l; rw [sortList_asc o _ h]
      exact ⟨sortAsc_perm _ l, sortAsc_sorted _ l⟩
    · show SortedAscOf _ per (sortList o _ per)
      rw [sortList_asc o _ h]
      exact ⟨sortAsc_perm _ per, sortAsc_sorted _ per⟩
  · intro h
    unfold sortJobs
    refine ⟨?_, ?_, ?_⟩
    · apply JobMap.eachList_mapLists
      intro l; rw [sortList_desc o _ h]
      exact ⟨sortDesc_perm _ l, sortDesc_sorted _ l⟩
    · apply JobMap.eachList_mapLists
      intro l; rw [sortList_desc o _ h]
      exact ⟨sortDesc_perm _ l, sortDesc_sorted _ l⟩
    · show SortedDescOf _ per (sortList o _ per)
      rw [sortList_desc o _ h]
      exact ⟨sortDesc_perm _ per, sortDesc_sorted _ per⟩
  · intro h
    unfold sortJobs
    rw [JobMap.mapLists_id _ pre (sortList_none o _ h),
      JobMap.mapLists_id _ post (sortList_none o _ h), sortList_none o _ h]

theorem sortJobs_spec_witness :
    ({ baseExample with Sort_ := str "ascending" } : options).Sort_ = str "ascending"
    ∧ SortedAscOf (fun j : Periodic => j.JobBase.Name) periodicsExample
        (sortJobs { baseExample with Sort_ := str "ascending" } ∅ ∅ periodicsExample).2.2
    ∧ (sortJobs { baseExample with Sort_ := str "ascending" } ∅ ∅ periodicsExample).2.2.map
          (fun j => j.JobBase.Name) = [str "a", str "b", str "c"]
    ∧ (sortJobs { baseExample with Sort_ := str "desc" } ∅ ∅ periodicsExample).2.2.map
          (fun j => j.JobBase.Name) = [str "c", str "b", str "a"]
    ∧ (sortJobs { baseExample with Sort_ := str "ascend" } ∅ ∅ periodicsExample).2.2.map
          (fun j => j.JobBase.Name) = [str "b", str "a", str "c"] :=
  ⟨rfl,
   ((sortJobs_spec { baseExample with Sort_ := str "ascending" } ∅ ∅ periodicsExample).1
      (Or.inr rfl)).2.2,
   by decide, by decide, by decide⟩

/-! ## Properties: merge by append -/

theorem foldl_combine_lookup {α : Type} (l : List (Σ _ : GoString, List α))
    (hl : l.NodupKeys) (c : JobMap α) (k : GoString) :
    (l.foldl (fun acc e =>
        match acc.lookup e.1 with
        | some old => acc.insert e.1 (old ++ e.2)
        | none => acc.insert e.1 e.2) c).lookup k
      = mergeLists (c.lookup k) (List.dlookup k l) := by
  induction l generalizing c with
  | nil =>
    simp only [List.foldl_nil, List.dlookup_nil]
    cases c.lookup k <;> rfl
  | cons e rest ih =>
    obtain ⟨hnot, hrest⟩ := List.nodupKeys_cons.mp hl
    rw [List.foldl_cons, ih hrest]
    obtain ⟨ek, ev⟩ := e
    by_cases hk : k = ek
    · subst hk
      have hnone : List.dlookup k rest = none := List.dlookup_eq_none.mpr hnot
      rw [hnone, List.dlookup_cons_eq]
      cases hc : c.lookup k with
      | none => simp [mergeLists, AList.lookup_insert]
      | some old => simp [mergeLists, AList.lookup_insert]
    · rw [List.dlookup_cons_ne _ _ hk]
      have : (match c.lookup ek with
          | some old => c.insert ek (old ++ ev)
          | none => c.insert ek ev).lookup k = c.lookup k := by
        cases c.lookup ek <;> exact AList.lookup_insert_ne hk
      rw [this]

theorem combineJobs_lookup {α : Type} (combined new : JobMap α) (k : GoString) :
    (combineJobs combined new).lookup k = mergeLists (combined.lookup k) (new.lookup k) :=
  foldl_combine_lookup new.entries new.nodupKeys combined k

theorem sum_lengths_kerase {α : Type} (k : GoString) (l : List (Σ _ : GoString, List α)) :
    (l.map (fun e => e.2.length)).sum
      = ((List.kerase k l).map (fun e => e.2.length)).sum
        + ((List.dlookup k l).getD []).length := by
  induction l with
  | nil => rfl
  | cons e rest ih =>
    obtain ⟨ek, ev⟩ := e
    by_cases hk : k = ek
    · subst hk
      simp [List.kerase_cons_eq, List.dlookup_cons_eq]
      omega
    · rw [List.kerase_cons_ne hk, List.dlookup_cons_ne _ _ hk]
      simp only [List.map_cons, List.sum_cons]
      omega

theorem JobMap.jobCount_insert {α : Type} (m : JobMap α) (k : GoString) (v : List α) :
    JobMap.jobCount (m.insert k v) + ((m.lookup k).getD []).length
      = m.jobCount + v.length := by
  unfold JobMap.jobCount
  rw [AList.insert_entries, List.map_cons, List.sum_cons]
  have := sum_lengths_kerase k m.entries
  unfold AList.lookup
  dsimp only
  omega

theorem foldl_combine_jobCount {α : Type} (l : List (Σ _ : GoString, List α))
    (c : JobMap α) :
    JobMap.jobCount (l.foldl (fun acc e =>
        match acc.lookup e.1 with
        | some old => acc.insert e.1 (old ++ e.2)
        | none => acc.insert e.1 e.2) c)
      = c.jobCount + (l.map (fun e => e.2.length)).sum := by
  induction l generalizing c with
  | nil => simp
  | cons e rest ih =>
    rw [List.foldl_cons, ih, List.map_cons, List.sum_cons]
    have hstep : JobMap.jobCount (match c.lookup e.1 with
        | some old => c.insert e.1 (old ++ e.2)
        | none => c.insert e.1 e.2) = c.jobCount + e.2.length := by
      cases hc : c.lookup e.1 with
      | none =>
        have := JobMap.jobCount_insert c e.1 e.2
        rw [hc] at this
        simpa using this
      | some old =>
        have := JobMap.jobCount_insert c e.1 (old ++ e.2)
        rw [hc] at this
        simp only [Option.getD_some, List.length_append] at this
        show JobMap.jobCount (c.insert e.1 (old ++ e.2)) = c.jobCount + e.2.length
        omega
    rw [hstep]
    omega

theorem combineJobs_jobCount {α : Type} (combined new : JobMap α) :
    (combineJobs combined new).jobCount = combined.jobCount + new.jobCount :=
  foldl_combine_jobCount new.entries combined

theorem sortJobs_unsorted (o : options) (pre : JobMap Presubmit) (post : JobMap Postsubmit)
    (per : List Periodic) (h : o.Sort_ = []) : sortJobs o pre post per = (pre, post, per) := by
  have hl : ∀ {α : Type} (name : α → GoString) (c : List α), sortList o name c = c := by
    intro α name c
    unfold sortList
    rw [if_pos h]
  unfold sortJobs
  rw [JobMap.mapLists_id _ pre (hl _), JobMap.mapLists_id _ post (hl _), hl]

theorem lookup_of_entries_nil {α : Type} (m : JobMap α) (h : m.entries.length = 0)
    (k : GoString) : m.lookup k = none := by
  unfold AList.lookup
  rw [List.length_eq_zero.mp h]
  rfl

theorem jobCount_of_entries_nil {α : Type} (m : JobMap α) (h : m.entries.length = 0) :
    m.jobCount = 0 := by
  unfold JobMap.jobCount
  rw [List.length_eq_zero.mp h]
  rfl

theorem mergeLists_none {α : Type} (x : Option (List α)) : mergeLists x none = x := by
  cases x <;> rfl

/-- C11 (merge by append, new after old). With no sort configured and an
existing destination document: the collections `writeOutFile` combines hold,
for every repo key, the existing presubmits followed by the new ones (a key
present on one side only keeps that side's list), likewise for postsubmits,
and the existing periodics followed by the new ones; the number of jobs is the
sum of the two sides. When the job config stores the maps it is given, the
document at the destination after the call holds exactly these collections. -/
theorem writeOutFile_appends (E : Ext) (o : options) (files : Files) (p : GoString)
    (pre : JobMap Presubmit) (post : JobMap Postsubmit) (per : List Periodic)
    (existing : JobConfig) (hex : files p = some existing) (hsort : o.Sort_ = []) :
    ((∀ k, (combinedJobs o (some existing) pre post per).1.lookup k
        = mergeLists (existing.PresubmitsStatic.lookup k) (pre.lookup k))
      ∧ (∀ k, (combinedJobs o (some existing) pre post per).2.1.lookup k
        = mergeLists (existing.PostsubmitsStatic.lookup k) (post.lookup k))
      ∧ (combinedJobs o (some existing) pre post per).2.2 = existing.Periodics ++ per
      ∧ (combinedJobs o (some existing) pre post per).1.jobCount
          + (combinedJobs o (some existing) pre post per).2.1.jobCount
          + (combinedJobs o (some existing) pre post per).2.2.length
        = (existing.PresubmitsStatic.jobCount + existing.PostsubmitsStatic.jobCount
            + existing.Periodics.length)
          + (pre.jobCount + post.jobCount + per.length))
    ∧ ((∀ m, (E.SetPresubmits m).1 = m) → (∀ m, (E.SetPostsubmits m).1 = m) →
        ∃ doc, writeOutFile E o files p pre post per p = some doc
          ∧ (∀ k, doc.PresubmitsStatic.lookup k
              = mergeLists (existing.PresubmitsStatic.lookup k) (pre.lookup k))
          ∧ (∀ k, doc.PostsubmitsStatic.lookup k
              = mergeLists (existing.PostsubmitsStatic.lookup k) (post.lookup k))
          ∧ doc.Periodics = existing.Periodics ++ per
          ∧ doc.PresubmitsStatic.jobCount + doc.PostsubmitsStatic.jobCount
              + doc.Periodics.length
            = (existing.PresubmitsStatic.jobCount + existing.PostsubmitsStatic.jobCount
                + existing.Periodics.length)
              + (pre.jobCount + post.jobCount + per.length)) := by
  have hcomb : combinedJobs o (some existing) pre post per
      = (combineJobs existing.PresubmitsStatic pre, combineJobs existing.PostsubmitsStatic post,
          existing.Periodics ++ per) := by
    unfold combinedJobs
    exact sortJobs_unsorted o _ _ _ hsort
  have h1 : ∀ k, (combineJobs existing.PresubmitsStatic pre).lookup k
      = mergeLists (existing.PresubmitsStatic.lookup k) (pre.lookup k) :=
    fun k => combineJobs_lookup _ _ k
  have h2 : ∀ k, (combineJobs existing.PostsubmitsStatic post).lookup k
      = mergeLists (existing.PostsubmitsStatic.lookup k) (post.lookup k) :=
    fun k => combineJobs_lookup _ _ k
  have h4 : (combineJobs existing.PresubmitsStatic pre).jobCount
        + (combineJobs existing.PostsubmitsStatic post).jobCount
        + (existing.Periodics ++ per).length
      = (existing.PresubmitsStatic.jobCount + existing.PostsubmitsStatic.jobCount
          + existing.Periodics.length)
        + (pre.jobCount + post.jobCount + per.length) := by
    rw [combineJobs_jobCount, combineJobs_jobCount, List.length_append]
    omega
  constructor
  · rw [hcomb]
    exact ⟨h1, h2, rfl, h4⟩
  · intro hpre hpost
    unfold writeOutFile
    split
    · rename_i hempty
      simp only [Bool.and_eq_true, decide_eq_true_eq] at hempty
      obtain ⟨⟨he1, he2⟩, he3⟩ := hempty
      refine ⟨existing, hex, ?_, ?_, ?_, ?_⟩
      · intro k; rw [lookup_of_entries_nil pre he1 k, mergeLists_none]
      · intro k; rw [lookup_of_entries_nil post he2 k, mergeLists_none]
      · rw [List.length_eq_zero.mp he3, List.append_nil]
      · rw [jobCount_of_entries_nil pre he1, jobCount_of_entries_nil post he2, he3]
        rfl
    · refine ⟨combinedJobConfig E o (files p) pre post per, by simp, ?_⟩
      have hdoc : combinedJobConfig E o (files p) pre post per
          = { PresubmitsStatic := combineJobs existing.PresubmitsStatic pre
              PostsubmitsStatic := combineJobs existing.PostsubmitsStatic post
              Periodics := existing.Periodics ++ per } := by
        rw [hex]
        unfold combinedJobConfig
        simp only
        rw [sortJobs_unsorted o _ _ _ hsort, hpre, hpost]
      rw [hdoc]
      exact ⟨h1, h2, rfl, h4⟩

theorem writeOutFile_appends_witness :
    baseExample.Sort_ = []
    ∧ ∃ doc, writeOutFile exampleExt baseExample (fun _ => some existingDocExample)
          (str "/out/istio.yaml") newPresubmitsExample ∅ periodicsExample
          (str "/out/istio.yaml") = some doc
        ∧ (doc.PresubmitsStatic.lookup (str "istio-private/istio")).map
            (fun l => l.map (fun j => j.JobBase.Name)) = some [str "old", str "new"]
        ∧ doc.Periodics.map (fun j => j.JobBase.Name)
            = [str "nightly", str "b", str "a", str "c"] := by
  obtain ⟨doc, hdoc, hpre, _, hper, _⟩ :=
    (writeOutFile_appends exampleExt baseExample (fun _ => some existingDocExample)
      (str "/out/istio.yaml") newPresubmitsExample ∅ periodicsExample existingDocExample
      rfl rfl).2 (fun _ => rfl) (fun _ => rfl)
  refine ⟨rfl, doc, hdoc, ?_, ?_⟩
  · rw [hpre]; decide
  · rw [hper]; decide

theorem convertOrgRepoStr_spec_witness :
    validateOrgRepo baseExample (exampleExt.SplitOrgRepo (str "istio/proxy")).1
        (exampleExt.SplitOrgRepo (str "istio/proxy")).2 = true
    ∧ convertOrgRepoStr exampleExt baseExample (str "istio/proxy") = str "istio-private/proxy"
    ∧ convertOrgRepoStr exampleExt baseExample (str "kubernetes/test-infra") = [] := by
  have h := convertOrgRepoStr_spec exampleExt baseExample (str "kubernetes/test-infra")
  exact ⟨by decide, by decide, h.2.1 (by decide)⟩

/-! ## Properties: node selector -/

theorem GoMap.get?_of_len_zero (m : GoMap) (h : m.len = 0) (k : GoString) : m.get? k = none := by
  cases hg : m.get? k with
  | none => rfl
  | some v => exact absurd h (GoMap.len_ne_zero_of_get? m k v hg)

/-- C20 (node selector override precedes overlay). On a job with a container
spec `updateNodeSelector` completes and changes the node selector only. With
override-selector set the selector is a present map that holds exactly the
configured entries (no prior entry survives; it is empty when no selector is
configured); with override-selector unset every configured key maps to its
configured value and every other key keeps its prior value. -/
theorem updateNodeSelector_spec (o : options) (job : JobBase) (spec : PodSpec)
    (hs : job.Spec = some spec) :
    ∃ sel : GoMap,
      updateNodeSelector o job = .ok { job with Spec := some { spec with NodeSelector := sel } }
      ∧ (o.OverrideSelector = true →
          sel ≠ none ∧ ∀ k, sel.get? k = o.Selector.get? k)
      ∧ (o.OverrideSelector = false →
          ∀ k, sel.get? k = (o.Selector.get? k).orElse (fun _ => spec.NodeSelector.get? k)) := by
  unfold updateNodeSelector
  simp only [bind, Except.bind, hs]
  cases ho : o.OverrideSelector with
  | true =>
    simp only [if_true]
    by_cases hl : o.Selector.len = 0
    · refine ⟨some ∅, by simp [hl], fun _ => ⟨by simp, fun k => ?_⟩, fun h => by simp at h⟩
      rw [GoMap.get?_of_len_zero _ hl k]
      rfl
    · refine ⟨some (overlay ∅ o.Selector), by simp [hl, GoMap.orMake],
        fun _ => ⟨by simp, fun k => ?_⟩, fun h => by simp at h⟩
      rw [GoMap.get?, overlay_lookup]
      cases o.Selector.get? k <;> rfl
  | false =>
    simp only [Bool.false_eq_true, if_false]
    by_cases hl : o.Selector.len = 0
    · refine ⟨spec.NodeSelector, ?_, fun h => by simp at h, fun _ k => ?_⟩
      · simp only [hl, if_true]
        rw [← hs]
      · rw [GoMap.get?_of_len_zero _ hl k]
        rfl
    · refine ⟨some (overlay spec.NodeSelector.orMake o.Selector), by simp [hl, hs],
        fun h => by simp at h, fun _ k => ?_⟩
      rw [GoMap.get?, overlay_lookup]
      cases spec.NodeSelector <;> rfl

theorem updateNodeSelector_spec_witness :
    selectorJobExample.Spec
        = some { NodeSelector := some (StrMap.ofPairs
            [(str "pool", str "public"), (str "arch", str "amd64")]) }
    ∧ (updateNodeSelector selectorExample selectorJobExample).map
        (fun job => job.Spec.map (fun spec =>
          (spec.NodeSelector.get? (str "pool"), spec.NodeSelector.get? (str "arch"))))
        = .ok (some (some (str "private"), none))
    ∧ ∃ sel : GoMap, sel ≠ none ∧ ∀ k, sel.get? k = selectorExample.Selector.get? k := by
  obtain ⟨sel, _, h2, _⟩ := updateNodeSelector_spec selectorExample selectorJobExample
    { NodeSelector := some (StrMap.ofPairs
        [(str "pool", str "public"), (str "arch", str "amd64")]) } rfl
  exact ⟨rfl, by decide, sel, h2 rfl⟩

/-! ## Properties: environment overlay -/

theorem markFirst_cons_seen (k : GoString) (ks : List GoString) (val : GoString → GoString)
    (seen : List GoString) (vars : List EnvVar) (hk : k ∈ seen) :
    markFirst (k :: ks) val seen vars = markFirst ks val seen vars := by
  induction vars generalizing seen with
  | nil => rfl
  | cons e rest ih =>
    simp only [markFirst]
    rw [ih (e.Name :: seen) (List.mem_cons_of_mem _ hk)]
    congr 1
    by_cases he : e.Name = k
    · have hs : e.Name ∈ seen := he ▸ hk
      simp [hs]
    · simp [he]

theorem setEnv_names (k v : GoString) (vars : List EnvVar) :
    (setEnv k v vars).map (fun e => e.Name)
      = if k ∈ vars.map (fun e => e.Name) then vars.map (fun e => e.Name)
        else vars.map (fun e => e.Name) ++ [k] := by
  induction vars with
  | nil => simp [setEnv]
  | cons e rest ih =>
    by_cases he : e.Name = k
    · simp [setEnv, he]
    · have hne : ¬ k = e.Name := fun h => he h.symm
      simp only [setEnv, he, if_false, List.map_cons, ih, List.mem_cons, hne, false_or]
      split <;> simp

theorem markFirst_setEnv (k : GoString) (ks : List GoString) (val : GoString → GoString)
    (hk : k ∉ ks) (seen : List GoString) (vars : List EnvVar) (hseen : k ∉ seen) :
    markFirst ks val seen (setEnv k (val k) vars)
      = markFirst (k :: ks) val seen vars
        ++ (if k ∈ vars.map (fun e => e.Name) then []
            else [{ Name := k, Value := val k }]) := by
  induction vars generalizing seen with
  | nil => simp [setEnv, markFirst, hk]
  | cons e rest ih =>
    by_cases he : e.Name = k
    · have hmem : k ∈ (e :: rest).map (fun e => e.Name) := by simp [he]
      rw [if_pos hmem, List.append_nil]
      simp only [setEnv, he, if_true, markFirst]
      rw [markFirst_cons_seen k ks val (k :: seen) rest (List.mem_cons_self _ _)]
      simp [hk, hseen, he]
    · have hne : ¬ k = e.Name := fun h => he h.symm
      have hseen1 : k ∉ e.Name :: seen := by
        intro h
        rcases List.mem_cons.mp h with h | h
        · exact hne h
        · exact hseen h
      simp only [setEnv, he, if_false, markFirst, ih (e.Name :: seen) hseen1, List.map_cons,
        List.mem_cons, hne, false_or, List.cons_append]

theorem overlayEnvSpec_step (k : GoString) (ks : List GoString) (val : GoString → GoString)
    (hk : k ∉ ks) (vars : List EnvVar) :
    overlayEnvSpec ks val (setEnv k (val k) vars) = overlayEnvSpec (k :: ks) val vars := by
  unfold overlayEnvSpec
  rw [markFirst_setEnv k ks val hk [] vars (List.not_mem_nil _), setEnv_names]
  have hfilter : ∀ names : List GoString,
      ks.filter (fun x => decide (x ∉ names ++ [k])) = ks.filter (fun x => decide (x ∉ names)) := by
    intro names
    apply List.filter_congr
    intro x hx
    have hxk : x ≠ k := fun h => hk (h ▸ hx)
    simp [hxk]
  by_cases hmem : k ∈ vars.map (fun e => e.Name)
  · simp only [hmem, if_true, List.append_nil, List.filter_cons, not_true_eq_false,
      decide_False, Bool.false_eq_true, if_false]
  · simp only [hmem, if_false, hfilter, List.filter_cons, not_false_eq_true, decide_True,
      if_true, List.map_cons, List.append_assoc, List.singleton_append]

theorem foldl_setEnv_eq (keys : List GoString) (val : GoString → GoString)
    (hnodup : keys.Nodup) (vars : List EnvVar) :
    keys.foldl (fun env k => setEnv k (val k) env) vars = overlayEnvSpec keys val vars := by
  induction keys generalizing vars with
  | nil =>
    have hm : ∀ seen, markFirst [] val seen vars = vars := by
      induction vars with
      | nil => intro seen; rfl
      | cons e rest ih => intro seen; simp [markFirst, ih]
    simp [overlayEnvSpec, hm]
  | cons k ks ih =>
    obtain ⟨hk, hks⟩ := List.nodup_cons.mp hnodup
    rw [List.foldl_cons, ih hks, overlayEnvSpec_step k ks val hk]

theorem foldl_containers_env (keys : List GoString) (val : GoString → GoString)
    (cs : List Container) :
    keys.foldl (fun cs envK => cs.map (fun c => { c with Env := setEnv envK (val envK) c.Env })) cs
      = cs.map (fun c =>
          { c with Env := keys.foldl (fun env k => setEnv k (val k) env) c.Env }) := by
  induction keys generalizing cs with
  | nil => simp
  | cons k ks ih =>
    rw [List.foldl_cons, ih, List.map_map]
    rfl

theorem SortedKeys_nodup (m : GoMap) : (SortedKeys m).Nodup := by
  unfold SortedKeys
  apply (List.perm_insertionSort _ _).nodup_iff.mpr
  cases m with
  | none => simp [GoMap.range]
  | some c =>
    have h := c.nodupKeys
    simpa [GoMap.range, List.NodupKeys, List.keys, List.map_map, Function.comp_def] using h

theorem SortedKeys_sorted (m : GoMap) : (SortedKeys m).Sorted (fun a b => a ≤ b) := by
  haveI : IsTotal GoString (fun a b => a ≤ b) := ⟨GoString.le_total⟩
  haveI : IsTrans GoString (fun a b => a ≤ b) := ⟨GoString.le_trans⟩
  exact List.sorted_insertionSort _ _

theorem SortedKeys_mem (m : GoMap) (k : GoString) : k ∈ SortedKeys m ↔ m.HasKey k := by
  unfold SortedKeys GoMap.HasKey
  rw [(List.perm_insertionSort _ _).mem_iff]
  cases m with
  | none => simp [GoMap.range, GoMap.get?]
  | some c =>
    simp only [GoMap.range, GoMap.get?, List.map_map, Function.comp_def]
    rw [← Option.isSome_iff_exists, AList.lookup_isSome]
    rfl

theorem SortedKeys_length (m : GoMap) : (SortedKeys m).length = m.len := by
  unfold SortedKeys
  rw [List.length_insertionSort]
  cases m <;> simp [GoMap.range, GoMap.len]

/-- C19 (environment overlay). On a job with a container spec and a non-empty
configured env map, `updateEnvs` completes and changes the variables of the
containers only: every container ends with the variables `overlayEnvSpec`
describes for the configured keys in ascending order, each key with its
configured value. -/
theorem updateEnvs_spec (o : options) (job : JobBase) (spec : PodSpec)
    (hs : job.Spec = some spec) (hne : o.Env.len ≠ 0) :
    updateEnvs o job
      = .ok { job with
          Spec := some { spec with
            Containers := spec.Containers.map (fun c =>
              { c with Env := overlayEnvSpec (SortedKeys o.Env) o.Env.getD c.Env }) } }
    ∧ (SortedKeys o.Env).Sorted (fun a b => a ≤ b)
    ∧ (SortedKeys o.Env).Nodup
    ∧ (∀ k, k ∈ SortedKeys o.Env ↔ o.Env.HasKey k)
    ∧ (∀ k v, o.Env.get? k = some v → o.Env.getD k = v) := by
  refine ⟨?_, SortedKeys_sorted _, SortedKeys_nodup _, SortedKeys_mem _, ?_⟩
  · have hfold := foldl_containers_env (SortedKeys o.Env) o.Env.getD spec.Containers
    have hspec : ∀ c : Container,
        (SortedKeys o.Env).foldl (fun env k => setEnv k (o.Env.getD k) env) c.Env
          = overlayEnvSpec (SortedKeys o.Env) o.Env.getD c.Env :=
      fun c => foldl_setEnv_eq _ _ (SortedKeys_nodup _) c.Env
    have hkeys : SortedKeys o.Env ≠ [] := by
      intro h
      have := SortedKeys_length o.Env
      rw [h] at this
      exact hne this.symm
    unfold updateEnvs
    rw [if_neg hne]
    split
    · rename_i h0; exact absurd h0 hkeys
    · rw [hs]
      simp only [hfold, hspec]
  · intro k v hk
    simp [GoMap.getD, hk]

theorem updateEnvs_spec_witness :
    envJobExample.Spec.isSome = true
    ∧ envExample.Env.len ≠ 0
    ∧ SortedKeys envExample.Env = [str "GOPROXY", str "ZONE"]
    ∧ (updateEnvs envExample envJobExample).map
        (fun job => job.Spec.map (fun spec => spec.Containers.map (fun c => c.Env)))
        = .ok (some [[{ Name := str "HOME", Value := str "/root" },
                      { Name := str "GOPROXY", Value := str "direct", ValueFrom := some (str "ref") },
                      { Name := str "GOPROXY", Value := str "again" },
                      { Name := str "ZONE", Value := str "eu" }]]) :=
  ⟨rfl, by decide, by decide,
   ((congrArg (fun r => r.map
        (fun job => job.Spec.map (fun spec => spec.Containers.map (fun c => c.Env))))
      (updateEnvs_spec envExample envJobExample
        { Containers :=
            [{ Name := str "test"
               Env := [{ Name := str "HOME", Value := str "/root" },
                       { Name := str "GOPROXY", Value := str "off",
                         ValueFrom := some (str "ref") },
                       { Name := str "GOPROXY", Value := str "again" }] }] }
        rfl (by decide)).1).trans (by decide))⟩

/-! ## Properties: extra refs -/

theorem updateExtraRef_eq_spec (o : options) (ref : Refs) :
    updateExtraRef o ref = extraRefSpec o ref := by
  have hgit : str "git@" ++ gitHost ++ str ":" = str "git@github.com:" := by decide
  unfold updateExtraRef extraRefSpec newRefOrg
  dsimp only
  rw [hgit]
  cases hr : o.Refs <;> cases hv : validateOrgRepo o ref.Org ref.Repo <;>
    cases h1 : o.RefOrgMap.get? ref.Org <;> cases h2 : o.OrgMap.get? ref.Org <;>
    cases hs : o.SSHClone <;> by_cases hb : o.RefBranchOut = [] <;>
    simp [hb]

/-- C21 (extra-refs rewrite). After `updateExtraRefs` the extra-ref list is
the original refs, each rewritten as the specification says and in their
original order, followed by the configured extra refs (nothing is appended
when none is configured); the other fields of the utility config are
unchanged. The rewrite of one ref: unchanged in every field when refs mode is
off and `validateOrgRepo` fails; otherwise the repo is unchanged, the org
becomes the ref-org map's value, else the org map's value, else stays; the
clone URL becomes `git@github.com:<new org>/<repo>.git` under ssh-clone, else
`https://<new org>/<repo>` when the ref-org map matched, else stays; the base
ref becomes the configured ref-branch-out when that is non-empty. -/
theorem updateExtraRefs_spec (o : options) (job : UtilityConfig) :
    (updateExtraRefs o job).ExtraRefs = job.ExtraRefs.map (extraRefSpec o) ++ o.ExtraRefs
    ∧ (updateExtraRefs o job).CloneURI = job.CloneURI
    ∧ (updateExtraRefs o job).DecorationConfig = job.DecorationConfig := by
  have hf : updateExtraRef o = extraRefSpec o := funext (updateExtraRef_eq_spec o)
  unfold updateExtraRefs
  dsimp only
  rw [hf]
  split
  · exact ⟨rfl, rfl, rfl⟩
  · rename_i hlen
    have hnil : o.ExtraRefs = [] := by
      cases hx : o.ExtraRefs with
      | nil => rfl
      | cons a l => rw [hx] at hlen; simp at hlen
    rw [hnil]
    simp

theorem updateExtraRefs_spec_witness :
    (updateExtraRefs refsExample refsJobExample).ExtraRefs =
      [{ Org := str "istio-private", Repo := str "api", BaseRef := str "release",
         CloneURI := str "https://github.com/istio/api" },
       { Org := str "kubernetes", Repo := str "test-infra", BaseRef := str "release" },
       { Org := str "mirror.example.com/envoy", Repo := str "envoy", BaseRef := str "release",
         CloneURI := str "https://mirror.example.com/envoy/envoy" },
       { Org := str "istio-private", Repo := str "tools", BaseRef := str "main" }]
    ∧ (updateExtraRefs { refsExample with Refs := false, SSHClone := true }
          refsJobExample).ExtraRefs =
      [{ Org := str "istio-private", Repo := str "api", BaseRef := str "release",
         CloneURI := str "git@github.com:istio-private/api.git" },
       { Org := str "kubernetes", Repo := str "test-infra", BaseRef := str "master" },
       { Org := str "envoyproxy", Repo := str "envoy", BaseRef := str "main" },
       { Org := str "istio-private", Repo := str "tools", BaseRef := str "main" }] := by
  rw [(updateExtraRefs_spec refsExample refsJobExample).1,
    (updateExtraRefs_spec { refsExample with Refs := false, SSHClone := true }
      refsJobExample).1]
  decide

/-! ## Properties: the preset gate -/

theorem GoMap.mem_range (m : GoMap) (k v : GoString) :
    (k, v) ∈ m.range ↔ m.get? k = some v := by
  cases m with
  | none => simp [GoMap.range, GoMap.get?]
  | some c =>
    simp only [GoMap.range, GoMap.get?, List.mem_map]
    constructor
    · rintro ⟨e, he, heq⟩
      obtain ⟨ek, ev⟩ := e
      simp only [Prod.mk.injEq] at heq
      obtain ⟨rfl, rfl⟩ := heq
      exact AList.mem_lookup_iff.mpr he
    · intro h
      exact ⟨⟨k, v⟩, AList.mem_lookup_iff.mp h, rfl⟩

/-- The label gate of `mergePreset` passes exactly when the job's labels
satisfy the preset. -/
theorem presetMatches_iff (labels : GoMap) (preset : Preset) :
    presetMatches labels preset = true ↔ LabelsSatisfy labels preset := by
  unfold presetMatches LabelsSatisfy
  rw [List.all_eq_true]
  constructor
  · intro h k v hkv
    have := h (k, v) ((GoMap.mem_range _ k v).mpr hkv)
    dsimp only at this
    cases hl : labels.get? k with
    | none => rw [hl] at this; simp at this
    | some v2 =>
      rw [hl] at this
      simp only [decide_eq_true_eq] at this
      rw [this]
  · rintro h ⟨k, v⟩ hmem
    have hl := h k v ((GoMap.mem_range _ k v).mp hmem)
    dsimp only
    rw [hl]
    simp

theorem mergePreset_eq (labels : GoMap) (spec : PodSpec) (preset : Preset) :
    mergePreset labels spec preset
      = if presetMatches labels preset then mergeInto spec preset else spec := by
  unfold mergePreset mergeInto
  cases presetMatches labels preset <;> rfl

/-- C22 (preset gate). A preset changes the job only if the Resolve flag is
set and the job's labels satisfy every label the preset declares: with Resolve
unset `resolvePresets` returns the job as it was, for every list of presets;
when some declared key is missing from the job's labels or has a different
value, `mergePreset` returns the spec as it was and `resolvePresets` the job as
it was. A preset that declares no labels passes the gate for every job, and a
preset that passes the gate is merged by the three merge loops when Resolve is
set and the spec is present. -/
theorem resolvePresets_gate (o : options) (labels : GoMap) (job : JobBase) (preset : Preset) :
    (∀ presets, o.Resolve = false → resolvePresets o labels job presets = job)
    ∧ (∀ spec, (∃ k v, preset.Labels.get? k = some v ∧ labels.get? k ≠ some v) →
        mergePreset labels spec preset = spec)
    ∧ ((∃ k v, preset.Labels.get? k = some v ∧ labels.get? k ≠ some v) →
        resolvePresets o labels job [preset] = job)
    ∧ (resolvePresets o labels job [preset] ≠ job →
        o.Resolve = true ∧ LabelsSatisfy labels preset)
    ∧ (preset.Labels.len = 0 → LabelsSatisfy labels preset)
    ∧ (∀ spec, o.Resolve = true → LabelsSatisfy labels preset → job.Spec = some spec →
        resolvePresets o labels job [preset] = { job with Spec := some (mergeInto spec preset) }) := by
  have hoff : ∀ presets, o.Resolve = false → resolvePresets o labels job presets = job := by
    intro presets h
    unfold resolvePresets
    simp [h]
  have hfail : ∀ spec, (∃ k v, preset.Labels.get? k = some v ∧ labels.get? k ≠ some v) →
      mergePreset labels spec preset = spec := by
    rintro spec ⟨k, v, hp, hl⟩
    have hm : presetMatches labels preset = false := by
      cases hpm : presetMatches labels preset with
      | false => rfl
      | true => exact absurd ((presetMatches_iff _ _).mp hpm k v hp) hl
    rw [mergePreset_eq, hm]
    rfl
  have hone : (∃ k v, preset.Labels.get? k = some v ∧ labels.get? k ≠ some v) →
      resolvePresets o labels job [preset] = job := by
    intro hex
    unfold resolvePresets
    split
    · rfl
    · split
      · rfl
      · rename_i spec hspec
        rw [List.foldl_cons, List.foldl_nil, hfail spec hex]
        cases job
        simp only at hspec
        subst hspec
        rfl
  refine ⟨hoff, hfail, hone, ?_, ?_, ?_⟩
  · intro hne
    constructor
    · cases hr : o.Resolve with
      | true => rfl
      | false => exact absurd (hoff [preset] hr) hne
    · intro k v hp
      by_contra hl
      exact hne (hone ⟨k, v, hp, hl⟩)
  · intro h0 k v hp
    rw [GoMap.get?_of_len_zero _ h0 k] at hp
    exact absurd hp (by simp)
  · intro spec hr hsat hspec
    unfold resolvePresets
    rw [hr, hspec]
    simp only [Bool.not_true, Bool.false_eq_true, if_false, List.foldl_cons, List.foldl_nil]
    rw [mergePreset_eq, (presetMatches_iff _ _).mpr hsat]
    rfl

theorem resolvePresets_gate_witness :
    resolvePresets resolveExample (some (StrMap.ofPairs [(str "preset-dind", str "false")]))
        jobBaseExample [presetExample] = jobBaseExample
    ∧ resolvePresets resolveExample jobBaseExample.Labels jobBaseExample [presetExample]
        = jobBaseExample
    ∧ resolvePresets baseExample (some (StrMap.ofPairs [(str "preset-dind", str "true")]))
        jobBaseExample [presetExample] = jobBaseExample
    ∧ resolvePresets resolveExample (some (StrMap.ofPairs [(str "preset-dind", str "true")]))
        jobBaseExample [presetExample]
        = { jobBaseExample with
            Spec := some
              { Containers :=
                  [{ Name := str "test", Image := str "gcr.io/istio-testing/build-tools:v1"
                     Env := [{ Name := str "DOCKER_IN_DOCKER", Value := str "true" }]
                     VolumeMounts :=
                       [{ Name := str "docker-root", MountPath := str "/var/lib/docker" }] }]
                Volumes := [{ Name := str "docker-root", Source := str "emptyDir" }] } }
    ∧ (resolvePresets resolveExample none jobBaseExample
          [{ presetExample with Labels := none }]).Spec
        = some (mergeInto specExample presetExample) :=
  ⟨(resolvePresets_gate resolveExample _ jobBaseExample presetExample).2.2.1
      ⟨str "preset-dind", str "true", by decide, by decide⟩,
    (resolvePresets_gate resolveExample _ jobBaseExample presetExample).2.2.1
      ⟨str "preset-dind", str "true", by decide, by decide⟩,
    (resolvePresets_gate baseExample _ jobBaseExample presetExample).1 _ rfl,
    by decide, by decide⟩

/-! ## Properties: pruning -/

theorem StringSet.Has_of_Len_zero (s : StringSet) (h : ¬ s.Len > 0) (x : GoString) :
    s.Has x = false := by
  have hnil : s = [] := by
    by_contra hne
    exact h ((StringSet.Len_pos_iff s).mpr hne)
  subst hnil
  rfl

theorem filter_not_Has_of_Len_zero {α : Type} (s : StringSet) (h : ¬ s.Len > 0)
    (name : α → GoString) (l : List α) :
    l.filter (fun x => !s.Has (name x)) = l := by
  rw [List.filter_eq_self]
  intro x _
  simp [StringSet.Has_of_Len_zero s h]

/-- C23 (pruning). On a job with a container spec, after `pruneJobBase` the
volumes of the spec are the input volumes filtered by `name not in the volume
denylist`, and every container is the input container at the same position
with its variables filtered by `name not in the env denylist` and its volume
mounts filtered by `name not in the volume denylist` (so what is kept is
unchanged and in its original relative order); no denylisted variable, volume
or volume mount is left, and nothing else of the job changes. -/
theorem pruneJobBase_spec (o : options) (job : JobBase) (spec : PodSpec)
    (hs : job.Spec = some spec) :
    pruneJobBase o job =
        { job with
          Spec := some
            { spec with
              Volumes := spec.Volumes.filter (fun vol => !o.VolumeDenylistSet.Has vol.Name)
              Containers := spec.Containers.map (fun c =>
                { c with
                  Env := c.Env.filter (fun env => !o.EnvDenylistSet.Has env.Name)
                  VolumeMounts :=
                    c.VolumeMounts.filter (fun volm => !o.VolumeDenylistSet.Has volm.Name) }) } }
    ∧ (∀ spec1, (pruneJobBase o job).Spec = some spec1 →
        (∀ vol ∈ spec1.Volumes, vol.Name ∉ o.VolumeDenylistSet)
        ∧ (∀ c ∈ spec1.Containers,
            (∀ env ∈ c.Env, env.Name ∉ o.EnvDenylistSet)
            ∧ (∀ volm ∈ c.VolumeMounts, volm.Name ∉ o.VolumeDenylistSet))) := by
  have heq : pruneJobBase o job =
        { job with
          Spec := some
            { spec with
              Volumes := spec.Volumes.filter (fun vol => !o.VolumeDenylistSet.Has vol.Name)
              Containers := spec.Containers.map (fun c =>
                { c with
                  Env := c.Env.filter (fun env => !o.EnvDenylistSet.Has env.Name)
                  VolumeMounts :=
                    c.VolumeMounts.filter (fun volm => !o.VolumeDenylistSet.Has volm.Name) }) } } := by
    unfold pruneJobBase
    rw [hs]
    dsimp only
    by_cases hv : o.VolumeDenylistSet.Len > 0 <;> by_cases he : o.EnvDenylistSet.Len > 0
    · simp only [hv, he, if_true, pruneEnvs, pruneVolumes, List.map_map, Function.comp_def]
    · simp only [hv, he, if_true, if_false, pruneVolumes,
        filter_not_Has_of_Len_zero _ he]
    · simp only [hv, he, if_true, if_false, pruneEnvs,
        filter_not_Has_of_Len_zero _ hv]
    · simp only [hv, he, if_false, filter_not_Has_of_Len_zero _ he,
        filter_not_Has_of_Len_zero _ hv]
      have hid : (fun c : Container =>
          ({ Name := c.Name, Image := c.Image, Env := c.Env,
             VolumeMounts := c.VolumeMounts } : Container)) = id := rfl
      rw [hid, List.map_id]
  refine ⟨heq, ?_⟩
  intro spec1 h1
  rw [heq] at h1
  simp only [Option.some.injEq] at h1
  subst h1
  refine ⟨?_, ?_⟩
  · intro vol hvol
    have := (List.mem_filter.mp hvol).2
    simpa [StringSet.Has] using this
  · intro c hc
    obtain ⟨c0, _, rfl⟩ := List.mem_map.mp hc
    refine ⟨?_, ?_⟩
    · intro env henv
      have := (List.mem_filter.mp henv).2
      simpa [StringSet.Has] using this
    · intro volm hvolm
      have := (List.mem_filter.mp hvolm).2
      simpa [StringSet.Has] using this

theorem pruneJobBase_spec_witness :
    pruneJobBase pruneExample pruneJobExample =
      { pruneJobExample with
        Spec := some
          { Containers :=
              [{ Name := str "test"
                 Env := [{ Name := str "HOME", Value := str "/root" },
                         { Name := str "GOPROXY", Value := str "off" }]
                 VolumeMounts := [{ Name := str "cache", MountPath := str "/cache" }] }]
            Volumes := [{ Name := str "cache", Source := str "emptyDir" }] } } := by
  rw [(pruneJobBase_spec pruneExample pruneJobExample _ rfl).1]
  decide

/-! ## Properties: jobs without a container spec -/

/-- A postsubmit the pipeline emits had a container spec. -/
theorem rewritePostsubmit_spec (E : Ext) (o : options) (presets : List Preset)
    (orgrepo : GoString) (job job1 : Postsubmit)
    (h : rewritePostsubmit E o presets orgrepo job = .ok job1) :
    job.JobBase.Spec.isSome = true := by
  unfold rewritePostsubmit at h
  simp only [bind, Except.bind] at h
  split at h
  · exact absurd h (by simp)
  · rename_i j1 h1
    obtain ⟨_, hs1⟩ := updateJobBase_frame _ _ _ _ h1
    split at h
    · exact absurd h (by simp)
    · rename_i j2 h2
      obtain ⟨_, _, hs2⟩ := updateHubs_frame _ _ _ _ h2
      rw [(pruneJobBase_frame _ _).2, (resolvePresets_frame _ _ _ _).2] at hs2
      dsimp only at hs2 hs1
      rw [← hs1]; exact hs2

/-- A periodic the pipeline emits had a container spec. -/
theorem rewritePeriodic_spec (E : Ext) (o : options) (presets : List Preset)
    (job job1 : Periodic)
    (h : rewritePeriodic E o presets job = .ok job1) :
    job.JobBase.Spec.isSome = true := by
  unfold rewritePeriodic at h
  simp only [bind, Except.bind] at h
  split at h
  · exact absurd h (by simp)
  · rename_i j1 h1
    obtain ⟨_, hs1⟩ := updateJobBase_frame _ _ _ _ h1
    split at h
    · exact absurd h (by simp)
    · rename_i j2 h2
      obtain ⟨_, _, hs2⟩ := updateHubs_frame _ _ _ _ h2
      rw [(pruneJobBase_frame _ _).2, (resolvePresets_frame _ _ _ _).2] at hs2
      dsimp only at hs2 hs1
      rw [← hs1]; exact hs2

theorem Run.error_of_not_ok {α : Type} (r : Run α) (h : ∀ a, r ≠ .ok a) : ∃ e, r = .error e := by
  cases r with
  | error e => exact ⟨e, rfl⟩
  | ok a => exact absurd rfl (h a)

/-- The steps of `updateJobBase` that read the spec, and `updateTags`, on a
job base without a container spec: each ends in a nil pointer fault as soon as
the rule set makes it touch the spec. -/
theorem spec_steps_nil_spec (E : Ext) (o : options) (jb : JobBase) (hs : jb.Spec = none) :
    ((o.OverrideSelector = true ∨ o.Selector.len ≠ 0) →
        updateNodeSelector o jb = .error .nilPointer)
    ∧ (o.Env.len ≠ 0 → updateEnvs o jb = .error .nilPointer)
    ∧ (o.ServiceAccount ≠ [] → updateServiceAccount o jb = .error .nilPointer)
    ∧ (o.Tag ≠ [] → updateTags E o jb = .error .nilPointer) := by
  refine ⟨?_, ?_, ?_, ?_⟩
  · intro h
    unfold updateNodeSelector
    simp only [bind, Except.bind]
    by_cases ho : o.OverrideSelector = true
    · simp [ho, hs]
    · rcases h with h | h
      · exact absurd h ho
      · simp [ho, h, hs]
  · intro h
    unfold updateEnvs
    rw [if_neg h]
    have hk : SortedKeys o.Env ≠ [] := by
      intro hnil
      have := SortedKeys_length o.Env
      rw [hnil] at this
      exact h this.symm
    split
    · rename_i hnil
      exact absurd hnil hk
    · rw [hs]
  · intro h
    unfold updateServiceAccount
    rw [if_neg h, hs]
  · intro h
    unfold updateTags
    rw [if_neg h, hs]

/-- C24 (the rewrite pipeline on a job without a container spec). For every
rule set and every job base whose spec is absent, `updateHubs` ends in a nil
pointer fault (it ranges over `job.Spec.Containers` without the guard that
`resolvePresets` and `pruneJobBase` have), and so the sequence of steps
`generateJobs` applies ends in a runtime fault for every presubmit, postsubmit
and periodic with that job base: the pipeline never completes on such a job. -/
theorem rewrite_nil_spec_faults (E : Ext) (o : options) (presets : List Preset)
    (orgrepo : GoString) (jb : JobBase) (hs : jb.Spec = none) :
    updateHubs E o jb = .error .nilPointer
    ∧ (∀ job : Presubmit, job.JobBase = jb →
        ∃ e, rewritePresubmit E o presets orgrepo job = .error e)
    ∧ (∀ job : Postsubmit, job.JobBase = jb →
        ∃ e, rewritePostsubmit E o presets orgrepo job = .error e)
    ∧ (∀ job : Periodic, job.JobBase = jb →
        ∃ e, rewritePeriodic E o presets job = .error e) := by
  refine ⟨?_, ?_, ?_, ?_⟩
  · unfold updateHubs
    rw [hs]
  · intro job hj
    apply Run.error_of_not_ok
    intro job1 h
    have := (rewritePresubmit_labels E o presets orgrepo job job1 h).2
    rw [hj, hs] at this
    exact absurd this (by simp)
  · intro job hj
    apply Run.error_of_not_ok
    intro job1 h
    have := rewritePostsubmit_spec E o presets orgrepo job job1 h
    rw [hj, hs] at this
    exact absurd this (by simp)
  · intro job hj
    apply Run.error_of_not_ok
    intro job1 h
    have := rewritePeriodic_spec E o presets job job1 h
    rw [hj, hs] at this
    exact absurd this (by simp)

theorem rewrite_nil_spec_faults_witness :
    updateHubs exampleExt baseExample noSpecExample = .error .nilPointer
    ∧ validateJob exampleExt baseExample (str "test-job") [] (str "presubmit") = .ok true
    ∧ rewritePresubmit exampleExt baseExample [] (str "istio-private/istio")
        { JobBase := noSpecExample } = .error .nilPointer
    ∧ rewritePostsubmit exampleExt baseExample [] (str "istio-private/istio")
        { JobBase := noSpecExample } = .error .nilPointer
    ∧ rewritePeriodic exampleExt baseExample [] { JobBase := noSpecExample }
        = .error .nilPointer
    ∧ generatePresubmits exampleExt baseExample [] (str "istio-private/istio")
        [{ JobBase := noSpecExample }] ∅ = .error .nilPointer :=
  ⟨(rewrite_nil_spec_faults exampleExt baseExample [] (str "istio-private/istio")
      noSpecExample rfl).1, by decide, by decide, by decide, by decide, by decide⟩

/-! ## Properties: the Gerrit step on jobs without labels -/

/-- C25 (the Gerrit step on a job without labels). With
support-gerrit-reporting enabled and the skip-report flag unset,
`updateGerritReportingLabels` on an absent (nil) label map ends in a runtime
fault, the write to a nil map, for both values of the optional flag; `updateLabels`
leaves an absent label map absent when no labels are configured, so the
presubmit pipeline of `generateJobs` faults on every such presubmit. With
support disabled or skip-report set the call completes and the map stays
absent. -/
theorem updateGerritReportingLabels_nil_labels_faults (o : options)
    (skipReport optional : Bool)
    (hsup : o.SupportGerritReporting = true) (hskip : skipReport = false) :
    updateGerritReportingLabels o skipReport optional none = .error .nilMapWrite
    ∧ (∀ job : JobBase, job.Labels = none → o.Labels.len = 0 →
        (updateLabels o job).Labels = none)
    ∧ (∀ (E : Ext) (presets : List Preset) (orgrepo : GoString) (job : Presubmit),
        job.JobBase.Labels = none → o.Labels.len = 0 → job.SkipReport = skipReport →
        ∃ e, rewritePresubmit E o presets orgrepo job = .error e)
    ∧ (∀ o1 : options, o1.SupportGerritReporting = false →
        updateGerritReportingLabels o1 skipReport optional none = .ok none)
    ∧ updateGerritReportingLabels o true optional none = .ok none := by
  have hfault : ∀ opt, updateGerritReportingLabels o skipReport opt none
      = .error .nilMapWrite := by
    intro opt
    unfold updateGerritReportingLabels
    rw [hsup, hskip]
    cases opt <;> rfl
  refine ⟨hfault optional, ?_, ?_, ?_, ?_⟩
  · intro job hl h0
    rw [updateLabels_Labels, labelsAfterOverlay, if_pos h0, hl]
  · intro E presets orgrepo job hl h0 hsk
    cases hrun : rewritePresubmit E o presets orgrepo job with
    | error e => exact ⟨e, rfl⟩
    | ok job1 =>
      have h := (rewritePresubmit_labels E o presets orgrepo job job1 hrun).1
      rw [labelsAfterOverlay, if_pos h0, hl, hsk, hfault job.Optional] at h
      exact absurd h (by simp)
  · intro o1 h1
    unfold updateGerritReportingLabels
    rw [h1]
    rfl
  · unfold updateGerritReportingLabels
    simp [GoMap.delete]

theorem updateGerritReportingLabels_nil_labels_faults_witness :
    updateGerritReportingLabels gerritExample false false none = .error .nilMapWrite
    ∧ updateGerritReportingLabels gerritExample false true none = .error .nilMapWrite
    ∧ validateJob exampleExt gerritExample (str "test-job") [] (str "presubmit") = .ok true
    ∧ rewritePresubmit exampleExt gerritExample [] (str "istio-private/istio")
        { JobBase := noLabelsExample } = .error .nilMapWrite
    ∧ (rewritePresubmit exampleExt baseExample [] (str "istio-private/istio")
        { JobBase := noLabelsExample }).map (fun job => job.JobBase.Labels) = .ok none :=
  ⟨(updateGerritReportingLabels_nil_labels_faults gerritExample false false rfl rfl).1,
    (updateGerritReportingLabels_nil_labels_faults gerritExample false true rfl rfl).1,
    by decide, by decide, by decide⟩

/-! ## Properties: the job name under a long modifier -/

theorem nameSuffix_length (o : options) (h : o.Modifier ≠ []) :
    (nameSuffix o).length = 1 + o.Modifier.length := by
  unfold nameSuffix
  rw [if_pos h, List.length_append]
  rfl

/-- C26 (the job name under a long modifier). With long names not allowed and
a modifier of 63 or more bytes, `updateJobName` ends in a runtime fault for
every job name: the suffix `_` + modifier has at least 64 bytes, the maximum
name length `63 - len(suffix)` is negative, every name is longer than it, and
the slice `job.Name[:maxNameLen]` is out of range. `updateJobBase` faults with
it, so no name of at most 63 bytes is produced. -/
theorem updateJobName_long_modifier_faults (o : options) (job : JobBase)
    (hl : o.AllowLongJobNames = false) (hm : 63 ≤ o.Modifier.length) :
    updateJobName o job = .error .sliceBounds
    ∧ ∀ orgrepo, updateJobBase o job orgrepo = .error .sliceBounds := by
  have hne : o.Modifier ≠ [] := by
    intro h; rw [h] at hm; simp at hm
  have hlen := nameSuffix_length o hne
  have hname : ∀ j : JobBase, updateJobName o j = .error .sliceBounds := by
    intro j
    unfold updateJobName sliceTo
    simp only [hl, Bool.not_false, if_true, maxLabelLen]
    have h1 : ((j.Name.length : Int) > 63 - ((nameSuffix o).length : Int)) := by
      rw [hlen]; push_cast; omega
    have h2 : ¬ (0 ≤ (63 : Int) - ((nameSuffix o).length : Int)
        ∧ (63 : Int) - ((nameSuffix o).length : Int) ≤ (j.Name.length : Int)) := by
      rw [hlen]; push_cast; omega
    rw [if_pos h1, if_neg h2]
  refine ⟨hname job, ?_⟩
  intro orgrepo
  unfold updateJobBase
  simp only [bind, Except.bind, hname]

theorem updateJobName_long_modifier_faults_witness :
    longModifierExample.Modifier.length = 63
    ∧ updateJobName longModifierExample { Name := str "test-job" } = .error .sliceBounds
    ∧ updateJobName longModifierExample {} = .error .sliceBounds
    ∧ (updateJobName { baseExample with Modifier := List.replicate 62 120 }
          { Name := str "test-job" }).map (fun job => job.Name.length) = .ok 63 :=
  ⟨by decide,
    (updateJobName_long_modifier_faults longModifierExample { Name := str "test-job" }
      rfl (by decide)).1,
    (updateJobName_long_modifier_faults longModifierExample {} rfl (by decide)).1,
    by decide⟩

/-! ## Properties: the path resolver and the branch lists -/

/-- The function `getOutPath` returns a path or the empty string whenever a
target branch is given or no output branch is. -/
theorem getOutPath_ok (E : Ext) (o : options) (p inp : GoString)
    (branches branchesOut : List GoString) (h : branches ≠ [] ∨ branchesOut = []) :
    ∃ r, getOutPath E o p inp branches branchesOut = .ok r := by
  unfold getOutPath
  dsimp only
  split
  · exact ⟨_, rfl⟩
  · split
    · split
      · split
        · exact ⟨_, rfl⟩
        · split
          · rename_i hb
            rcases h with h | h
            · exact absurd rfl h
            · exact absurd h (by simp)
          · exact ⟨_, rfl⟩
      · exact ⟨_, rfl⟩
    · split <;> exact ⟨_, rfl⟩
    · split <;> exact ⟨_, rfl⟩
    · split <;> exact ⟨_, rfl⟩

/-- C27 (the path resolver on an empty target-branch list). When the output
target is a directory, the path has at least three segments below the input
root, the org segment is a key of the org map, at least one output branch is
given and no target branch is, `getOutPath` ends in a runtime fault: the index
expression `branches[0]` is out of range. `generateJobs` passes the configured
branch lists, so the walk faults on such a document for every rule set with
output branches and no target branches. -/
theorem getOutPath_empty_branches_faults (E : Ext) (o : options) (p inp : GoString)
    (out0 : GoString) (outs : List GoString)
    (file repo org newOrg : GoString) (rest : List GoString)
    (hext : E.HasExtension o.Output yamlExt = false)
    (hseg : (fieldsSlash (stringsTrimPrefix p inp)).reverse = file :: repo :: org :: rest)
    (horg : o.OrgMap.get? org = some newOrg) :
    getOutPath E o p inp [] (out0 :: outs) = .error .indexRange
    ∧ (∀ (presets : List Preset) (files : Files),
        o.Input = inp → o.Branches = [] → o.BranchesOut = out0 :: outs →
        generateJobsFile E o presets files p = .error .indexRange) := by
  have hfault : getOutPath E o p inp [] (out0 :: outs) = .error .indexRange := by
    unfold getOutPath
    simp only [hext, hseg, horg]
    rfl
  refine ⟨hfault, ?_⟩
  intro presets files hi hb hbo
  unfold generateJobsFile
  rw [hi, hb, hbo, hfault]
  rfl

theorem getOutPath_empty_branches_faults_witness :
    getOutPath exampleExt branchesOutExample (str "/in/istio/istio/istio.istio.master.yaml")
      (str "/in") [] [str "release-1.0"] = .error .indexRange
    ∧ getOutPath exampleExt branchesOutExample (str "/in/istio/istio/istio.istio.master.yaml")
      (str "/in") [str "master"] [str "release-1.0"]
        = .ok (str "/out/istio-private/istio/istio.istio.release-1.0.yaml")
    ∧ getOutPath exampleExt branchesOutExample (str "/in/istio/istio/istio.istio.master.yaml")
      (str "/in") [] [] = .ok (str "/out/istio-private/istio/istio.istio.master.yaml") :=
  ⟨(getOutPath_empty_branches_faults exampleExt branchesOutExample
      (str "/in/istio/istio/istio.istio.master.yaml") (str "/in") (str "release-1.0") []
      (str "istio.istio.master.yaml") (str "istio") (str "istio") (str "istio-private") []
      (by decide) (by decide) (by decide)).1,
    by decide, by decide⟩

/-! ## Properties: periodic survival -/

theorem allRefs_not_iff (o : options) (refs : List Refs) :
    allRefs refs (fun val _ => !validateOrgRepo o val.Org val.Repo) = true
      ↔ ¬ ∃ ref ∈ refs, validateOrgRepo o ref.Org ref.Repo = true := by
  unfold allRefs
  have h : ∀ (l : List Refs) (n : Nat),
      (l.enumFrom n).all (fun ir => !validateOrgRepo o ir.2.Org ir.2.Repo)
        = l.all (fun ref => !validateOrgRepo o ref.Org ref.Repo) := by
    intro l
    induction l with
    | nil => intro n; rfl
    | cons a rest ih =>
      intro n
      rw [List.enumFrom_cons, List.all_cons, List.all_cons, ih]
  rw [List.enum, h, List.all_eq_true]
  simp

theorem validateOrgRepo_Refs (o : options) (r : Bool) (org repo : GoString) :
    validateOrgRepo { o with Refs := r } org repo = validateOrgRepo o org repo := rfl

theorem validateJob_Refs (E : Ext) (o : options) (r : Bool) (name : GoString)
    (patterns : List GoString) (jType : GoString) :
    validateJob E { o with Refs := r } name patterns jType = validateJob E o name patterns jType :=
  rfl

/-- C28 (periodic survival). The checks of `generateJobs` on a periodic: with
no extra ref that passes `validateOrgRepo` the job is dropped (in particular
with no extra refs at all); otherwise the outcome is that of `validateJob` on
the job's name, the type `periodic` and, as branch patterns, the base refs of
exactly the extra refs that pass `validateOrgRepo`, in order. So the job is
kept iff some extra ref passes and `validateJob` holds; the refs-mode flag has
no influence; a dropped job adds nothing to the periodics, a kept one is
rewritten and appended. -/
theorem keepPeriodic_spec (E : Ext) (o : options) (job : Periodic) :
    keepPeriodic E o job =
        (if ∃ ref ∈ job.JobBase.UtilityConfig.ExtraRefs, validateOrgRepo o ref.Org ref.Repo = true
          then validateJob E o job.JobBase.Name
            ((job.JobBase.UtilityConfig.ExtraRefs.filter
              (fun ref => validateOrgRepo o ref.Org ref.Repo)).map (fun ref => ref.BaseRef))
            (str "periodic")
          else .ok false)
    ∧ (keepPeriodic E o job = .ok true ↔
        (∃ ref ∈ job.JobBase.UtilityConfig.ExtraRefs, validateOrgRepo o ref.Org ref.Repo = true)
        ∧ validateJob E o job.JobBase.Name
            ((job.JobBase.UtilityConfig.ExtraRefs.filter
              (fun ref => validateOrgRepo o ref.Org ref.Repo)).map (fun ref => ref.BaseRef))
            (str "periodic") = .ok true)
    ∧ (job.JobBase.UtilityConfig.ExtraRefs = [] → keepPeriodic E o job = .ok false)
    ∧ (∀ r, keepPeriodic E { o with Refs := r } job = keepPeriodic E o job)
    ∧ (∀ presets acc, keepPeriodic E o job = .ok false →
        generatePeriodics E o presets [job] acc = .ok acc)
    ∧ (∀ presets acc, keepPeriodic E o job = .ok true →
        generatePeriodics E o presets [job] acc
          = (rewritePeriodic E o presets job).map (fun job1 => acc ++ [job1])) := by
  have hmain : keepPeriodic E o job =
        (if ∃ ref ∈ job.JobBase.UtilityConfig.ExtraRefs, validateOrgRepo o ref.Org ref.Repo = true
          then validateJob E o job.JobBase.Name
            ((job.JobBase.UtilityConfig.ExtraRefs.filter
              (fun ref => validateOrgRepo o ref.Org ref.Repo)).map (fun ref => ref.BaseRef))
            (str "periodic")
          else .ok false) := by
    unfold keepPeriodic periodicBranches
    by_cases hex : ∃ ref ∈ job.JobBase.UtilityConfig.ExtraRefs,
        validateOrgRepo o ref.Org ref.Repo = true
    · rw [if_pos hex]
      have hlen : ¬ job.JobBase.UtilityConfig.ExtraRefs.length = 0 := by
        obtain ⟨ref, hmem, _⟩ := hex
        intro h0
        rw [List.length_eq_zero.mp h0] at hmem
        exact absurd hmem (List.not_mem_nil _)
      have hall : ¬ allRefs job.JobBase.UtilityConfig.ExtraRefs
          (fun val _ => !validateOrgRepo o val.Org val.Repo) = true := by
        rw [allRefs_not_iff]; exact not_not.mpr hex
      rw [if_neg hlen, if_neg hall]
    · rw [if_neg hex]
      split
      · rfl
      · rw [if_pos ((allRefs_not_iff o _).mpr hex)]
  refine ⟨hmain, ?_, ?_, ?_, ?_, ?_⟩
  · rw [hmain]
    split
    · rename_i hex
      exact ⟨fun h => ⟨hex, h⟩, fun h => h.2⟩
    · rename_i hex
      exact ⟨fun h => absurd h (by simp), fun h => absurd h.1 hex⟩
  · intro hnil
    unfold keepPeriodic
    rw [hnil]
    rfl
  · intro r
    rfl
  · intro presets acc hk
    rw [generatePeriodics, hk]
    rfl
  · intro presets acc hk
    rw [generatePeriodics, hk]
    dsimp only
    cases rewritePeriodic E o presets job <;> rfl

theorem keepPeriodic_spec_witness :
    keepPeriodic exampleExt masterExample periodicExample = .ok true
    ∧ keepPeriodic exampleExt { masterExample with Branches := [str "main"] } periodicExample
        = .ok false
    ∧ keepPeriodic exampleExt { baseExample with Refs := true }
        { JobBase := { Name := str "nightly", Spec := some specExample } } = .ok false
    ∧ keepPeriodic exampleExt { baseExample with Refs := true }
        { JobBase :=
            { Name := str "nightly"
              UtilityConfig :=
                { ExtraRefs := [{ Org := str "kubernetes", Repo := str "test-infra" }] } } }
        = .ok false
    ∧ (generatePeriodics exampleExt masterExample [] [periodicExample] []).map
        (fun l => l.map (fun job => job.JobBase.Name)) = .ok [str "nightly_private"] := by
  refine ⟨?_, ?_, ?_, ?_, ?_⟩
  · exact (keepPeriodic_spec exampleExt masterExample periodicExample).2.1.mpr
      ⟨⟨{ Org := str "istio", Repo := str "istio", BaseRef := str "master" },
        by decide, by decide⟩, by decide⟩
  · decide
  · exact (keepPeriodic_spec exampleExt { baseExample with Refs := true }
      { JobBase := { Name := str "nightly", Spec := some specExample } }).2.2.1 rfl
  · decide
  · decide

/-! ## Properties: hub rewriting and the order of the hub map -/

/-- C29 (hub rewriting and the order of the hub map). The hub map with the
entries `gcr.io -> quay.io` and `quay.io -> private.example.com` rewrites
the registry/repo string `gcr.io/istio-testing/build-tools` to
`private.example.com/istio-testing/build-tools` when the range loop of
`updateHubs` visits `gcr.io` first, and to `quay.io/istio-testing/build-tools`
when it visits `quay.io` first: the same map, two visiting orders, two
different images emitted. So the result of the replacements is not the same
for every order in which the entries of a hub map are visited. -/
theorem applyHubMap_order_dependent :
    hubsReversedExample.entries = hubsExample.entries.reverse
    ∧ hubsReversedExample.entries.Perm hubsExample.entries
    ∧ applyHubMap (GoMap.range (some hubsExample)) (str "gcr.io/istio-testing/build-tools")
        = str "private.example.com/istio-testing/build-tools"
    ∧ applyHubMap (GoMap.range (some hubsReversedExample))
          (str "gcr.io/istio-testing/build-tools")
        = str "quay.io/istio-testing/build-tools"
    ∧ (updateHubs exampleExt { baseExample with HubMap := some hubsExample } jobBaseExample).map
          (fun job => job.Spec.map (fun spec => spec.Containers.map (fun c => c.Image)))
        = .ok (some [str "private.example.com/istio-testing/build-tools:v1"])
    ∧ (updateHubs exampleExt { baseExample with HubMap := some hubsReversedExample }
            jobBaseExample).map
          (fun job => job.Spec.map (fun spec => spec.Containers.map (fun c => c.Image)))
        = .ok (some [str "quay.io/istio-testing/build-tools:v1"])
    ∧ ¬ (∀ (m1 m2 : StrMap) (baseref : GoString), m1.entries.Perm m2.entries →
          applyHubMap (GoMap.range (some m1)) baseref
            = applyHubMap (GoMap.range (some m2)) baseref) := by
  have hrev : hubsReversedExample.entries = hubsExample.entries.reverse := by decide
  have hperm : hubsReversedExample.entries.Perm hubsExample.entries := by
    rw [hrev]
    exact List.reverse_perm _
  have h1 : applyHubMap (GoMap.range (some hubsExample)) (str "gcr.io/istio-testing/build-tools")
      = str "private.example.com/istio-testing/build-tools" := by decide
  have h2 : applyHubMap (GoMap.range (some hubsReversedExample))
      (str "gcr.io/istio-testing/build-tools")
        = str "quay.io/istio-testing/build-tools" := by decide
  refine ⟨hrev, hperm, h1, h2, by decide, by decide, ?_⟩
  intro hall
  have h := hall hubsReversedExample hubsExample (str "gcr.io/istio-testing/build-tools") hperm
  rw [h1, h2] at h
  exact absurd h (by decide)

end Prowtrans
